import Mathlib

/-!
# acme-proxy: key codec, certificate records, the SNI matcher and the refresh batch

A shallow embedding of `pkg/cert` (keys.go, match.go, certificate.go, parse.go), of
`app/models/certificate.go`, of the refresh query of `app/query/certificate.go` and of
`app/server` (certs.go, grpc.go, verify.go).

Conventions of the embedding

* A Go `string` is a `List Char` (`Str`).  The code compares strings, cuts them at the
  one-byte separators `.` and `,`, sorts them and lower-cases them, which for UTF-8 text
  is the same on bytes and on characters.
* A Go `[]byte` is a `List Nat` (`Bytes`); a nil slice and an empty slice are both `[]`
  (the code only ever takes `len` of them).
* A Go `(value, error)` result whose two halves exclude each other is an `Except`; a result
  that can carry both (or that the source spells as a triple) is a tuple with an
  `Option Err` in the error slot, `none` being the nil error.
* The Go standard library (`crypto/x509`, `encoding/pem`, `unicode`, `net/http`) and the
  cache library (`rediscache`) are not part of the repository: they are parameters
  (`X509`, `PEM`, `Unicode`, `Verifier`, `rediscache.Cache`), with the facts the proofs
  need about them stated as explicit laws.
* A run-time fault (index out of range, nil dereference) is the `panic` constructor of
  `Outcome`.
* The server's collaborators (resolver, database manager, CA client, matcher) are the
  fields of `server.World`; the calls made on them are recorded, in order, in a
  `server.Log`, and each answer may depend on the calls made before.  The echo check is
  not among them: it is the method `verifyDomain` of verify.go.
* A Go `int` that the code counts with is an `Int` wrapped into 64 bits (`int.wrap`).
-/

set_option autoImplicit false
set_option linter.dupNamespace false

deriving instance DecidableEq for Except

/-! ## Basic types -/

/-- Go `string`. -/
abbrev Str := List Char

/-- Go `[]byte`. -/
abbrev Bytes := List Nat

/-- Go `time.Time`, as seconds since the epoch. -/
abbrev time.Time := Nat

/-- Go `error` values that are not nil.  `ErrNil` is `rediscache.ErrNil`, `ErrNoRows` is
`pg.ErrNoRows`, `msg` an error made by `errors.New` or `fmt.Errorf` without `%w`, `wrap`
one made by `fmt.Errorf` with `%w`, and `lib` an error coming out of a library call. -/
inductive Err where
  | ErrNil
  | ErrNoRows
  | msg (text : String)
  | wrap (text : String) (inner : Err)
  | lib (code : Nat)
  deriving DecidableEq, Repr

/-- The test `errors.Is(err, rediscache.ErrNil)` on a non-nil error. -/
def Err.isErrNil : Err → Bool
  | .ErrNil => true
  | .wrap _ inner => inner.isErrNil
  | .ErrNoRows => false
  | .msg _ => false
  | .lib _ => false

/-- The test `errors.Is(err, rediscache.ErrNil)` on an error slot (false on nil). -/
def errorsIsErrNil : Option Err → Bool
  | none => false
  | some e => e.isErrNil

/-- What a call does: it faults, or it returns. -/
inductive Outcome (α : Type) where
  | panic (reason : String)
  | returned (value : α)
  deriving DecidableEq, Repr

/-! ## Keys (`crypto`, `crypto/ecdsa`, `crypto/rsa`) -/

/-- The value behind an `*ecdsa.PrivateKey`. -/
structure ecdsa.PrivateKey where
  Curve : Nat
  D : Nat
  deriving DecidableEq, Repr

/-- The value behind an `*rsa.PrivateKey`. -/
structure rsa.PrivateKey where
  N : Nat
  E : Nat
  D : Nat
  deriving DecidableEq, Repr

/-- Go `crypto.PrivateKey`, an empty interface: the dynamic types a value of it can have
in this program.  `bytes` is a `[]byte` stored in the interface, `nil` the nil interface. -/
inductive crypto.PrivateKey where
  | nil
  | ecdsa (k : ecdsa.PrivateKey)
  | rsa (k : rsa.PrivateKey)
  | ed25519 (seed : Bytes)
  | bytes (b : Bytes)
  deriving DecidableEq, Repr

/-- The fields of an `x509.Certificate` that the program reads.  `IPAddresses` holds the
`String()` form of each address. -/
structure x509.Certificate where
  IsCA : Bool
  NotAfter : time.Time
  CommonName : Str
  DNSNames : List Str
  IPAddresses : List Str
  deriving DecidableEq, Repr

/-- Go `crypto/x509`, the functions the program calls. -/
structure X509 where
  ParsePKCS1PrivateKey : Bytes → Except Err rsa.PrivateKey
  ParsePKCS8PrivateKey : Bytes → Except Err crypto.PrivateKey
  ParseECPrivateKey : Bytes → Except Err ecdsa.PrivateKey
  MarshalECPrivateKey : ecdsa.PrivateKey → Except Err Bytes
  MarshalPKCS1PrivateKey : rsa.PrivateKey → Bytes
  ParseCertificate : Bytes → Except Err x509.Certificate

/-- The facts about `crypto/x509` that the round trip of keys rests on: each canonical
encoding parses back to its key, and a SEC1 encoding is neither a PKCS1 nor a PKCS8
document; an EC key that came out of a parser is on a named curve, so it marshals. -/
structure X509.Laws (x : X509) : Prop where
  pkcs1_roundtrip : ∀ k, x.ParsePKCS1PrivateKey (x.MarshalPKCS1PrivateKey k) = .ok k
  ec_roundtrip : ∀ k der, x.MarshalECPrivateKey k = .ok der → x.ParseECPrivateKey der = .ok k
  ec_not_pkcs1 : ∀ k der, x.MarshalECPrivateKey k = .ok der →
    ∃ e, x.ParsePKCS1PrivateKey der = .error e
  ec_not_pkcs8 : ∀ k der, x.MarshalECPrivateKey k = .ok der →
    ∃ e, x.ParsePKCS8PrivateKey der = .error e
  ec_parsed_marshals : ∀ der k, x.ParseECPrivateKey der = .ok k →
    ∃ d, x.MarshalECPrivateKey k = .ok d
  pkcs8_ec_marshals : ∀ der k, x.ParsePKCS8PrivateKey der = .ok (.ecdsa k) →
    ∃ d, x.MarshalECPrivateKey k = .ok d

/-! ## `pkg/cert/keys.go` -/

/-- The key-type tag (keys.go, `KeyType` and its three constants). -/
inductive cert.KeyType where
  | KeyTypeUnknown
  | KeyTypeEC
  | KeyTypePKCS1
  deriving DecidableEq, Repr

/-- `ParsePrivateKeyByType` (keys.go 19-29).  On a library error the key slot holds the
library's nil pointer, written `crypto.PrivateKey.nil`. -/
def cert.ParsePrivateKeyByType (x : X509) (der : Bytes) (typ : cert.KeyType) :
    crypto.PrivateKey × Option Err :=
  match typ with
  | .KeyTypeEC =>
    match x.ParseECPrivateKey der with
    | .ok key => (.ecdsa key, none)
    | .error e => (.nil, some e)
  | .KeyTypePKCS1 =>
    match x.ParsePKCS1PrivateKey der with
    | .ok key => (.rsa key, none)
    | .error e => (.nil, some e)
  | .KeyTypeUnknown => (.nil, some (.msg "unknown private key type"))

/-- `ParsePrivateKey` (keys.go 31-52). -/
def cert.ParsePrivateKey (x : X509) (der : Bytes) :
    crypto.PrivateKey × cert.KeyType × Option Err :=
  match x.ParsePKCS1PrivateKey der with
  | .ok key => (.rsa key, .KeyTypePKCS1, none)
  | .error _ =>
    match x.ParsePKCS8PrivateKey der with
    | .ok key =>
      match key with
      | .rsa k => (.rsa k, .KeyTypePKCS1, none)
      | .ecdsa k => (.ecdsa k, .KeyTypeEC, none)
      | _ => (.nil, .KeyTypeUnknown,
          some (.msg "found unknown private key type in PKCS#8 wrapping"))
    | .error _ =>
      match x.ParseECPrivateKey der with
      | .ok key => (.ecdsa key, .KeyTypeEC, none)
      | .error _ => (.nil, .KeyTypeUnknown, some (.msg "failed to parse private key"))

/-- `MarshalPrivateKey` (keys.go 54-71).  The type switch has the two cases `ecdsa` and
`rsa` and no default: for any other value the three results keep their zero values. -/
def cert.MarshalPrivateKey (x : X509) (key : crypto.PrivateKey) :
    Bytes × cert.KeyType × Option Err :=
  match key with
  | .ecdsa k =>
    match x.MarshalECPrivateKey k with
    | .ok data => (data, .KeyTypeEC, none)
    | .error e => ([], .KeyTypeEC, some e)
  | .rsa k => (x.MarshalPKCS1PrivateKey k, .KeyTypePKCS1, none)
  | _ => ([], .KeyTypeUnknown, none)


/-! ## `encoding/pem` and `pkg/cert/parse.go` (the two bundle decoders) -/

/-- Go `pem.Block`, the two fields the program reads. -/
structure pem.Block where
  Typ : Str
  Bytes : Bytes
  deriving DecidableEq, Repr

/-- Go `encoding/pem`: `Decode` finds the next block of its input and returns it with the
rest of the input, or finds none.  The rest is a proper tail of the input, which is what
makes the decoding loops end. -/
structure PEM where
  Decode : Bytes → Option (pem.Block × Bytes)
  Decode_shorter : ∀ data block rest, Decode data = some (block, rest) →
    rest.length < data.length

/-- `DecodePEMToBytes` (parse.go 170-177): the bytes of the first block, or nil. -/
def cert.DecodePEMToBytes (p : PEM) (bundle : Bytes) : Bytes :=
  match p.Decode bundle with
  | some (block, _) => block.Bytes
  | none => []

/-- The `for` loop of `DecodePEMToBytesArray` (parse.go 185-192), run for at most `fuel`
rounds: `ret` is the slice built so far. -/
def cert.DecodePEMToBytesArray.loop (p : PEM) : Nat → Bytes → List Bytes → List Bytes
  | 0, _, ret => ret
  | fuel + 1, bundle, ret =>
    match p.Decode bundle with
    | none => ret
    | some (block, rest) => cert.DecodePEMToBytesArray.loop p fuel rest (ret ++ [block.Bytes])

/-- `DecodePEMToBytesArray` (parse.go 179-195).  Every round shortens the bundle, so
`len(bundle) + 1` rounds are enough for the loop to reach its `break`
(`DecodePEMToBytesArray_blocks` below). -/
def cert.DecodePEMToBytesArray (p : PEM) (bundle : Bytes) : List Bytes :=
  cert.DecodePEMToBytesArray.loop p (bundle.length + 1) bundle []

/-- The blocks of a bundle, read off `pem.Decode` one after the other until it finds no
more: the meaning of "the DER blocks of the bundle, in bundle order". -/
inductive PEM.Blocks (p : PEM) : Bytes → List Bytes → Prop where
  | done (bundle : Bytes) (h : p.Decode bundle = none) : PEM.Blocks p bundle []
  | next (bundle rest : Bytes) (block : pem.Block) (more : List Bytes)
      (h : p.Decode bundle = some (block, rest)) (tail : PEM.Blocks p rest more) :
      PEM.Blocks p bundle (block.Bytes :: more)

/-! ## `crypto/tls`, `pkg/cert/certificate.go` (descriptor) -/

/-- Go `tls.Certificate`, the two fields the program uses. -/
structure tls.Certificate where
  Certificate : List Bytes
  PrivateKey : crypto.PrivateKey
  deriving DecidableEq, Repr

/-- The certificate descriptor `cert.Certificate` (certificate.go 11-15). -/
structure cert.Certificate where
  Certificate : List Bytes
  PrivateKey : Bytes
  KeyType : cert.KeyType
  deriving DecidableEq, Repr

/-- `NewCertificate` (certificate.go 19-30). -/
def cert.NewCertificate (x : X509) (crt : tls.Certificate) : Except Err cert.Certificate :=
  match cert.MarshalPrivateKey x crt.PrivateKey with
  | (_, _, some err) => .error err
  | (priv, typ, none) => .ok ⟨crt.Certificate, priv, typ⟩

/-- `(*cert.Certificate).TLSCertificate` (certificate.go 32-39): the certificate is
returned together with whatever error the key parser gave. -/
def cert.Certificate.TLSCertificate (x : X509) (c : cert.Certificate) :
    tls.Certificate × Option Err :=
  let (priv, err) := cert.ParsePrivateKeyByType x c.PrivateKey c.KeyType
  (⟨c.Certificate, priv⟩, err)

/-! ## `strings` and `pkg/cert/match.go` -/

/-- Go `strings.SplitN(s, sep, n)` for a one-character separator and `n ≥ 0`: at most `n`
pieces, the last one being the unsplit remainder. -/
def strings.SplitN (sep : Char) : Str → Nat → List Str
  | _, 0 => []
  | s, 1 => [s]
  | s, n + 2 =>
    if sep ∈ s then
      s.takeWhile (· != sep) :: strings.SplitN sep (s.dropWhile (· != sep)).tail (n + 1)
    else [s]

/-- Go `strings.Split(s, sep)` for a one-character separator; as in the library it is
`SplitN` with `n = Count(s, sep) + 1`. -/
def strings.Split (sep : Char) (s : Str) : List Str :=
  strings.SplitN sep s (s.count sep + 1)

/-- Go `strings.Join(elems, sep)`: nothing for no element, the element for one, and
otherwise the elements with `sep` between them. -/
def strings.Join : List Str → Str → Str
  | [], _ => []
  | [a], _ => a
  | a :: b :: more, sep => a ++ sep ++ strings.Join (b :: more) sep

/-- The loop of `MatchDomain` (match.go 9-11): the name without its trailing dots. -/
def trimTrailingDots (certDomain : Str) : Str :=
  certDomain.rdropWhile (· == '.')

/-- `MatchDomain` (match.go 4-14): equal as they are, or equal once the trailing dots of
`certDomain` are cut off (the `for` loop drops the last byte while it is a dot). -/
def cert.MatchDomain (domain certDomain : Str) : Bool :=
  if domain = certDomain then true
  else domain == trimTrailingDots certDomain

/-! ## `rediscache` and `pkg/cert/storage.go` -/

/-- The two calls the program makes on a `rediscache.Cache`, over a cache state `σ`.
`SimpleFuncCache funcKey lookup versionKey compute` returns an error or the value it put
into the caller's variable; what it does with `compute` is the library's business. -/
structure rediscache.Cache (σ : Type) where
  SimpleFuncCache : σ → Str → Str → Str → (Unit → Except Err (Option cert.Certificate)) →
    Except Err cert.Certificate × σ
  FuncCacheInvalidate : σ → Str → Str → Option Err × σ

/-- `Storage` (storage.go 9-14).  The Go map `local` is the list of its entries in the
order a `range` over it visits them; the statements below hold for every such order. -/
structure cert.Storage (σ : Type) where
  certDefault : Str
  local_ : List (Str × tls.Certificate)
  rc : rediscache.Cache σ

/-- The constant `matchKey` (certificate.go 17). -/
def cert.matchKey : Str := "cert.Storage.Match".toList

/-- The result of a caller-supplied `resolve`: an error, no certificate, or one. -/
abbrev cert.Resolve := Str → Except Err (Option tls.Certificate)

/-- The nested `range` loops over the static set (certificate.go 46-52 and 65-71): the
certificate of the first entry whose comma-separated key has a name that matches. -/
def cert.Storage.rangeLocal : List (Str × tls.Certificate) → Str → Option tls.Certificate
  | [], _ => none
  | (sans, crt) :: more, domain =>
    if (strings.Split ',' sans).any (cert.MatchDomain domain) then some crt
    else cert.Storage.rangeLocal more domain

/-- The `return NewCertificate(crt)` of `matchSingleDomain`. -/
def cert.Storage.found (x : X509) (crt : tls.Certificate) :
    Except Err (Option cert.Certificate) :=
  match cert.NewCertificate x crt with
  | .ok c => .ok (some c)
  | .error err => .error err

/-- `(*Storage).matchSingleDomain` (certificate.go 41-84). -/
def cert.Storage.matchSingleDomain {σ : Type} (x : X509) (cs : cert.Storage σ) (domain : Str)
    (resolve : cert.Resolve) : Except Err (Option cert.Certificate) :=
  let labels := (strings.SplitN '.' domain 3).set 0 ['*']
  let wildcardDomain := strings.Join labels ['.']
  match cert.Storage.rangeLocal cs.local_ domain with
  | some crt => cert.Storage.found x crt
  | none =>
    match resolve domain with
    | .error err => .error err
    | .ok (some crt) => cert.Storage.found x crt
    | .ok none =>
      -- Try wildcard if domain has more than 2 parts.
      if labels.length > 2 then
        match cert.Storage.rangeLocal cs.local_ wildcardDomain with
        | some crt => cert.Storage.found x crt
        | none =>
          match resolve wildcardDomain with
          | .error err => .error err
          | .ok (some crt) => cert.Storage.found x crt
          | .ok none => .ok none
      else .ok none

/-- The closure `matchDomain` hands to the cache (certificate.go 92-114). -/
def cert.Storage.matchDomain.compute {σ : Type} (x : X509) (cs : cert.Storage σ)
    (domain : Str) (resolve : cert.Resolve) : Except Err (Option cert.Certificate) :=
  match cs.matchSingleDomain x domain resolve with
  | .error err => .error err
  | .ok (some crt) => .ok (some crt)
  | .ok none =>
    if cs.certDefault ≠ [] then
      match cs.matchSingleDomain x cs.certDefault resolve with
      | .error err => .error err
      | .ok (some crt) => .ok (some crt)
      | .ok none => .ok none
    else .ok none

/-- The cache scope `toplevelDomain` of `matchDomain` and `InvalidateMatch`
(certificate.go 89-90 and 135-136). -/
def cert.toplevelDomain (domain : Str) : Str :=
  let labels := strings.SplitN '.' domain 2
  '.' :: strings.Join (labels.drop 1) ['.']

/-- `(*Storage).matchDomain` (certificate.go 86-121), from cache state `st`. -/
def cert.Storage.matchDomain {σ : Type} (x : X509) (cs : cert.Storage σ) (st : σ)
    (domain : Str) (resolve : cert.Resolve) : (Option tls.Certificate × Option Err) × σ :=
  match cs.rc.SimpleFuncCache st cert.matchKey domain (cert.toplevelDomain domain)
      (fun _ => cert.Storage.matchDomain.compute x cs domain resolve) with
  | (.error err, st') => ((none, some err), st')
  | (.ok crt, st') =>
    let (c, err) := crt.TLSCertificate x
    ((some c, err), st')

/-- `(*Storage).DefaultCert` (certificate.go 141-143). -/
def cert.Storage.DefaultCert {σ : Type} (x : X509) (cs : cert.Storage σ) (st : σ)
    (resolve : cert.Resolve) : (Option tls.Certificate × Option Err) × σ :=
  cs.matchDomain x st cs.certDefault resolve

/-- `(*Storage).Match` (certificate.go 123-132). -/
def cert.Storage.Match {σ : Type} (x : X509) (cs : cert.Storage σ) (st : σ)
    (domain : Str) (resolve : cert.Resolve) : (Option tls.Certificate × Option Err) × σ :=
  match cs.matchDomain x st domain resolve with
  | ((crt, err), st') =>
    -- If match failed, try default cert.
    if errorsIsErrNil err = true ∧ cs.certDefault ≠ [] ∧ domain ≠ cs.certDefault then
      cs.DefaultCert x st' resolve
    else ((crt, err), st')

/-- `(*Storage).InvalidateMatch` (certificate.go 134-139). -/
def cert.Storage.InvalidateMatch {σ : Type} (cs : cert.Storage σ) (st : σ) (domain : Str) :
    Option Err × σ :=
  cs.rc.FuncCacheInvalidate st cert.matchKey (cert.toplevelDomain domain)

/-! ## `app/models/certificate.go` -/

/-- `CertificateStatus` and its four constants (certificate.go 22-30). -/
inductive models.CertificateStatus where
  | CertificateStatusUnknown
  | CertificateStatusOK
  | CertificateStatusInvalidDomain
  | CertificateStatusDomainVerificationFailed
  deriving DecidableEq, Repr

/-- The nullable time column `fields.Time` of the database library: null, or a time. -/
abbrev fields.Time := Option time.Time

/-- The constructor `fields.NewTime` of the database library, on a time: a non-null
column holding it. -/
def fields.NewTime (t : time.Time) : fields.Time := some t

/-- The record `models.Certificate` (certificate.go 32-55). -/
structure models.Certificate where
  ID : Int
  AcmeUserID : Int
  Domain : Str
  URL : Str
  StableURL : Str
  PrivateKey : Bytes
  PrivateKeyType : cert.KeyType
  Certificate : List Bytes
  IssuerCertificate : Bytes
  CSR : Bytes
  Status : models.CertificateStatus
  Failures : Int
  AutoRefresh : Bool
  RefreshBeforeDays : Int
  CreatedAt : fields.Time
  UpdatedAt : fields.Time
  ExpiresAt : fields.Time
  deriving DecidableEq, Repr

/-- The CA resource `certificate.Resource` of the ACME library, which `acme.Certificate`
points to: its key, chain, issuer and request are PEM text (`[]byte`). -/
structure certificate.Resource where
  Domain : Str
  CertURL : Str
  CertStableURL : Str
  PrivateKey : Bytes
  Certificate : Bytes
  IssuerCertificate : Bytes
  CSR : Bytes
  deriving DecidableEq, Repr

/-- `(*Certificate).TLSCertificate` (certificate.go 106-120). -/
def models.Certificate.TLSCertificate (x : X509) (c : models.Certificate) :
    tls.Certificate × Option Err :=
  let (privateKey, err) :=
    if c.PrivateKey.length > 0 then cert.ParsePrivateKeyByType x c.PrivateKey c.PrivateKeyType
    else (crypto.PrivateKey.nil, none)
  (⟨c.Certificate, privateKey⟩, err)

/-- `(*Certificate).FromAcmeCertificate` (certificate.go 140-184), on a record `c` and a
non-nil resource `crt`, at time `now`; it returns the record as the call leaves it and the
error.  The statements run in source order: `certBytes[0]` is read (line 150) before the
length is tested (line 152), and the error of `x509.ParseCertificate` is not tested before
`x509Cert.IsCA` is read (line 156).  `crt.PrivateKey` is a `[]byte`, and that is the value
handed to `MarshalPrivateKey` (line 164). -/
def models.Certificate.FromAcmeCertificate (x : X509) (p : PEM) (now : time.Time)
    (c : models.Certificate) (crt : certificate.Resource) :
    Outcome (models.Certificate × Option Err) :=
  -- Parse certificates.
  let certBytes := cert.DecodePEMToBytesArray p crt.Certificate
  match certBytes with
  | [] => .panic "index out of range [0] with length 0"
  | first :: _ =>
    match x.ParseCertificate first with
    | .error _ =>
      if certBytes.length = 0 then
        .returned (c, some (.msg "no certificates were found while parsing the bundle"))
      else .panic "invalid memory address or nil pointer dereference"
    | .ok x509Cert =>
      if certBytes.length = 0 then
        .returned (c, some (.msg "no certificates were found while parsing the bundle"))
      else if x509Cert.IsCA then
        .returned (c, some (.msg ("certificate for " ++ String.mk crt.Domain ++
          " bundle starts with a CA certificate")))
      else
        let expiresAt := x509Cert.NotAfter
        -- Parse private key.
        let (keyBytes, keyType, err) :=
          if crt.PrivateKey.length > 0 then
            cert.MarshalPrivateKey x (crypto.PrivateKey.bytes crt.PrivateKey)
          else (([] : Bytes), cert.KeyType.KeyTypeUnknown, (none : Option Err))
        .returned (
          { c with
            Domain := crt.Domain
            URL := crt.CertURL
            StableURL := crt.CertStableURL
            PrivateKey := keyBytes
            PrivateKeyType := keyType
            Certificate := certBytes
            IssuerCertificate := cert.DecodePEMToBytes p crt.IssuerCertificate
            CSR := cert.DecodePEMToBytes p crt.CSR
            Status := .CertificateStatusOK
            CreatedAt := fields.NewTime now
            ExpiresAt := fields.NewTime expiresAt },
          err)

/-! ## The words of the specification about domain names -/

/-- The number of dot-separated labels of a name: one more than it has dots. -/
def labelCount (domain : Str) : Nat :=
  domain.count '.' + 1

/-- The wildcard form of a name: its first label replaced by `*`. -/
def wildcard (domain : Str) : Str :=
  '*' :: domain.dropWhile (· != '.')

/-- The names of a static certificate: the entries of its comma-separated key. -/
def sanList (sans : Str) : List Str :=
  strings.Split ',' sans

/-- The key `sans` of a static certificate has an entry equal to `name`. -/
abbrev carries (sans name : Str) : Prop :=
  name ∈ sanList sans

/-- The key `sans` has an entry that is `name` once the entry's trailing dots are
removed. -/
abbrev carriesTrimmed (sans name : Str) : Prop :=
  ∃ san ∈ sanList sans, name = trimTrailingDots san

/-- The key `sans` has an entry that is `name` as it stands, or once the entry's trailing
dots are removed. -/
abbrev carriesUpToDots (sans name : Str) : Prop :=
  ∃ san ∈ sanList sans, name = san ∨ name = trimTrailingDots san

/-! ## A concrete codec

A small instance of the library parameters, on which the statements below are run. -/

/-- A PKCS1 document is `[1, n, e, d]`. -/
def refParsePKCS1 : Bytes → Except Err rsa.PrivateKey
  | [1, n, e, d] => .ok ⟨n, e, d⟩
  | _ => .error (.lib 1)

/-- A SEC1 document is `[2, curve, d]` with a named curve (`curve ≠ 0`). -/
def refParseEC : Bytes → Except Err ecdsa.PrivateKey
  | [2, c, d] => if c = 0 then .error (.lib 2) else .ok ⟨c, d⟩
  | _ => .error (.lib 2)

/-- A PKCS8 document is `8 :: algorithm :: key material`. -/
def refParsePKCS8 : Bytes → Except Err crypto.PrivateKey
  | [8, 1, n, e, d] => .ok (.rsa ⟨n, e, d⟩)
  | [8, 2, c, d] => if c = 0 then .error (.lib 8) else .ok (.ecdsa ⟨c, d⟩)
  | 8 :: 3 :: seed => .ok (.ed25519 seed)
  | _ => .error (.lib 8)

/-- Marshalling an EC key fails on the unnamed curve `0`. -/
def refMarshalEC (k : ecdsa.PrivateKey) : Except Err Bytes :=
  if k.Curve = 0 then .error (.lib 3) else .ok [2, k.Curve, k.D]

/-- A certificate is `[isCA, notAfter]`. -/
def refParseCertificate : Bytes → Except Err x509.Certificate
  | [ca, notAfter] => .ok ⟨ca = 1, notAfter, [], [], []⟩
  | _ => .error (.lib 5)

/-- The concrete `crypto/x509`. -/
def refX509 : X509 where
  ParsePKCS1PrivateKey := refParsePKCS1
  ParsePKCS8PrivateKey := refParsePKCS8
  ParseECPrivateKey := refParseEC
  MarshalECPrivateKey := refMarshalEC
  MarshalPKCS1PrivateKey := fun k => [1, k.N, k.E, k.D]
  ParseCertificate := refParseCertificate


/-- A block is `typ :: n :: payload`, `payload` being the next `n` bytes; `typ = 0` is a
`CERTIFICATE` block and any other a `PRIVATE KEY` block. -/
def refDecode : Bytes → Option (pem.Block × Bytes)
  | typ :: n :: data =>
    if n ≤ data.length then
      some (⟨if typ = 0 then "CERTIFICATE".toList else "PRIVATE KEY".toList, data.take n⟩,
        data.drop n)
    else none
  | _ => none

/-- The concrete `encoding/pem`. -/
def refPEM : PEM where
  Decode := refDecode
  Decode_shorter := by
    intro data block rest h
    match data, h with
    | typ :: n :: data, h =>
      simp only [refDecode] at h
      split at h
      · cases h
        simp only [List.length_drop, List.length_cons]
        omega
      · cases h

/-- The state of the concrete cache: the stored results, each under its function key,
version key (the invalidation scope) and lookup key, a stored `none` being the
negative-result marker; and the log of the lookup keys of all `SimpleFuncCache` calls. -/
structure RefCache where
  entries : List ((Str × Str × Str) × Option cert.Certificate)
  calls : List Str
  deriving DecidableEq, Repr

/-- The concrete cache, without expiry: a stored result is returned (the marker as
`ErrNil`); otherwise the function is run, its error returned unstored, its result stored
and returned (a nil result as the marker and `ErrNil`). -/
def refSimpleFuncCache (st : RefCache) (funcKey lookup versionKey : Str)
    (compute : Unit → Except Err (Option cert.Certificate)) :
    Except Err cert.Certificate × RefCache :=
  let st1 : RefCache := { st with calls := st.calls ++ [lookup] }
  match st.entries.lookup (funcKey, versionKey, lookup) with
  | some (some c) => (.ok c, st1)
  | some none => (.error .ErrNil, st1)
  | none =>
    match compute () with
    | .error err => (.error err, st1)
    | .ok (some c) =>
      (.ok c, { st1 with entries := ((funcKey, versionKey, lookup), some c) :: st.entries })
    | .ok none =>
      (.error .ErrNil,
        { st1 with entries := ((funcKey, versionKey, lookup), none) :: st.entries })

/-- Invalidation drops every stored result of the function key and version key. -/
def refFuncCacheInvalidate (st : RefCache) (funcKey versionKey : Str) :
    Option Err × RefCache :=
  (none, { st with
    entries := st.entries.filter (fun e => !(e.1.1 == funcKey && e.1.2.1 == versionKey)) })

/-- The concrete `rediscache.Cache`. -/
def refCache : rediscache.Cache RefCache where
  SimpleFuncCache := refSimpleFuncCache
  FuncCacheInvalidate := refFuncCacheInvalidate

/-- An empty record, as `obtainCertificate` makes it before the conversion. -/
def refRecord : models.Certificate where
  ID := 0
  AcmeUserID := 1
  Domain := []
  URL := []
  StableURL := []
  PrivateKey := []
  PrivateKeyType := .KeyTypeUnknown
  Certificate := []
  IssuerCertificate := []
  CSR := []
  Status := .CertificateStatusUnknown
  Failures := 0
  AutoRefresh := false
  RefreshBeforeDays := 0
  CreatedAt := none
  UpdatedAt := none
  ExpiresAt := none

/-- A CA resource for `example.com` in the concrete encodings: the given bundle, and as
key the PEM block `[1, 3, 2, 1, 7]` around the SEC1 document `[2, 1, 7]`. -/
def refResource (bundle : Bytes) : certificate.Resource where
  Domain := "example.com".toList
  CertURL := "https://ca/cert/1".toList
  CertStableURL := "https://ca/cert/stable/1".toList
  PrivateKey := [1, 3, 2, 1, 7]
  Certificate := bundle
  IssuerCertificate := []
  CSR := []

/-- The record that converting `refResource [0, 2, 0, 100]` at time 50 leaves behind: the
bundle holds the one block `[0, 100]`, a leaf certificate that expires at 100. -/
def refStored : models.Certificate :=
  { refRecord with
    Domain := "example.com".toList
    URL := "https://ca/cert/1".toList
    StableURL := "https://ca/cert/stable/1".toList
    Certificate := [[0, 100]]
    Status := .CertificateStatusOK
    CreatedAt := some 50
    ExpiresAt := some 100 }

/-- A static certificate with the one-block chain `[n]` and an RSA key. -/
def refStatic (n : Nat) : tls.Certificate :=
  ⟨[[n]], .rsa ⟨n, 3, 5⟩⟩

/-- A store over the concrete cache. -/
def refStorage (certDefault : Str) (entries : List (Str × tls.Certificate)) :
    cert.Storage RefCache where
  certDefault := certDefault
  local_ := entries
  rc := refCache

/-- The inventory lookup that finds nothing. -/
def refResolveNone : cert.Resolve := fun _ => .ok none

/-- A store with the default domain `default.io`, which has a static certificate. -/
def refDefaultStorage : cert.Storage RefCache :=
  refStorage "default.io".toList [("default.io".toList, refStatic 9)]

/-- A cache that holds the not-found marker for `x.y` (under the scope `.y`) and has
logged no call. -/
def refStaleCache : RefCache where
  entries := [((cert.matchKey, ".y".toList, "x.y".toList), none)]
  calls := []

/-! ## The cache scope, in the words of the specification -/

/-- The parent suffix of a name: a dot, followed by the name with its first label and the
dot after that label removed. -/
def parentSuffix (domain : Str) : Str :=
  '.' :: (domain.dropWhile (· != '.')).tail

/-! ## `app/query/certificate.go` -/

/-- The `WHERE` clause of `ForRefreshQ` (certificate.go 41-44), on one row at the database
time `now` (seconds):
`failures < ? AND auto_refresh IS TRUE AND updated_at < NOW() - INTERVAL '5 minute' AND
expires_at > NOW() + refresh_before_days * INTERVAL '1 day'`.
A comparison with a null column is unknown, and a row is selected only when the whole
conjunction is true, so a null `updated_at` or `expires_at` excludes the row. -/
def query.CertManager.ForRefreshQ (now : Int) (failureThreshold : Int) (c : models.Certificate) :
    Bool :=
  decide (c.Failures < failureThreshold)
    && c.AutoRefresh
    && (match c.UpdatedAt with
        | some updatedAt => decide ((updatedAt : Int) < now - 5 * 60)
        | none => false)
    && (match c.ExpiresAt with
        | some expiresAt => decide ((expiresAt : Int) > now + c.RefreshBeforeDays * 86400)
        | none => false)

/-- A record with auto-refresh on, no failure, last updated at time 1000, that expires at
the given time and asks for renewal 30 days ahead. -/
def refDue (expiresAt : time.Time) : models.Certificate :=
  { refStored with
    AutoRefresh := true
    RefreshBeforeDays := 30
    UpdatedAt := some 1000
    ExpiresAt := some expiresAt }

/-! ## `app/models/certificate.go`, the two conversions the server uses -/

/-- The ACME library's `certcrypto.PEMEncode`, on a private key and on
`certcrypto.DERCertificateBytes`. -/
structure Certcrypto where
  PEMEncodeKey : crypto.PrivateKey → Bytes
  PEMEncodeDER : Bytes → Bytes

/-- `(*Certificate).AcmeCertificate` (certificate.go 66-104). -/
def models.Certificate.AcmeCertificate (x : X509) (cc : Certcrypto) (c : models.Certificate) :
    Except Err certificate.Resource :=
  let privateKey : Except Err Bytes :=
    if c.PrivateKey.length > 0 then
      match cert.ParsePrivateKeyByType x c.PrivateKey c.PrivateKeyType with
      | (_, some err) => .error (.wrap "parsing certificate private key error" err)
      | (key, none) => .ok (cc.PEMEncodeKey key)
    else .ok []
  match privateKey with
  | .error err => .error err
  | .ok privateKey =>
    let crt : Bytes :=
      if c.Certificate.length > 0 then
        c.Certificate.foldl (fun crt crtBytes => crt ++ cc.PEMEncodeDER crtBytes) []
      else []
    let issuerCrt : Bytes :=
      if c.IssuerCertificate.length > 0 then cc.PEMEncodeDER c.IssuerCertificate else []
    let csr : Bytes := if c.CSR.length > 0 then cc.PEMEncodeDER c.CSR else []
    .ok
      { Domain := c.Domain
        CertURL := c.URL
        CertStableURL := c.StableURL
        PrivateKey := privateKey
        Certificate := crt
        IssuerCertificate := issuerCrt
        CSR := csr }

/-- The value of a `CertificateStatus` constant (`iota`, certificate.go 25-30). -/
def models.CertificateStatus.toInt : models.CertificateStatus → Int
  | .CertificateStatusUnknown => 0
  | .CertificateStatusOK => 1
  | .CertificateStatusInvalidDomain => 2
  | .CertificateStatusDomainVerificationFailed => 3

/-- The enum `pb.Status` of the generated API package, by its number. -/
abbrev pb.Status := Int

/-- The message `pb.Refresh`; `RefreshBeforeDays` is a `uint32`. -/
structure pb.Refresh where
  AutoRefresh : Bool
  RefreshBeforeDays : Nat
  deriving DecidableEq, Repr

/-- The message `pb.Certificate`: `Expiration` and `Refresh` are pointers, nil when
unset. -/
structure pb.Certificate where
  Domain : Str
  Status : pb.Status
  Expiration : Option time.Time
  Refresh : Option pb.Refresh
  deriving DecidableEq, Repr

/-- `(*Certificate).Proto` (certificate.go 122-138).  The timestamp is computed when
`ExpiresAt.IsNull()` holds, from `ExpiresAt.Get().(time.Time)`; the `Get` of a null column
is nil, on which the type assertion faults.  For a column that is not null `exp` stays
nil. -/
def models.Certificate.Proto (c : models.Certificate) : Outcome pb.Certificate :=
  match c.ExpiresAt with
  | none => .panic "interface conversion: interface {} is nil, not time.Time"
  | some _ =>
    .returned
      { Domain := c.Domain
        Status := c.Status.toInt
        Expiration := none
        Refresh := some ⟨c.AutoRefresh, (c.RefreshBeforeDays % 2 ^ 32).toNat⟩ }

/-- The zero value of `models.Certificate`. -/
def models.Certificate.zero : models.Certificate where
  ID := 0
  AcmeUserID := 0
  Domain := []
  URL := []
  StableURL := []
  PrivateKey := []
  PrivateKeyType := .KeyTypeUnknown
  Certificate := []
  IssuerCertificate := []
  CSR := []
  Status := .CertificateStatusUnknown
  Failures := 0
  AutoRefresh := false
  RefreshBeforeDays := 0
  CreatedAt := none
  UpdatedAt := none
  ExpiresAt := none

/-! ## `app/server/verify.go` -/

/-- A Go `http.Request`, the fields that matter here: `Body` is nil, or a reader that
yields the given bytes. -/
structure http.Request where
  Method : Str
  URL : Str
  Body : Option Bytes
  deriving DecidableEq, Repr

/-- What `verifyDomain` calls: `http.NewRequestWithContext(ctx, method, url, body)`, which
builds a request value and sends nothing, and `util.GenerateRandomString(n)`, whose
result may depend on the tokens drawn before. -/
structure Verifier where
  NewRequestWithContext : Str → Str → Option Bytes → Except Err http.Request
  GenerateRandomString : List Str → Nat → Str

/-- What the `net/http` documentation says of `NewRequestWithContext`: the request that it
builds has the method and the URL it was given, and its `Body` is the body it was given,
nil for nil. -/
structure Verifier.Laws (v : Verifier) : Prop where
  request : ∀ method url body r, v.NewRequestWithContext method url body = .ok r →
    r.Method = method ∧ r.URL = url ∧ r.Body = body

/-- The constant `checkKeyLength` (verify.go 14). -/
def server.checkKeyLength : Nat := 8

/-- The conversion `string(buf)`, for the comparison with a token of ASCII characters. -/
def stringOfBytes (buf : Bytes) : Str :=
  buf.map Char.ofNat

/-- `(*Server).verifyDomain` (verify.go 21-43), after the tokens `drawn`.  The value
called `resp` is the request that `http.NewRequestWithContext` built; no call sends it.
`defer resp.Body.Close()` faults on a nil `Body`.  `io.ReadFull` fills the eight bytes of
`buf` from the body, or fails when the body is shorter, and `strings.Compare` is between
the token and those eight bytes. -/
def server.Server.verifyDomain (v : Verifier) (drawn : List Str) (domain : Str) :
    Outcome (Option Err) :=
  let key := v.GenerateRandomString drawn server.checkKeyLength
  match v.NewRequestWithContext "GET".toList
      ("http://".toList ++ domain ++ "/.well-known/echo/".toList ++ key ++ "/".toList)
      none with
  | .error err => .returned (some err)
  | .ok resp =>
    match resp.Body with
    | none => .panic "invalid memory address or nil pointer dereference"
    | some body =>
      if body.length = 0 then .returned (some (.msg "EOF"))
      else if body.length < server.checkKeyLength then
        .returned (some (.msg "unexpected EOF"))
      else if key ≠ stringOfBytes (body.take server.checkKeyLength) then
        .returned (some (.msg "keys mismatch"))
      else .returned none

/-- The request that `verifyDomain` builds (verify.go 24), after the tokens `drawn`: a GET
of `fmt.Sprintf("http://%s/.well-known/echo/%s/", domain, key)`, without a body. -/
def server.Server.verifyDomain.request (v : Verifier) (drawn : List Str) (domain : Str) :
    Except Err http.Request :=
  v.NewRequestWithContext "GET".toList
    ("http://".toList ++ domain ++ "/.well-known/echo/".toList
      ++ v.GenerateRandomString drawn server.checkKeyLength ++ "/".toList)
    none

/-! ## `app/server`: the world the server acts on -/

/-- A call the server makes on one of its collaborators (resolver, database manager, CA
client, matcher, job runner), in the words of the source. -/
inductive server.Event where
  | LookupHost (domain : Str)
  | verifyDomain (domain : Str)
  | Lock
  | Update (c : models.Certificate)
  | UpdateAll (certs : List models.Certificate)
  | Insert (c : models.Certificate)
  | Delete (c : models.Certificate)
  | Commit
  | Rollback
  | Obtain (domain : Str)
  | Refresh (r : certificate.Resource)
  | InvalidateMatch (domain : Str)
  | Go
  deriving DecidableEq, Repr

/-- The calls made so far, oldest first. -/
abbrev server.Log := List server.Event

/-- The tokens that the calls of `verifyDomain` made so far have drawn, oldest first: each
call draws one (verify.go 22). -/
def server.drawn (v : Verifier) (log : server.Log) : List Str :=
  log.foldl
    (fun drawn ev =>
      match ev with
      | .verifyDomain _ => drawn ++ [v.GenerateRandomString drawn server.checkKeyLength]
      | _ => drawn)
    []

/-- A Go `int` after an arithmetic step: the value wrapped into the 64 bits of the type. -/
def int.wrap (n : Int) : Int :=
  (n + 2 ^ 63) % 2 ^ 64 - 2 ^ 63

/-- The collaborators of the server.  Each answers a call from the calls made before it,
so an answer may depend on anything that happened earlier.

* `LookupHost` is the error of `net.DefaultResolver.LookupHost`;
* `verifier` is what the method `s.verifyDomain` calls, `net/http` and the token
  generator; the method itself is `server.Server.verifyDomain`;
* `Lock` is `manager.Lock(q)` on a query built on a slice: an error (`pg.ErrNoRows` among
  them) or the rows it locked and wrote into the variable the query was built on;
  `LockOne` is the same on the query of `Delete`, built on one record;
* `Update`, `UpdateAll`, `Insert`, `Delete` are the errors of `mgr.Update(cert, "status",
  "failures")`, `mgr.Update(certs)`, `mgr.Insert` and `mgr.Delete`, and `Commit` the error
  of the commit that `RunInTransaction` makes when its function returned nil;
* `Obtain` and `Refresh` are `s.acme.Obtain` and `s.acme.Refresh`;
* `InvalidateMatch` is the error of `s.cert.InvalidateMatch`;
* `Status_INVALID_DOMAIN` and `Status_DOMAIN_VERIFICATION_FAILED` are the two constants of
  the generated package `pb`, `userID` is `s.user.ID` and `AutoRefreshBatch` is
  `settings.Server.AutoRefreshBatch`. -/
structure server.World where
  x509 : X509
  pem : PEM
  certcrypto : Certcrypto
  Now : server.Log → time.Time
  LookupHost : server.Log → Str → Option Err
  verifier : Verifier
  Lock : server.Log → Except Err (List models.Certificate)
  LockOne : server.Log → Str → Except Err models.Certificate
  Update : server.Log → models.Certificate → Option Err
  UpdateAll : server.Log → List models.Certificate → Option Err
  Insert : server.Log → models.Certificate → Option Err
  Delete : server.Log → models.Certificate → Option Err
  Commit : server.Log → Option Err
  Obtain : server.Log → Str → Except Err certificate.Resource
  Refresh : server.Log → certificate.Resource → Except Err certificate.Resource
  InvalidateMatch : server.Log → Str → Option Err
  Status_INVALID_DOMAIN : pb.Status
  Status_DOMAIN_VERIFICATION_FAILED : pb.Status
  userID : Int
  AutoRefreshBatch : Int

/-! ## `app/server/certs.go` -/

/-- How one round of the loop of `certRefresh` ends: with a fault, with `return err` out of
the transaction function, with the record appended to `failed` (and `continue`), or with
the record appended to `success`.  The record is the one the round leaves behind. -/
inductive server.Round where
  | panic (reason : String)
  | abort (err : Err)
  | failed (c : models.Certificate)
  | success (c : models.Certificate)
  deriving DecidableEq, Repr

/-- The bookkeeping of a record that did not pass a check (certs.go 73-82): one more
failure, the record appended to `failed`, and the update of its two columns, whose error
ends the transaction function.  The counter `Failures` is a Go `int`. -/
def server.Server.certRefresh.fail (w : server.World) (log : server.Log)
    (cert : models.Certificate) : server.Round × List server.Event :=
  let cert := { cert with Failures := int.wrap (cert.Failures + 1) }
  match w.Update log cert with
  | some err => (.abort err, [.Update cert])
  | none => (.failed cert, [.Update cert])

/-- The renewal of a record that passed both checks (certs.go 84-102). -/
def server.Server.certRefresh.renew (w : server.World) (log : server.Log)
    (cert : models.Certificate) : server.Round × List server.Event :=
  -- Perform actual refresh after internal verification.
  match cert.AcmeCertificate w.x509 w.certcrypto with
  | .error err => (.abort err, [])
  | .ok acmeCert =>
    match w.Refresh log acmeCert with
    | .error err => (.abort err, [.Refresh acmeCert])
    | .ok acmeCert' =>
      match cert.FromAcmeCertificate w.x509 w.pem (w.Now (log ++ [.Refresh acmeCert]))
          acmeCert' with
      | .panic reason => (.panic reason, [.Refresh acmeCert])
      | .returned (_, some err) => (.abort err, [.Refresh acmeCert])
      | .returned (cert, none) =>
        -- Reset failures.
        (.success { cert with Failures := 0 }, [.Refresh acmeCert])

/-- One round of the loop of `certRefresh` (certs.go 61-103) on the record `cert`, after
the calls `log`: how it ends and the calls it made.  The echo check is the method
`verifyDomain` of verify.go, after the tokens drawn so far. -/
def server.Server.certRefresh.round (w : server.World) (log : server.Log)
    (cert : models.Certificate) : server.Round × List server.Event :=
  -- Check and verify domain.
  match w.LookupHost log cert.Domain with
  | some _ =>
    let cert := { cert with Status := .CertificateStatusInvalidDomain }
    let (r, evs) := server.Server.certRefresh.fail w (log ++ [.LookupHost cert.Domain]) cert
    (r, .LookupHost cert.Domain :: evs)
  | none =>
    match server.Server.verifyDomain w.verifier
        (server.drawn w.verifier (log ++ [.LookupHost cert.Domain])) cert.Domain with
    | .panic reason => (.panic reason, [.LookupHost cert.Domain, .verifyDomain cert.Domain])
    | .returned (some _) =>
      let cert := { cert with Status := .CertificateStatusDomainVerificationFailed }
      let (r, evs) := server.Server.certRefresh.fail w
        (log ++ [.LookupHost cert.Domain, .verifyDomain cert.Domain]) cert
      (r, .LookupHost cert.Domain :: .verifyDomain cert.Domain :: evs)
    | .returned none =>
      let (r, evs) := server.Server.certRefresh.renew w
        (log ++ [.LookupHost cert.Domain, .verifyDomain cert.Domain]) cert
      (r, .LookupHost cert.Domain :: .verifyDomain cert.Domain :: evs)

/-- What the loop of `certRefresh` hands on: the records of `certs` as the rounds left
them, and the two lists. -/
structure server.Batch where
  certs : List models.Certificate
  success : List models.Certificate
  failed : List models.Certificate
  deriving DecidableEq, Repr

/-- The loop `for _, cert := range certs` of `certRefresh` (certs.go 61-103) over the
records still to do, `acc` being the work of the rounds done. -/
def server.Server.certRefresh.loop (w : server.World) :
    server.Log → List models.Certificate → server.Batch →
      Outcome (Except Err server.Batch) × server.Log
  | log, [], acc => (.returned (.ok acc), log)
  | log, cert :: more, acc =>
    match server.Server.certRefresh.round w log cert with
    | (.panic reason, evs) => (.panic reason, log ++ evs)
    | (.abort err, evs) => (.returned (.error err), log ++ evs)
    | (.failed c, evs) =>
      server.Server.certRefresh.loop w (log ++ evs) more
        { acc with certs := acc.certs ++ [c], failed := acc.failed ++ [c] }
    | (.success c, evs) =>
      server.Server.certRefresh.loop w (log ++ evs) more
        { acc with certs := acc.certs ++ [c], success := acc.success ++ [c] }

/-- The function that `certRefresh` runs in the transaction (certs.go 51-110): its error
and the two lists as it leaves them.  The rows that `manager.Lock(q)` locks are written
into the variable the query `q` was built on; the loop ranges over the parameter `certs`,
which is the slice value the caller passed. -/
def server.Server.certRefresh.tx (w : server.World) (log : server.Log)
    (certs : List models.Certificate) :
    Outcome (Option Err × List models.Certificate × List models.Certificate) × server.Log :=
  match w.Lock log with
  | .error err =>
    if err = .ErrNoRows then (.returned (none, [], []), log ++ [.Lock])
    else (.returned (some err, [], []), log ++ [.Lock])
  | .ok _ =>
    match server.Server.certRefresh.loop w (log ++ [.Lock]) certs ⟨[], [], []⟩ with
    | (.panic reason, log') => (.panic reason, log')
    | (.returned (.error err), log') => (.returned (some err, [], []), log')
    | (.returned (.ok b), log') =>
      if certs.length = 0 then (.returned (none, b.success, b.failed), log')
      else (.returned (w.UpdateAll log' b.certs, b.success, b.failed),
        log' ++ [.UpdateAll b.certs])

/-- The loop over `success` at the end of `certRefresh` (certs.go 115-120): `err` is
assigned anew in every round. -/
def server.Server.certRefresh.invalidate (w : server.World) :
    server.Log → List models.Certificate → Option Err → Option Err × server.Log
  | log, [], err => (err, log)
  | log, suc :: more, _ =>
    let err : Option Err :=
      match w.InvalidateMatch log suc.Domain with
      | some err => some (.wrap "invalidate match error" err)
      | none => none
    server.Server.certRefresh.invalidate w (log ++ [.InvalidateMatch suc.Domain]) more err

/-- `(*Server).certRefresh` (certs.go 50-123), called with the slice `certs` after the
calls `log`.  `RunInTransaction` rolls back when its function returns an error and commits
otherwise, returning the error of either. -/
def server.Server.certRefresh (w : server.World) (log : server.Log)
    (certs : List models.Certificate) :
    Outcome (List models.Certificate × List models.Certificate × Option Err) × server.Log :=
  match server.Server.certRefresh.tx w log certs with
  | (.panic reason, log') => (.panic reason, log')
  | (.returned (some err, _, _), log') =>
    (.returned ([], [], some (.wrap "refresh transaction failed" err)), log' ++ [.Rollback])
  | (.returned (none, success, failed), log') =>
    match w.Commit log' with
    | some err =>
      (.returned ([], [], some (.wrap "refresh transaction failed" err)), log' ++ [.Commit])
    | none =>
      let (err, log'') :=
        server.Server.certRefresh.invalidate w (log' ++ [.Commit]) success none
      (.returned (success, failed, err), log'')

/-- `(*Server).certAutoRefresh` (certs.go 16-48), without its logging.  The variable
`certs` is declared nil, the query is built on its address, and its value, the nil slice,
is the argument of `certRefresh`. -/
def server.Server.certAutoRefresh (w : server.World) (log : server.Log) :
    Outcome (Bool × Option Err) × server.Log :=
  let certs : List models.Certificate := []
  match server.Server.certRefresh w log certs with
  | (.panic reason, log') => (.panic reason, log')
  | (.returned (success, failed, err), log') =>
    (.returned (decide ((success.length + failed.length : Int) < w.AutoRefreshBatch), err),
      log')

/-! ## `app/server/grpc.go` -/

/-- The message `pb.CreateRequest`. -/
structure pb.CreateRequest where
  Domain : Str
  Wait : Bool
  Refresh : Option pb.Refresh
  deriving DecidableEq, Repr

/-- The message `pb.CreateResponse`. -/
structure pb.CreateResponse where
  Certificate : pb.Certificate
  deriving DecidableEq, Repr

/-- `(*Server).obtainCertificate` (grpc.go 70-96).  The function ends with the insert: it
returns the record, or the wrapped error. -/
def server.Server.obtainCertificate (w : server.World) (log : server.Log)
    (req : pb.CreateRequest) : Outcome (Except Err models.Certificate) × server.Log :=
  match w.Obtain log req.Domain with
  | .error err =>
    (.returned (.error (.wrap "create failed, obtain error" err)), log ++ [.Obtain req.Domain])
  | .ok acmeCrt =>
    let crt : models.Certificate := { models.Certificate.zero with AcmeUserID := w.userID }
    match crt.FromAcmeCertificate w.x509 w.pem (w.Now (log ++ [.Obtain req.Domain]))
        acmeCrt with
    | .panic reason => (.panic reason, log ++ [.Obtain req.Domain])
    | .returned (_, some err) =>
      (.returned (.error (.wrap "create failed, convert error" err)),
        log ++ [.Obtain req.Domain])
    | .returned (crt, none) =>
      let crt : models.Certificate :=
        match req.Refresh with
        | some refresh =>
          { crt with
            AutoRefresh := refresh.AutoRefresh
            RefreshBeforeDays := (refresh.RefreshBeforeDays : Int) }
        | none => crt
      match w.Insert (log ++ [.Obtain req.Domain]) crt with
      | some err =>
        (.returned (.error (.wrap "create failed, insert failed" err)),
          log ++ [.Obtain req.Domain, .Insert crt])
      | none => (.returned (.ok crt), log ++ [.Obtain req.Domain, .Insert crt])

/-- `(*Server).Create` (grpc.go 15-68): the response (nil or not) and the error.  With
`Wait` unset the issuance is handed to the job runner, which runs it on its own; that run
is not part of the call. -/
def server.Server.Create (w : server.World) (log : server.Log) (req : pb.CreateRequest) :
    Outcome (Option pb.CreateResponse × Option Err) × server.Log :=
  if req.Domain = [] then
    (.returned (none, some (.msg "create failed, empty domain")), log)
  else
    -- Check and verify domain.
    match w.LookupHost log req.Domain with
    | some _ =>
      (.returned (some ⟨⟨req.Domain, w.Status_INVALID_DOMAIN, none, none⟩⟩, none),
        log ++ [.LookupHost req.Domain])
    | none =>
      match server.Server.verifyDomain w.verifier
          (server.drawn w.verifier (log ++ [.LookupHost req.Domain])) req.Domain with
      | .panic reason =>
        (.panic reason, log ++ [.LookupHost req.Domain, .verifyDomain req.Domain])
      | .returned (some _) =>
        (.returned
          (some ⟨⟨req.Domain, w.Status_DOMAIN_VERIFICATION_FAILED, none, none⟩⟩, none),
          log ++ [.LookupHost req.Domain, .verifyDomain req.Domain])
      | .returned none =>
        if req.Wait = false then
          (.returned (none, none),
            log ++ [.LookupHost req.Domain, .verifyDomain req.Domain, .Go])
        else
          match server.Server.obtainCertificate w
              (log ++ [.LookupHost req.Domain, .verifyDomain req.Domain]) req with
          | (.panic reason, log') => (.panic reason, log')
          | (.returned (.error err), log') => (.returned (none, some err), log')
          | (.returned (.ok crt), log') =>
            match crt.Proto with
            | .panic reason => (.panic reason, log')
            | .returned p => (.returned (some ⟨p⟩, none), log')

/-- `(*Server).Delete` (grpc.go 163-189): whether a response is returned, and the error.
`manager.Lock(q)` reads the locked row into `crt`; on `pg.ErrNoRows` the transaction
function returns nil, on any other outcome of the lock it returns `mgr.Delete(crt)`. -/
def server.Server.Delete (w : server.World) (log : server.Log) (domain : Str) :
    (Bool × Option Err) × server.Log :=
  if domain = [] then ((false, some (.msg "delete failed, empty domain")), log)
  else
    let crt : models.Certificate := { models.Certificate.zero with Domain := domain }
    let tx : models.Certificate × Option Err × server.Log :=
      match w.LockOne log domain with
      | .error err =>
        if err = .ErrNoRows then (crt, none, log ++ [.Lock])
        else (crt, w.Delete (log ++ [.Lock]) crt, log ++ [.Lock, .Delete crt])
      | .ok row => (row, w.Delete (log ++ [.Lock]) row, log ++ [.Lock, .Delete row])
    match tx with
    | (_, some err, log') => ((false, some err), log' ++ [.Rollback])
    | (crt, none, log') =>
      match w.Commit log' with
      | some err => ((false, some err), log' ++ [.Commit])
      | none =>
        ((true, w.InvalidateMatch (log' ++ [.Commit]) crt.Domain),
          log' ++ [.Commit, .InvalidateMatch crt.Domain])

/-! ## A concrete world -/

/-- The calls that a round of the loop of `certRefresh` can make. -/
def server.Event.inLoop : server.Event → Bool
  | .LookupHost _ => true
  | .verifyDomain _ => true
  | .Update _ => true
  | .Refresh _ => true
  | _ => false

/-- The concrete `net/http` and token generator: a URL with a space or a percent sign in
it is rejected, every token is `kkkkkkkk`. -/
def refVerifier : Verifier where
  NewRequestWithContext := fun method url body =>
    if ' ' ∈ url ∨ '%' ∈ url then .error (.lib 50) else .ok ⟨method, url, body⟩
  GenerateRandomString := fun _ n => List.replicate n 'k'

/-- The concrete PEM encoder, the inverse of `refDecode`: a certificate block is
`0 :: n :: der`, a key block `1 :: n :: der`. -/
def refCertcrypto : Certcrypto where
  PEMEncodeKey := fun key =>
    match key with
    | .rsa k => [1, 4, 1, k.N, k.E, k.D]
    | .ecdsa k => [1, 3, 2, k.Curve, k.D]
    | _ => []
  PEMEncodeDER := fun der => 0 :: der.length :: der

/-- A world in which everything works, except that `bad.invalid` does not resolve and the
matcher fails to invalidate `a.example`; `net/http` is the concrete one.  The CA issues a
leaf that expires at 100 and renews to one that expires at 200; the clock stands at 50; a
lock on a slice query claims the rows `rows`. -/
def refWorld (rows : List models.Certificate) : server.World where
  x509 := refX509
  pem := refPEM
  certcrypto := refCertcrypto
  Now := fun _ => 50
  LookupHost := fun _ d => if d = "bad.invalid".toList then some (.lib 20) else none
  verifier := refVerifier
  Lock := fun _ => .ok rows
  LockOne := fun _ _ => .error .ErrNoRows
  Update := fun _ _ => none
  UpdateAll := fun _ _ => none
  Insert := fun _ _ => none
  Delete := fun _ _ => none
  Commit := fun _ => none
  Obtain := fun _ d => .ok { refResource [0, 2, 0, 100] with Domain := d }
  Refresh := fun _ r => .ok { r with Certificate := [0, 2, 0, 200], PrivateKey := [1, 3, 2, 1, 7] }
  InvalidateMatch := fun _ d => if d = "a.example".toList then some (.lib 30) else none
  Status_INVALID_DOMAIN := 2
  Status_DOMAIN_VERIFICATION_FAILED := 3
  userID := 1
  AutoRefreshBatch := 10

/-- A stored record for the given domain: status OK, the chain `[[0, 100]]`, no failure. -/
def refCert (domain : String) : models.Certificate :=
  { refStored with Domain := domain.toList }

/-- The CA registration record `registration.Resource` of the ACME library, as the CA
returned it. -/
structure registration.Resource where
  URI : Str
  deriving DecidableEq, Repr

/-- The account identity `acme.User` (user.go 14-19).  A nil `Key` is
`crypto.PrivateKey.nil`, a nil `Registration` is `none`. -/
structure acme.User where
  Email : Str
  Registration : Option registration.Resource
  Key : crypto.PrivateKey
  thumbprint : Str
  deriving DecidableEq, Repr

/-- The request `certificate.ObtainRequest` of the ACME library, the fields that
`Obtain` sets. -/
structure certificate.ObtainRequest where
  Domains : List Str
  Bundle : Bool
  deriving DecidableEq, Repr

/-- A call that the client makes on the ACME library or on `crypto/ecdsa`.  All but
`GenerateKey` and `SetHTTP01Provider` go to the CA. -/
inductive acme.Event where
  | GenerateKey
  | NewClient
  | SetHTTP01Provider
  | Register
  | Obtain (request : certificate.ObtainRequest)
  | Renew (certRes : certificate.Resource) (bundle mustStaple : Bool)
  deriving DecidableEq, Repr

/-- The calls made so far, oldest first. -/
abbrev acme.Log := List acme.Event

/-- The ACME library and `ecdsa.GenerateKey`, each answering from the calls made before.
`Obtain` and `Renew` return a resource pointer and an error, either of which may be
nil. -/
structure Lego where
  GenerateKey : acme.Log → Except Err ecdsa.PrivateKey
  NewClient : acme.Log → Option Err
  SetHTTP01Provider : acme.Log → Option Err
  Register : acme.Log → Except Err registration.Resource
  Obtain : acme.Log → certificate.ObtainRequest → Option certificate.Resource × Option Err
  Renew : acme.Log → certificate.Resource → Bool → Bool →
    Option certificate.Resource × Option Err

/-- The state of an `acme.Client` (acme.go 18-26): the attached account `user`, the
account in the library configuration `config.User`, and whether the library client
`client` has been made. -/
structure acme.Client where
  user : Option acme.User
  configUser : Option acme.User
  client : Bool
  deriving DecidableEq, Repr

/-- `(*Client).Client` (acme.go 47-66): the client state after the call, and the calls
made. -/
def acme.Client.Client (l : Lego) (a : acme.Client) (log : acme.Log) :
    Outcome acme.Client × acme.Log :=
  if a.client = true then (.returned a, log)
  else
    -- A client facilitates communication with the CA server.
    match l.NewClient log with
    | some _ => (.panic "lego.NewClient", log ++ [.NewClient])
    | none =>
      match l.SetHTTP01Provider (log ++ [.NewClient]) with
      | some _ => (.panic "SetHTTP01Provider", log ++ [.NewClient, .SetHTTP01Provider])
      | none => (.returned { a with client := true }, log ++ [.NewClient, .SetHTTP01Provider])

/-- `(*Client).InitializeUser` (acme.go 68-106): the returned account and error, and the
client state after the call.  The account is a pointer, so the key and the registration
that the call writes into it show in `config.User` too. -/
def acme.Client.InitializeUser (l : Lego) (a : acme.Client) (log : acme.Log)
    (user : Option acme.User) :
    Outcome ((Option acme.User × Option Err) × acme.Client) × acme.Log :=
  match a.user with
  | some _ => (.returned ((none, some (.msg "user already initialized")), a), log)
  | none =>
    match user with
    | none =>
      (.returned ((none, some (.msg "user has to be non-nil and needs to have an email")),
        a), log)
    | some user =>
      if user.Email = [] then
        (.returned ((none, some (.msg "user has to be non-nil and needs to have an email")),
          a), log)
      -- If User is already registered, save it.
      else if user.Key ≠ .nil ∧ user.Registration ≠ none then
        (.returned ((some user, none), { a with configUser := some user, user := some user }),
          log)
      else
        -- Create a user. New accounts need an email and private key to start.
        match l.GenerateKey log with
        | .error err => (.returned ((none, some err), a), log ++ [.GenerateKey])
        | .ok privateKey =>
          let user := { user with Key := .ecdsa privateKey }
          -- New users will need to register.
          let a := { a with configUser := some user }
          match a.Client l (log ++ [.GenerateKey]) with
          | (.panic reason, log') => (.panic reason, log')
          | (.returned a, log') =>
            match l.Register log' with
            | .error err => (.returned ((none, some err), a), log' ++ [.Register])
            | .ok reg =>
              let user := { user with Registration := some reg }
              (.returned ((some user, none),
                { a with configUser := some user, user := some user }), log' ++ [.Register])

/-- `(*Client).Obtain` (acme.go 118-143). -/
def acme.Client.Obtain (l : Lego) (a : acme.Client) (log : acme.Log) (domains : List Str) :
    Outcome ((Option certificate.Resource × Option Err) × acme.Client) × acme.Log :=
  let request : certificate.ObtainRequest := { Domains := domains, Bundle := true }
  if domains.length = 0 then
    (.returned ((none, some (.msg "unable to obtain certificate for empty domains")), a), log)
  else
    match a.Client l log with
    | (.panic reason, log') => (.panic reason, log')
    | (.returned a, log') =>
      match l.Obtain log' request with
      | (_, some err) =>
        (.returned ((none, some (.wrap "unable to generate a certificate for domains" err)),
          a), log' ++ [.Obtain request])
      | (none, none) =>
        (.returned ((none, some (.msg "domains do not generate a certificate")), a),
          log' ++ [.Obtain request])
      | (some cert, none) =>
        if cert.Certificate.length = 0 ∨ cert.PrivateKey.length = 0 then
          (.returned ((none, some (.msg "domains generate certificate with no value")), a),
            log' ++ [.Obtain request])
        else (.returned ((some cert, none), a), log' ++ [.Obtain request])

/-- `(*Client).Refresh` (acme.go 145-162).  The library's result is read without a test
for nil (line 157). -/
def acme.Client.Refresh (l : Lego) (a : acme.Client) (log : acme.Log)
    (certRes : Option certificate.Resource) :
    Outcome ((Option certificate.Resource × Option Err) × acme.Client) × acme.Log :=
  match certRes with
  | none => (.returned ((none, some (.msg "unable to renew a nil certificate")), a), log)
  | some certRes =>
    match a.Client l log with
    | (.panic reason, log') => (.panic reason, log')
    | (.returned a, log') =>
      match l.Renew log' certRes true false with
      | (_, some err) =>
        (.returned ((none, some (.wrap "unable to renew a certificate for domain" err)), a),
          log' ++ [.Renew certRes true false])
      | (none, none) =>
        (.panic "invalid memory address or nil pointer dereference",
          log' ++ [.Renew certRes true false])
      | (some cert, none) =>
        if cert.Certificate.length = 0 ∨ cert.PrivateKey.length = 0 then
          (.returned ((none, some (.msg "domain generate certificate with no value")), a),
            log' ++ [.Renew certRes true false])
        else (.returned ((some cert, none), a), log' ++ [.Renew certRes true false])

/-- A concrete ACME library: keys are generated on curve 1, the CA registers every
account under `acct/1`, issues the bundle `[0, 2, 0, 100]` with a key, and renews a
resource to the bundle `[0, 2, 0, 200]`. -/
def refLego : Lego where
  GenerateKey := fun _ => .ok ⟨1, 7⟩
  NewClient := fun _ => none
  SetHTTP01Provider := fun _ => none
  Register := fun _ => .ok ⟨"acct/1".toList⟩
  Obtain := fun _ request =>
    (some { refResource [0, 2, 0, 100] with Domain := request.Domains.headD [] }, none)
  Renew := fun _ certRes _ _ =>
    (some { certRes with Certificate := [0, 2, 0, 200], PrivateKey := [1, 3, 2, 1, 7] }, none)

/-- An account that is already registered. -/
def refUser : acme.User where
  Email := "admin@example.com".toList
  Registration := some ⟨"acct/9".toList⟩
  Key := .ecdsa ⟨1, 5⟩
  thumbprint := []

/-! ## `pkg/cert/parse.go`: loading bundles -/

/-- The case tables of the Go package `unicode`: `unicode.ToLower` on one character. -/
structure Unicode where
  ToLower : Char → Char

/-- What is used of the tables: within ASCII the letters `A` to `Z` become `a` to `z` and
every other character stays, and no character at all becomes one of the letters `A` to
`Z`. -/
structure Unicode.Laws (u : Unicode) : Prop where
  ascii : ∀ c : Char, c.val < 128 → u.ToLower c = c.toLower
  lower : ∀ c : Char, (u.ToLower c).isUpper = false

/-- Go `strings.ToLower`, on valid text: every character is mapped by
`unicode.ToLower`. -/
def strings.ToLower (u : Unicode) (s : Str) : Str :=
  s.map u.ToLower

/-- Go `sort.Strings`: increasing order, byte by byte, which for valid text is the
order character by character. -/
def sort.Strings (a : List Str) : List Str :=
  a.insertionSort (· ≤ ·)

/-- The loop of `LoadCertficate` (parse.go 24-39), run for at most `fuel` rounds on what
is left of the input, `crt` being the certificate built so far. -/
def cert.LoadCertficate.loop (x : X509) (p : PEM) :
    Nat → Bytes → tls.Certificate → Except Err tls.Certificate
  | 0, _, crt => .ok crt
  | fuel + 1, raw, crt =>
    match p.Decode raw with
    | none => .ok crt
    | some (block, rest) =>
      if block.Typ = "CERTIFICATE".toList then
        cert.LoadCertficate.loop x p fuel rest
          { crt with Certificate := crt.Certificate ++ [block.Bytes] }
      else
        match cert.ParsePrivateKey x block.Bytes with
        | (_, _, some err) => .error (.wrap "failure reading private key from" err)
        | (key, _, none) =>
          cert.LoadCertficate.loop x p fuel rest { crt with PrivateKey := key }

/-- `LoadCertficate` (parse.go 18-48).  Every round shortens the input, so
`len(raw) + 1` rounds reach the `break`. -/
def cert.LoadCertficate (x : X509) (p : PEM) (raw : Bytes) : Except Err tls.Certificate :=
  match cert.LoadCertficate.loop x p (raw.length + 1) raw ⟨[], .nil⟩ with
  | .error err => .error err
  | .ok crt =>
    if crt.Certificate.length = 0 then .error (.msg "no certificate found")
    else if crt.PrivateKey = .nil then .error (.msg "no private key found")
    else .ok crt

/-- The slice `SANs` that `LoadCertificateFromPEM` builds (parse.go 125-143) from the
parsed first certificate: the common name when it is not empty, the DNS names, sorted,
that differ from the common name, and the IP addresses that differ from it, each
lower-cased as it is appended. -/
def cert.LoadCertificateFromPEM.SANs (u : Unicode) (c : x509.Certificate) : List Str :=
  (if c.CommonName ≠ [] then [strings.ToLower u c.CommonName] else [])
    ++ ((sort.Strings c.DNSNames).filter (· ≠ c.CommonName)).map (strings.ToLower u)
    ++ (c.IPAddresses.filter (· ≠ c.CommonName)).map (strings.ToLower u)

/-- The key `certKey` of `LoadCertificateFromPEM` (parse.go 145). -/
def cert.LoadCertificateFromPEM.certKey (u : Unicode) (c : x509.Certificate) : Str :=
  strings.Join (cert.LoadCertificateFromPEM.SANs u c) [',']

/-- `LoadCertificateFromPEM` (parse.go 113-148).  `tlsCert.Certificate[0]` is read after
`LoadCertficate` has made sure that the chain is not empty. -/
def cert.LoadCertificateFromPEM (u : Unicode) (x : X509) (p : PEM) (pemBytes : Bytes) :
    Except Err (tls.Certificate × Str) :=
  match cert.LoadCertficate x p pemBytes with
  | .error err => .error err
  | .ok tlsCert =>
    -- Parse cert to key by SAN
    match x.ParseCertificate (tlsCert.Certificate.headD []) with
    | .error err => .error err
    | .ok c => .ok (tlsCert, cert.LoadCertificateFromPEM.certKey u c)

/-! ## `pkg/cert/parse.go` and `storage.go`: loading a directory -/

/-- What `filepath.Walk` hands to its callback for one entry of the tree: the path, the
`IsDir` of its `os.FileInfo`, and the error of reaching it. -/
structure filepath.WalkEntry where
  path : Str
  IsDir : Bool
  err : Option Err
  deriving DecidableEq, Repr

/-- The file system as `getCertFiles` sees it, through `path/filepath` and `io/ioutil`:
the entries that `Walk` visits under a root, in its order, the content or error of
`ReadFile`, and the functions `Dir` and `Ext` on paths. -/
structure FS where
  Walk : Str → List filepath.WalkEntry
  ReadFile : Str → Except Err Bytes
  Dir : Str → Str
  Ext : Str → Str

/-- A Go map as the list of its entries, in the order a `range` visits them: the
assignment `m[k] = v`. -/
def mapSet {α : Type} (m : List (Str × α)) (k : Str) (v : α) : List (Str × α) :=
  match m with
  | [] => [(k, v)]
  | (k', v') :: more => if k' = k then (k, v) :: more else (k', v') :: mapSet more k v

/-- The variable `validPEMBeginning` (parse.go 16). -/
def cert.validPEMBeginning : Bytes :=
  "-----BEGIN".toList.map Char.toNat

/-- The callback of the walk in `getCertFiles` (parse.go 54-73), over the entries still to
visit: an entry's error ends the walk, a directory is passed over, and a file is
appended to the files of its folder (`tree[dir] = append(t, path)`). -/
def cert.getCertFiles.walk (fs : FS) :
    List filepath.WalkEntry → List (Str × List Str) → Except Err (List (Str × List Str))
  | [], tree => .ok tree
  | entry :: more, tree =>
    match entry.err with
    | some err => .error err
    | none =>
      if entry.IsDir = true then cert.getCertFiles.walk fs more tree
      else
        let dir := fs.Dir entry.path
        let t := (tree.lookup dir).getD []
        cert.getCertFiles.walk fs more (mapSet tree dir (t ++ [entry.path]))

/-- The inner loop of `getCertFiles` over the files of one folder (parse.go 85-105):
`cur` is the concatenation so far and `ret` the bundles so far. -/
def cert.getCertFiles.folder (fs : FS) :
    List Str → Bytes → List Bytes → Except Err (Bytes × List Bytes)
  | [], cur, ret => .ok (cur, ret)
  | file :: more, cur, ret =>
    match fs.ReadFile file with
    | .error err => .error err
    | .ok raw =>
      if fs.Ext file = ".pem".toList then cert.getCertFiles.folder fs more cur (ret ++ [raw])
      else if cert.validPEMBeginning.isPrefixOf raw = false then
        cert.getCertFiles.folder fs more cur ret
      else
        cert.getCertFiles.folder fs more
          ((if cur.length ≠ 0 then cur ++ [10] else cur) ++ raw) ret

/-- The outer loop of `getCertFiles` over the folders (parse.go 82-108): after the files
of a folder, `cur` is appended to `ret`, whatever it holds. -/
def cert.getCertFiles.folders (fs : FS) :
    List (Str × List Str) → List Bytes → Except Err (List Bytes)
  | [], ret => .ok ret
  | (_, files) :: more, ret =>
    match cert.getCertFiles.folder fs files [] ret with
    | .error err => .error err
    | .ok (cur, ret) => cert.getCertFiles.folders fs more (ret ++ [cur])

/-- `getCertFiles` (parse.go 50-111). -/
def cert.getCertFiles (fs : FS) (dir : Str) : Except Err (List Bytes) :=
  match cert.getCertFiles.walk fs (fs.Walk dir) [] with
  | .error err => .error err
  | .ok tree =>
    -- Load and combine files
    cert.getCertFiles.folders fs tree []

/-- The loop of `LoadCertificatesFromPath` over the bundles (parse.go 158-165). -/
def cert.LoadCertificatesFromPath.loop (u : Unicode) (x : X509) (p : PEM) :
    List Bytes → List (Str × tls.Certificate) → Except Err (List (Str × tls.Certificate))
  | [], ret => .ok ret
  | pem :: more, ret =>
    match cert.LoadCertificateFromPEM u x p pem with
    | .error err => .error err
    | .ok (tlsCert, certKey) =>
      cert.LoadCertificatesFromPath.loop u x p more (mapSet ret certKey tlsCert)

/-- `LoadCertificatesFromPath` (parse.go 150-168). -/
def cert.LoadCertificatesFromPath (fs : FS) (u : Unicode) (x : X509) (p : PEM)
    (dir : Str) :
    Except Err (List (Str × tls.Certificate)) :=
  match cert.getCertFiles fs dir with
  | .error err => .error (.wrap "failed to scan certificate dir" err)
  | .ok pems => cert.LoadCertificatesFromPath.loop u x p pems []

/-- `(*Storage).LoadDir` (storage.go 24-35): the error, and the store after the call. -/
def cert.Storage.LoadDir {σ : Type} (fs : FS) (u : Unicode) (x : X509) (p : PEM)
    (cs : cert.Storage σ) (dir : Str) : Option Err × cert.Storage σ :=
  match cert.LoadCertificatesFromPath fs u x p dir with
  | .error err => (some err, cs)
  | .ok certs =>
    (none, { cs with local_ := certs.foldl (fun m kv => mapSet m kv.1 kv.2) cs.local_ })

/-! ## A concrete file system -/

/-- A concrete `encoding/pem` for files that start with `-----BEGIN`: a block is that
marker, then `typ`, `n` and `n` bytes of payload; newlines before a block are skipped. -/
def refDecodeArmored : Bytes → Option (pem.Block × Bytes)
  | [] => none
  | b :: rest =>
    if b = 10 then refDecodeArmored rest
    else if cert.validPEMBeginning.isPrefixOf (b :: rest) = true then
      match (b :: rest).drop 10 with
      | typ :: n :: data =>
        if n ≤ data.length then
          some (⟨if typ = 0 then "CERTIFICATE".toList else "PRIVATE KEY".toList,
            data.take n⟩, data.drop n)
        else none
      | _ => none
    else none

/-- A block in the encoding of `refDecodeArmored`. -/
def refArmor (typ : Nat) (payload : Bytes) : Bytes :=
  cert.validPEMBeginning ++ [typ, payload.length] ++ payload

/-- A concrete case table: ASCII, and beyond it the letter `É`, which becomes `é`. -/
def refUnicode : Unicode where
  ToLower := fun c => if c.val < 128 then c.toLower else if c = 'É' then 'é' else c

/-- A concrete `x509.ParseCertificate` with names: a certificate is
`isCA :: notAfter :: common name`. -/
def refX509Named : X509 :=
  { refX509 with
    ParseCertificate := fun der =>
      match der with
      | ca :: notAfter :: name => .ok ⟨ca = 1, notAfter, stringOfBytes name, [], []⟩
      | _ => .error (.lib 5) }

/-- A bundle for the given common name: a leaf certificate that expires at 100 and the
RSA key `n`, in the encoding of `refDecodeArmored`. -/
def refBundle (name : String) (n : Nat) : Bytes :=
  refArmor 0 (0 :: 100 :: name.toList.map Char.toNat) ++ refArmor 1 [1, n, 3, 5]

/-- The certificate that `refBundle name n` loads to. -/
def refLoaded (name : String) (n : Nat) : tls.Certificate :=
  ⟨[0 :: 100 :: name.toList.map Char.toNat], .rsa ⟨n, 3, 5⟩⟩

/-- A concrete file system holding the given files, all readable: `Dir` is the path up to
its last slash and `Ext` the file name from its last dot on. -/
def refFS (files : List (Str × Bytes)) : FS where
  Walk := fun _ => files.map (fun f => ⟨f.1, false, none⟩)
  ReadFile := fun path =>
    match files.lookup path with
    | some raw => .ok raw
    | none => .error (.lib 60)
  Dir := fun path => (path.reverse.dropWhile (· != '/')).tail.reverse
  Ext := fun path =>
    let name := (path.reverse.takeWhile (· != '/')).reverse
    if '.' ∈ name then '.' :: (name.reverse.takeWhile (· != '.')).reverse else []

/-- The concrete `encoding/pem` for files that start with `-----BEGIN`. -/
def refPEMArmored : PEM where
  Decode := refDecodeArmored
  Decode_shorter := by
    intro data
    induction data with
    | nil => intro block rest h; simp [refDecodeArmored] at h
    | cons b data ih =>
      intro block rest h
      rw [refDecodeArmored] at h
      split at h
      · have := ih block rest h
        simp only [List.length_cons]
        omega
      · split at h
        · split at h
          · rename_i typ n d heq
            split at h
            · simp only [Option.some.injEq, Prod.mk.injEq] at h
              obtain ⟨_, rfl⟩ := h
              have hlen := congrArg List.length heq
              simp only [List.length_drop, List.length_cons] at hlen ⊢
              omega
            · cases h
          · cases h
        · cases h

/-! ## The sources of `matchSingleDomain`, in the order it consults them -/

/-- A source that `matchSingleDomain` consults for a name: the loop over the static set,
or a call of `resolve`. -/
inductive cert.Source where
  | static (domain : Str)
  | resolve (domain : Str)
  deriving DecidableEq, Repr

/-- The source is a call of `resolve`. -/
def cert.Source.isResolve : cert.Source → Bool
  | .static _ => false
  | .resolve _ => true

/-- `(*Storage).matchSingleDomain` (certificate.go 41-84) once more, statement by
statement, with the sources it consults written down in order next to its result. -/
def cert.Storage.matchSingleDomain.traced {σ : Type} (x : X509) (cs : cert.Storage σ)
    (domain : Str) (resolve : cert.Resolve) :
    Except Err (Option cert.Certificate) × List cert.Source :=
  let labels := (strings.SplitN '.' domain 3).set 0 ['*']
  let wildcardDomain := strings.Join labels ['.']
  match cert.Storage.rangeLocal cs.local_ domain with
  | some crt => (cert.Storage.found x crt, [.static domain])
  | none =>
    match resolve domain with
    | .error err => (.error err, [.static domain, .resolve domain])
    | .ok (some crt) => (cert.Storage.found x crt, [.static domain, .resolve domain])
    | .ok none =>
      -- Try wildcard if domain has more than 2 parts.
      if labels.length > 2 then
        match cert.Storage.rangeLocal cs.local_ wildcardDomain with
        | some crt =>
          (cert.Storage.found x crt,
            [.static domain, .resolve domain, .static wildcardDomain])
        | none =>
          match resolve wildcardDomain with
          | .error err =>
            (.error err, [.static domain, .resolve domain, .static wildcardDomain,
              .resolve wildcardDomain])
          | .ok (some crt) =>
            (cert.Storage.found x crt, [.static domain, .resolve domain,
              .static wildcardDomain, .resolve wildcardDomain])
          | .ok none =>
            (.ok none, [.static domain, .resolve domain, .static wildcardDomain,
              .resolve wildcardDomain])
      else (.ok none, [.static domain, .resolve domain])

/-! # Theorems -/

/-- The concrete codec satisfies the laws of `crypto/x509`. -/
theorem refX509_laws : refX509.Laws where
  pkcs1_roundtrip := by intro k; rfl
  ec_roundtrip := by
    intro k der h
    simp only [refX509, refMarshalEC] at h ⊢
    split at h
    · cases h
    · cases h
      simp [refParseEC, *]
  ec_not_pkcs1 := by
    intro k der h
    simp only [refX509, refMarshalEC] at h ⊢
    split at h
    · cases h
    · cases h
      exact ⟨_, rfl⟩
  ec_not_pkcs8 := by
    intro k der h
    simp only [refX509, refMarshalEC] at h ⊢
    split at h
    · cases h
    · cases h
      exact ⟨_, rfl⟩
  ec_parsed_marshals := by
    intro der k h
    simp only [refX509] at h ⊢
    unfold refParseEC at h
    split at h
    · split at h
      · cases h
      · cases h
        simp [refMarshalEC, *]
    · cases h
  pkcs8_ec_marshals := by
    intro der k h
    simp only [refX509] at h ⊢
    unfold refParsePKCS8 at h
    split at h
    · cases h
    · split at h
      · cases h
      · cases h
        simp [refMarshalEC, *]
    · cases h
    · cases h

/-! ## The key codec (keys.go) -/

/-- C1 as stated fails for an ECDSA key that `x509.MarshalECPrivateKey` does not encode (a
key on a curve without a name): `MarshalPrivateKey` passes the library's error on
(keys.go 63 and 70), here on the concrete codec, which satisfies the library laws, for
the key on the unnamed curve 0. -/
theorem MarshalPrivateKey_roundtrip_counterexample :
    refX509.Laws
      ∧ ¬ ∃ der t, cert.MarshalPrivateKey refX509 (.ecdsa ⟨0, 7⟩) = (der, t, none) := by
  refine ⟨refX509_laws, ?_⟩
  rintro ⟨der, t, h⟩
  revert h
  simp [cert.MarshalPrivateKey, refX509, refMarshalEC]

/-- C1, amended: for every RSA key, and every ECDSA key that `x509.MarshalECPrivateKey`
encodes, `MarshalPrivateKey` returns `(der, t, nil)` with `t = KeyTypeEC` for ECDSA and
`t = KeyTypePKCS1` for RSA, and both `ParsePrivateKey der` and
`ParsePrivateKeyByType der t` return the key without error, `ParsePrivateKey` with the
same tag `t`. -/
theorem MarshalPrivateKey_roundtrip (x : X509) (hx : x.Laws) (K : crypto.PrivateKey)
    (hK : (∃ k, K = .rsa k) ∨ (∃ k der, K = .ecdsa k ∧ x.MarshalECPrivateKey k = .ok der)) :
    ∃ der t, cert.MarshalPrivateKey x K = (der, t, none)
      ∧ ((∃ k, K = .ecdsa k) → t = .KeyTypeEC)
      ∧ ((∃ k, K = .rsa k) → t = .KeyTypePKCS1)
      ∧ cert.ParsePrivateKey x der = (K, t, none)
      ∧ cert.ParsePrivateKeyByType x der t = (K, none) := by
  rcases hK with ⟨k, rfl⟩ | ⟨k, der, rfl, hm⟩
  · refine ⟨x.MarshalPKCS1PrivateKey k, .KeyTypePKCS1, rfl, ?_, fun _ => rfl, ?_, ?_⟩
    · rintro ⟨k', hk'⟩
      cases hk'
    · simp [cert.ParsePrivateKey, hx.pkcs1_roundtrip]
    · simp [cert.ParsePrivateKeyByType, hx.pkcs1_roundtrip]
  · obtain ⟨e1, h1⟩ := hx.ec_not_pkcs1 k der hm
    obtain ⟨e8, h8⟩ := hx.ec_not_pkcs8 k der hm
    have hec := hx.ec_roundtrip k der hm
    refine ⟨der, .KeyTypeEC, ?_, fun _ => rfl, ?_, ?_, ?_⟩
    · simp [cert.MarshalPrivateKey, hm]
    · rintro ⟨k', hk'⟩
      cases hk'
    · simp [cert.ParsePrivateKey, h1, h8, hec]
    · simp [cert.ParsePrivateKeyByType, hec]

/-- C1 amended, run on the concrete codec for the ECDSA key on curve 1 with secret 7. -/
theorem MarshalPrivateKey_roundtrip_witness :
    ∃ der t, cert.MarshalPrivateKey refX509 (.ecdsa ⟨1, 7⟩) = (der, t, none)
      ∧ ((∃ k, crypto.PrivateKey.ecdsa ⟨1, 7⟩ = .ecdsa k) → t = .KeyTypeEC)
      ∧ ((∃ k, crypto.PrivateKey.ecdsa ⟨1, 7⟩ = .rsa k) → t = .KeyTypePKCS1)
      ∧ cert.ParsePrivateKey refX509 der = (.ecdsa ⟨1, 7⟩, t, none)
      ∧ cert.ParsePrivateKeyByType refX509 der t = (.ecdsa ⟨1, 7⟩, none) :=
  MarshalPrivateKey_roundtrip refX509 refX509_laws (.ecdsa ⟨1, 7⟩)
    (Or.inr ⟨⟨1, 7⟩, [2, 1, 7], rfl, rfl⟩)

/-- C2 (what the code does): for a key that is neither ECDSA nor RSA (an Ed25519 key, a
raw byte slice, nil) `MarshalPrivateKey` returns the empty encoding, the tag
`KeyTypeUnknown` and a nil error. -/
theorem MarshalPrivateKey_unsupported_nil_error (x : X509) (seed b : Bytes) :
    cert.MarshalPrivateKey x (.ed25519 seed) = ([], .KeyTypeUnknown, none)
      ∧ cert.MarshalPrivateKey x (.bytes b) = ([], .KeyTypeUnknown, none)
      ∧ cert.MarshalPrivateKey x .nil = ([], .KeyTypeUnknown, none) :=
  ⟨rfl, rfl, rfl⟩

/-- C3: `ParsePrivateKey` tries PKCS1, then PKCS8, then SEC1.  A PKCS1 success gives
`(key, KeyTypePKCS1)`; failing that, a PKCS8 success gives `KeyTypePKCS1` for an RSA key,
`KeyTypeEC` for an ECDSA key and an error for any other key; failing that, a SEC1 success
gives `(key, KeyTypeEC)`; failing that, an error.  On success the tag is not
`KeyTypeUnknown`, and `MarshalPrivateKey` re-encodes the key under the same tag into bytes
that `ParsePrivateKeyByType` with that tag parses back to the key. -/
theorem ParsePrivateKey_order (x : X509) (hx : x.Laws) (der : Bytes) :
    (∀ k, x.ParsePKCS1PrivateKey der = .ok k →
      cert.ParsePrivateKey x der = (.rsa k, .KeyTypePKCS1, none))
    ∧ (∀ e1 key, x.ParsePKCS1PrivateKey der = .error e1 →
        x.ParsePKCS8PrivateKey der = .ok key →
        (∀ k, key = .rsa k → cert.ParsePrivateKey x der = (.rsa k, .KeyTypePKCS1, none))
        ∧ (∀ k, key = .ecdsa k → cert.ParsePrivateKey x der = (.ecdsa k, .KeyTypeEC, none))
        ∧ ((∀ k, key ≠ .rsa k) → (∀ k, key ≠ .ecdsa k) →
            ∃ e, cert.ParsePrivateKey x der = (.nil, .KeyTypeUnknown, some e)))
    ∧ (∀ e1 e8 k, x.ParsePKCS1PrivateKey der = .error e1 →
        x.ParsePKCS8PrivateKey der = .error e8 → x.ParseECPrivateKey der = .ok k →
        cert.ParsePrivateKey x der = (.ecdsa k, .KeyTypeEC, none))
    ∧ (∀ e1 e8 e2, x.ParsePKCS1PrivateKey der = .error e1 →
        x.ParsePKCS8PrivateKey der = .error e8 → x.ParseECPrivateKey der = .error e2 →
        ∃ e, cert.ParsePrivateKey x der = (.nil, .KeyTypeUnknown, some e))
    ∧ (∀ key t, cert.ParsePrivateKey x der = (key, t, none) →
        t ≠ .KeyTypeUnknown
        ∧ ∃ der', cert.MarshalPrivateKey x key = (der', t, none)
            ∧ cert.ParsePrivateKeyByType x der' t = (key, none)) := by
  refine ⟨?_, ?_, ?_, ?_, ?_⟩
  · intro k h
    simp [cert.ParsePrivateKey, h]
  · intro e1 key h1 h8
    refine ⟨?_, ?_, ?_⟩
    · rintro k rfl
      simp [cert.ParsePrivateKey, h1, h8]
    · rintro k rfl
      simp [cert.ParsePrivateKey, h1, h8]
    · intro hr he
      cases key with
      | rsa k => exact absurd rfl (hr k)
      | ecdsa k => exact absurd rfl (he k)
      | nil =>
        exact ⟨.msg "found unknown private key type in PKCS#8 wrapping", by
          simp [cert.ParsePrivateKey, h1, h8]⟩
      | ed25519 s =>
        exact ⟨.msg "found unknown private key type in PKCS#8 wrapping", by
          simp [cert.ParsePrivateKey, h1, h8]⟩
      | bytes b =>
        exact ⟨.msg "found unknown private key type in PKCS#8 wrapping", by
          simp [cert.ParsePrivateKey, h1, h8]⟩
  · intro e1 e8 k h1 h8 h2
    simp [cert.ParsePrivateKey, h1, h8, h2]
  · intro e1 e8 e2 h1 h8 h2
    exact ⟨.msg "failed to parse private key", by simp [cert.ParsePrivateKey, h1, h8, h2]⟩
  · intro key t h
    have rsa_case : ∀ k : rsa.PrivateKey,
        ∃ der', cert.MarshalPrivateKey x (.rsa k) = (der', .KeyTypePKCS1, none)
          ∧ cert.ParsePrivateKeyByType x der' .KeyTypePKCS1 = (.rsa k, none) := fun k =>
      ⟨x.MarshalPKCS1PrivateKey k, rfl, by
        simp [cert.ParsePrivateKeyByType, hx.pkcs1_roundtrip]⟩
    have ec_case : ∀ (k : ecdsa.PrivateKey) (d : Bytes), x.MarshalECPrivateKey k = .ok d →
        ∃ der', cert.MarshalPrivateKey x (.ecdsa k) = (der', .KeyTypeEC, none)
          ∧ cert.ParsePrivateKeyByType x der' .KeyTypeEC = (.ecdsa k, none) := fun k d hd =>
      ⟨d, by simp [cert.MarshalPrivateKey, hd], by
        simp [cert.ParsePrivateKeyByType, hx.ec_roundtrip k d hd]⟩
    unfold cert.ParsePrivateKey at h
    split at h
    · cases h
      exact ⟨by decide, rsa_case _⟩
    · split at h
      · rename_i key8 h8
        split at h
        · cases h
          exact ⟨by decide, rsa_case _⟩
        · cases h
          obtain ⟨d, hd⟩ := hx.pkcs8_ec_marshals der _ h8
          exact ⟨by decide, ec_case _ d hd⟩
        · cases h
      · split at h
        · rename_i k h2
          cases h
          obtain ⟨d, hd⟩ := hx.ec_parsed_marshals der _ h2
          exact ⟨by decide, ec_case _ d hd⟩
        · cases h

/-- C3, run on the concrete codec for the PKCS8 wrapping `[8, 2, 1, 7]` of an ECDSA key. -/
theorem ParsePrivateKey_order_witness :
    cert.ParsePrivateKey refX509 [8, 2, 1, 7] = (.ecdsa ⟨1, 7⟩, .KeyTypeEC, none)
    ∧ cert.KeyType.KeyTypeEC ≠ .KeyTypeUnknown
    ∧ ∃ der', cert.MarshalPrivateKey refX509 (.ecdsa ⟨1, 7⟩) = (der', .KeyTypeEC, none)
        ∧ cert.ParsePrivateKeyByType refX509 der' .KeyTypeEC = (.ecdsa ⟨1, 7⟩, none) :=
  ⟨rfl, (ParsePrivateKey_order refX509 refX509_laws [8, 2, 1, 7]).2.2.2.2 _ _ rfl⟩

/-! ## Bundles and records (parse.go, models/certificate.go) -/

/-- With fuel above the length of the bundle the decoding loop stops at its `break`: it
appends exactly the blocks of the bundle. -/
theorem DecodePEMToBytesArray_loop_blocks (p : PEM) (fuel : Nat) :
    ∀ (bundle : Bytes) (ret : List Bytes), bundle.length < fuel →
      ∃ bs, PEM.Blocks p bundle bs ∧ cert.DecodePEMToBytesArray.loop p fuel bundle ret = ret ++ bs := by
  induction fuel with
  | zero => intro bundle ret h; omega
  | succ n ih =>
    intro bundle ret h
    cases hd : p.Decode bundle with
    | none =>
      exact ⟨[], .done bundle hd, by simp [cert.DecodePEMToBytesArray.loop, hd]⟩
    | some br =>
      obtain ⟨block, rest⟩ := br
      have hlt := p.Decode_shorter bundle block rest hd
      obtain ⟨bs, hbs, heq⟩ := ih rest (ret ++ [block.Bytes]) (by omega)
      exact ⟨block.Bytes :: bs, .next bundle rest block bs hd hbs, by
        simp [cert.DecodePEMToBytesArray.loop, hd, heq]⟩

/-- `DecodePEMToBytesArray` returns the blocks of the bundle, in bundle order. -/
theorem DecodePEMToBytesArray_blocks (p : PEM) (bundle : Bytes) :
    PEM.Blocks p bundle (cert.DecodePEMToBytesArray p bundle) := by
  obtain ⟨bs, hbs, heq⟩ :=
    DecodePEMToBytesArray_loop_blocks p (bundle.length + 1) bundle [] (by omega)
  simpa [cert.DecodePEMToBytesArray, heq] using hbs

/-- The two ways `FromAcmeCertificate` returns: with an error and the record untouched,
or with a nil error after the first block parsed to a certificate that is not a CA, the
record then being overwritten as lines 169-181 say, its key being the zero values that
`MarshalPrivateKey` gives for a `[]byte`. -/
theorem FromAcmeCertificate_returned (x : X509) (p : PEM) (now : time.Time)
    (c c' : models.Certificate) (crt : certificate.Resource) (err : Option Err)
    (h : c.FromAcmeCertificate x p now crt = .returned (c', err)) :
    (c' = c ∧ err ≠ none)
    ∨ (err = none ∧ ∃ first rest leaf,
        cert.DecodePEMToBytesArray p crt.Certificate = first :: rest
        ∧ x.ParseCertificate first = .ok leaf ∧ leaf.IsCA = false
        ∧ c' = { c with
            Domain := crt.Domain
            URL := crt.CertURL
            StableURL := crt.CertStableURL
            PrivateKey := []
            PrivateKeyType := .KeyTypeUnknown
            Certificate := first :: rest
            IssuerCertificate := cert.DecodePEMToBytes p crt.IssuerCertificate
            CSR := cert.DecodePEMToBytes p crt.CSR
            Status := .CertificateStatusOK
            CreatedAt := some now
            ExpiresAt := some leaf.NotAfter }) := by
  unfold models.Certificate.FromAcmeCertificate at h
  cases hb : cert.DecodePEMToBytesArray p crt.Certificate with
  | nil => simp [hb] at h
  | cons first rest =>
    cases hp : x.ParseCertificate first with
    | error e => simp [hb, hp] at h
    | ok leaf =>
      cases hca : leaf.IsCA with
      | true =>
        simp [hb, hp, hca] at h
        exact Or.inl ⟨h.1.symm, by simp [← h.2]⟩
      | false =>
        right
        by_cases hk : crt.PrivateKey.length > 0
        · simp [hb, hp, hca, hk, cert.MarshalPrivateKey, fields.NewTime] at h
          exact ⟨h.2.symm, first, rest, leaf, rfl, hp, hca, h.1.symm⟩
        · simp [hb, hp, hca, hk, fields.NewTime] at h
          exact ⟨h.2.symm, first, rest, leaf, rfl, hp, hca, h.1.symm⟩

/-- C4 (what the code does): whenever `FromAcmeCertificate` succeeds, whatever PEM key the
resource carries, the record's `PrivateKey` is empty and its `PrivateKeyType` is
`KeyTypeUnknown`, and the record's `TLSCertificate` returns the nil key with a nil
error. -/
theorem FromAcmeCertificate_key_not_stored (x : X509) (p : PEM) (now : time.Time)
    (c c' : models.Certificate) (crt : certificate.Resource)
    (h : c.FromAcmeCertificate x p now crt = .returned (c', none)) :
    c'.PrivateKey = [] ∧ c'.PrivateKeyType = .KeyTypeUnknown
      ∧ c'.TLSCertificate x = (⟨c'.Certificate, .nil⟩, none) := by
  rcases FromAcmeCertificate_returned x p now c c' crt none h with ⟨_, hne⟩ | ⟨_, hshape⟩
  · exact absurd rfl hne
  · obtain ⟨first, rest, leaf, _, _, _, rfl⟩ := hshape
    exact ⟨rfl, rfl, rfl⟩

/-- C4, run on the concrete codec: the resource carries the PEM block of an ECDSA key, the
conversion succeeds, and the stored record has no key. -/
theorem FromAcmeCertificate_key_not_stored_witness :
    (refResource [0, 2, 0, 100]).PrivateKey = [1, 3, 2, 1, 7]
    ∧ refRecord.FromAcmeCertificate refX509 refPEM 50 (refResource [0, 2, 0, 100])
        = .returned (refStored, none)
    ∧ refStored.PrivateKey = [] ∧ refStored.PrivateKeyType = .KeyTypeUnknown
    ∧ refStored.TLSCertificate refX509 = (⟨refStored.Certificate, .nil⟩, none) :=
  ⟨rfl, by decide,
    FromAcmeCertificate_key_not_stored refX509 refPEM 50 refRecord refStored
      (refResource [0, 2, 0, 100]) (by decide)⟩

/-- C5 (what the code does): when the resource's `Certificate` field decodes to no PEM
block, `FromAcmeCertificate` faults on `certBytes[0]` instead of returning an error. -/
theorem FromAcmeCertificate_empty_bundle_panics (x : X509) (p : PEM) (now : time.Time)
    (c : models.Certificate) (crt : certificate.Resource)
    (h : cert.DecodePEMToBytesArray p crt.Certificate = []) :
    c.FromAcmeCertificate x p now crt = .panic "index out of range [0] with length 0" := by
  simp [models.Certificate.FromAcmeCertificate, h]

/-- C5, run on the concrete codec for the resource with an empty `Certificate` field. -/
theorem FromAcmeCertificate_empty_bundle_panics_witness :
    cert.DecodePEMToBytesArray refPEM (refResource []).Certificate = []
    ∧ refRecord.FromAcmeCertificate refX509 refPEM 50 (refResource [])
        = .panic "index out of range [0] with length 0" :=
  ⟨by decide,
    FromAcmeCertificate_empty_bundle_panics refX509 refPEM 50 refRecord (refResource [])
      (by decide)⟩

/-- C6: when the first certificate of the resource's bundle declares itself a certificate
authority, `FromAcmeCertificate` returns an error and the record is left as it was, field
for field. -/
theorem FromAcmeCertificate_rejects_CA (x : X509) (p : PEM) (now : time.Time)
    (c : models.Certificate) (crt : certificate.Resource) (first : Bytes) (rest : List Bytes)
    (leaf : x509.Certificate)
    (hbundle : cert.DecodePEMToBytesArray p crt.Certificate = first :: rest)
    (hparse : x.ParseCertificate first = .ok leaf) (hca : leaf.IsCA = true) :
    ∃ e, c.FromAcmeCertificate x p now crt = .returned (c, some e) := by
  refine ⟨.msg ("certificate for " ++ String.mk crt.Domain ++
    " bundle starts with a CA certificate"), ?_⟩
  simp [models.Certificate.FromAcmeCertificate, hbundle, hparse, hca]

/-- C6, run on the concrete codec: the bundle's first block `[1, 100]` is a CA
certificate, and the stored record `refStored` stays as it was. -/
theorem FromAcmeCertificate_rejects_CA_witness :
    cert.DecodePEMToBytesArray refPEM (refResource [0, 2, 1, 100, 0, 2, 0, 90]).Certificate
        = [1, 100] :: [[0, 90]]
    ∧ refX509.ParseCertificate [1, 100] = .ok ⟨true, 100, [], [], []⟩
    ∧ ∃ e, refStored.FromAcmeCertificate refX509 refPEM 50
        (refResource [0, 2, 1, 100, 0, 2, 0, 90]) = .returned (refStored, some e) :=
  ⟨by decide, rfl,
    FromAcmeCertificate_rejects_CA refX509 refPEM 50 refStored
      (refResource [0, 2, 1, 100, 0, 2, 0, 90]) [1, 100] [[0, 90]] ⟨true, 100, [], [], []⟩
      (by decide) rfl rfl⟩

/-- C7: when `FromAcmeCertificate` succeeds, the record has status OK, its chain is the
non-empty list of the blocks of the resource's PEM bundle in bundle order, its domain and
its two issuance URLs are those of the resource, and `ExpiresAt` is the `NotAfter` of the
first certificate of the chain. -/
theorem FromAcmeCertificate_success (x : X509) (p : PEM) (now : time.Time)
    (c c' : models.Certificate) (crt : certificate.Resource)
    (h : c.FromAcmeCertificate x p now crt = .returned (c', none)) :
    c'.Status = .CertificateStatusOK
      ∧ c'.Certificate ≠ []
      ∧ PEM.Blocks p crt.Certificate c'.Certificate
      ∧ c'.Domain = crt.Domain ∧ c'.URL = crt.CertURL ∧ c'.StableURL = crt.CertStableURL
      ∧ ∃ first rest leaf, c'.Certificate = first :: rest
          ∧ x.ParseCertificate first = .ok leaf
          ∧ c'.ExpiresAt = some leaf.NotAfter := by
  rcases FromAcmeCertificate_returned x p now c c' crt none h with ⟨_, hne⟩ | ⟨_, hshape⟩
  · exact absurd rfl hne
  · obtain ⟨first, rest, leaf, hb, hp, _, rfl⟩ := hshape
    refine ⟨rfl, by simp, ?_, rfl, rfl, rfl, first, rest, leaf, rfl, hp, rfl⟩
    have := DecodePEMToBytesArray_blocks p crt.Certificate
    rw [hb] at this
    exact this

/-- C7, run on the concrete codec: a bundle of a leaf that expires at 100 and one more
block gives a record with status OK, both blocks as chain, and expiry 100. -/
theorem FromAcmeCertificate_success_witness :
    refRecord.FromAcmeCertificate refX509 refPEM 50 (refResource [0, 2, 0, 100, 0, 2, 1, 900])
        = .returned ({ refStored with Certificate := [[0, 100], [1, 900]] }, none)
    ∧ ∃ first rest leaf,
        ({ refStored with Certificate := [[0, 100], [1, 900]] } : models.Certificate).Certificate
          = first :: rest
        ∧ refX509.ParseCertificate first = .ok leaf
        ∧ ({ refStored with Certificate := [[0, 100], [1, 900]] } : models.Certificate).ExpiresAt
          = some leaf.NotAfter :=
  ⟨by decide,
    (FromAcmeCertificate_success refX509 refPEM 50 refRecord
      { refStored with Certificate := [[0, 100], [1, 900]] }
      (refResource [0, 2, 0, 100, 0, 2, 1, 900]) (by decide)).2.2.2.2.2.2⟩

/-! ## Names: splitting, joining, wildcard (certificate.go 42-44, match.go) -/

/-- A name that holds the separator: what is left after the first label starts with it. -/
theorem dropWhile_ne_eq_cons (sep : Char) (s : Str) (h : sep ∈ s) :
    s.dropWhile (· != sep) = sep :: (s.dropWhile (· != sep)).tail := by
  induction s with
  | nil => simp at h
  | cons a t ih =>
    by_cases ha : a = sep
    · subst ha
      simp [List.dropWhile]
    · have ht : sep ∈ t := by
        rcases List.mem_cons.mp h with h1 | h1
        · exact absurd h1.symm ha
        · exact h1
      have hne : (a != sep) = true := by simpa using ha
      simp only [List.dropWhile_cons, hne, if_true]
      exact ih ht

/-- Cutting off the first label removes one separator. -/
theorem count_dropWhile_tail (sep : Char) (s : Str) (h : sep ∈ s) :
    s.count sep = ((s.dropWhile (· != sep)).tail).count sep + 1 := by
  induction s with
  | nil => simp at h
  | cons a t ih =>
    by_cases ha : a = sep
    · subst ha
      simp [List.dropWhile]
    · have ht : sep ∈ t := by
        rcases List.mem_cons.mp h with h1 | h1
        · exact absurd h1.symm ha
        · exact h1
      have hne : (a != sep) = true := by simpa using ha
      have hcount : (a :: t).count sep = t.count sep := by
        simp [List.count_cons, ha]
      simp only [List.dropWhile_cons, hne, if_true, hcount]
      exact ih ht

/-- `SplitN` returns `min n (Count + 1)` pieces. -/
theorem SplitN_length (sep : Char) (n : Nat) :
    ∀ s : Str, (strings.SplitN sep s n).length = min n (s.count sep + 1) := by
  induction n using Nat.strong_induction_on with
  | _ n ih =>
    intro s
    match n with
    | 0 => simp [strings.SplitN]
    | 1 => simp [strings.SplitN]
    | m + 2 =>
      by_cases h : sep ∈ s
      · have hc := count_dropWhile_tail sep s h
        have := ih (m + 1) (by omega) (s.dropWhile (· != sep)).tail
        simp only [strings.SplitN, h, if_true, List.length_cons, this, hc]
        omega
      · have hc : s.count sep = 0 := List.count_eq_zero.mpr h
        simp [strings.SplitN, h, hc]

/-- With a separator in the name and room for two pieces, `SplitN` cuts off the first
label and goes on with the rest. -/
theorem SplitN_of_mem (sep : Char) (s : Str) (n : Nat) (h : sep ∈ s) :
    strings.SplitN sep s (n + 2) = s.takeWhile (· != sep) ::
      strings.SplitN sep (s.dropWhile (· != sep)).tail (n + 1) := by
  rw [strings.SplitN, if_pos h]

/-- Joining one more piece in front of a non-empty list of pieces. -/
theorem Join_cons (a : Str) (l : List Str) (sep : Str) (h : l ≠ []) :
    strings.Join (a :: l) sep = a ++ sep ++ strings.Join l sep := by
  cases l with
  | nil => exact absurd rfl h
  | cons b more => rfl

/-- Joining the pieces of `SplitN` with the separator gives the name back. -/
theorem Join_SplitN (sep : Char) (n : Nat) :
    ∀ s : Str, strings.Join (strings.SplitN sep s (n + 1)) [sep] = s := by
  induction n with
  | zero => intro s; simp [strings.SplitN, strings.Join]
  | succ m ih =>
    intro s
    by_cases h : sep ∈ s
    · have hne : strings.SplitN sep (s.dropWhile (· != sep)).tail (m + 1) ≠ [] := by
        intro h0
        have := SplitN_length sep (m + 1) (s.dropWhile (· != sep)).tail
        rw [h0, List.length_nil] at this
        omega
      have hd := dropWhile_ne_eq_cons sep s h
      have hs : s.takeWhile (· != sep) ++ s.dropWhile (· != sep) = s :=
        List.takeWhile_append_dropWhile _ _
      rw [SplitN_of_mem sep s m h, Join_cons _ _ _ hne, ih]
      conv_rhs => rw [← hs, hd]
      simp
    · simp [strings.SplitN, h, strings.Join]

/-- The `wildcardDomain` of `matchSingleDomain` is the name with its first label replaced
by `*`. -/
theorem wildcardDomain_eq (domain : Str) :
    strings.Join ((strings.SplitN '.' domain 3).set 0 ['*']) ['.'] = wildcard domain := by
  by_cases h : '.' ∈ domain
  · have hne : strings.SplitN '.' (domain.dropWhile (· != '.')).tail 2 ≠ [] := by
      intro h0
      have := SplitN_length '.' 2 (domain.dropWhile (· != '.')).tail
      rw [h0, List.length_nil] at this
      omega
    have hd := dropWhile_ne_eq_cons '.' domain h
    have h3 : strings.SplitN '.' domain 3 = domain.takeWhile (· != '.') ::
        strings.SplitN '.' (domain.dropWhile (· != '.')).tail 2 := SplitN_of_mem '.' domain 1 h
    rw [h3, List.set_cons_zero, Join_cons _ _ _ hne, Join_SplitN '.' 1, wildcard, hd]
    simp
  · have hd : domain.dropWhile (· != '.') = [] := by
      rw [List.dropWhile_eq_nil_iff]
      intro a ha
      have : a ≠ '.' := fun h0 => h (h0 ▸ ha)
      simpa using this
    simp [strings.SplitN, h, strings.Join, wildcard, hd]

/-- The test `len(labels) > 2` of `matchSingleDomain` holds exactly for the names of three
or more labels. -/
theorem labels_gt_two_iff (domain : Str) :
    ((strings.SplitN '.' domain 3).set 0 ['*']).length > 2 ↔ 3 ≤ labelCount domain := by
  rw [List.length_set, SplitN_length, labelCount]
  omega

/-- `MatchDomain` accepts a name of the certificate when it is the domain as it stands, or
is the domain once its trailing dots are removed. -/
theorem MatchDomain_iff (domain certDomain : Str) :
    cert.MatchDomain domain certDomain = true ↔
      domain = certDomain ∨ domain = trimTrailingDots certDomain := by
  unfold cert.MatchDomain
  by_cases h : domain = certDomain
  · simp [h]
  · simp [h]

/-- A hit of the loop over the static set is the certificate of an entry one of whose
names `MatchDomain` accepts. -/
theorem rangeLocal_some (entries : List (Str × tls.Certificate)) (domain : Str)
    (crt : tls.Certificate) (h : cert.Storage.rangeLocal entries domain = some crt) :
    ∃ e ∈ entries, e.2 = crt ∧ ∃ san ∈ sanList e.1, cert.MatchDomain domain san = true := by
  induction entries with
  | nil => simp [cert.Storage.rangeLocal] at h
  | cons e more ih =>
    obtain ⟨sans, c⟩ := e
    by_cases hm : (strings.Split ',' sans).any (cert.MatchDomain domain) = true
    · simp only [cert.Storage.rangeLocal, hm, if_true, Option.some.injEq] at h
      obtain ⟨san, hsan, hmatch⟩ := List.any_eq_true.mp hm
      exact ⟨(sans, c), List.mem_cons_self _ _, h, san, hsan, hmatch⟩
    · rw [cert.Storage.rangeLocal, if_neg hm] at h
      obtain ⟨e, he, hrest⟩ := ih h
      exact ⟨e, List.mem_cons_of_mem _ he, hrest⟩

/-- The loop over the static set misses exactly when `MatchDomain` accepts no name of any
entry; otherwise it hits. -/
theorem rangeLocal_none_iff (entries : List (Str × tls.Certificate)) (domain : Str) :
    cert.Storage.rangeLocal entries domain = none ↔
      ∀ e ∈ entries, ∀ san ∈ sanList e.1, cert.MatchDomain domain san = false := by
  induction entries with
  | nil => simp [cert.Storage.rangeLocal]
  | cons e more ih =>
    obtain ⟨sans, c⟩ := e
    by_cases hm : (strings.Split ',' sans).any (cert.MatchDomain domain) = true
    · simp only [cert.Storage.rangeLocal, hm, if_true]
      constructor
      · intro h; cases h
      · intro h
        obtain ⟨san, hsan, hmatch⟩ := List.any_eq_true.mp hm
        have := h (sans, c) (List.mem_cons_self _ _) san hsan
        rw [hmatch] at this
        cases this
    · have hall : ∀ san ∈ sanList sans, cert.MatchDomain domain san = false := by
        intro san hsan
        by_contra hc
        exact hm (List.any_eq_true.mpr ⟨san, hsan, by simpa using hc⟩)
      rw [cert.Storage.rangeLocal, if_neg hm, ih]
      constructor
      · intro h e he
        rcases List.mem_cons.mp he with rfl | he
        · exact hall
        · exact h e he
      · intro h e he
        exact h e (List.mem_cons_of_mem _ he)

/-! ## The matcher (certificate.go 41-132) -/

/-- C8 as stated fails.  With the names `a.b.c.` and `*.b.c` in the static set and an
inventory that finds nothing, no name equals `a.b.c` and one equals its wildcard form, yet
`matchSingleDomain` returns the certificate of `a.b.c.`, which `MatchDomain` accepts for
`a.b.c`.  And with the names `*.b.c.` and `*.b.c`, no name matches `a.b.c` in any way and
the certificate returned is that of `*.b.c.`, not one with the name `*.b.c`. -/
theorem matchSingleDomain_wildcard_counterexample :
    (3 ≤ labelCount "a.b.c".toList
      ∧ (∀ e ∈ (refStorage [] [("a.b.c.".toList, refStatic 1),
            ("*.b.c".toList, refStatic 2)]).local_, ¬ carries e.1 "a.b.c".toList)
      ∧ refResolveNone "a.b.c".toList = .ok none
      ∧ (∃ e ∈ (refStorage [] [("a.b.c.".toList, refStatic 1),
            ("*.b.c".toList, refStatic 2)]).local_, carries e.1 (wildcard "a.b.c".toList))
      ∧ ¬ ∃ e ∈ (refStorage [] [("a.b.c.".toList, refStatic 1),
            ("*.b.c".toList, refStatic 2)]).local_,
          carries e.1 (wildcard "a.b.c".toList)
          ∧ (refStorage [] [("a.b.c.".toList, refStatic 1),
              ("*.b.c".toList, refStatic 2)]).matchSingleDomain refX509 "a.b.c".toList
                refResolveNone = cert.Storage.found refX509 e.2)
    ∧ ((∀ e ∈ (refStorage [] [("*.b.c.".toList, refStatic 1),
            ("*.b.c".toList, refStatic 2)]).local_, ¬ carriesUpToDots e.1 "a.b.c".toList)
      ∧ ¬ ∃ e ∈ (refStorage [] [("*.b.c.".toList, refStatic 1),
            ("*.b.c".toList, refStatic 2)]).local_,
          carries e.1 (wildcard "a.b.c".toList)
          ∧ (refStorage [] [("*.b.c.".toList, refStatic 1),
              ("*.b.c".toList, refStatic 2)]).matchSingleDomain refX509 "a.b.c".toList
                refResolveNone = cert.Storage.found refX509 e.2) := by
  decide

/-- C8, amended: for a domain of at least three labels, if `MatchDomain` accepts no name
of any static certificate for the domain (none equals it, as it stands or without its
trailing dots), the inventory returns no certificate for it, and some static certificate
has a name that is the wildcard form, as it stands or without its trailing dots, then
`matchSingleDomain` returns the descriptor of a static certificate with such a name. -/
theorem matchSingleDomain_wildcard {σ : Type} (x : X509) (cs : cert.Storage σ) (D : Str)
    (resolve : cert.Resolve) (hlabels : 3 ≤ labelCount D)
    (hexact : ∀ e ∈ cs.local_, ¬ carriesUpToDots e.1 D)
    (hresolve : resolve D = .ok none)
    (hwild : ∃ e ∈ cs.local_, carriesUpToDots e.1 (wildcard D)) :
    ∃ e ∈ cs.local_, carriesUpToDots e.1 (wildcard D)
      ∧ cs.matchSingleDomain x D resolve = cert.Storage.found x e.2 := by
  have hmiss : cert.Storage.rangeLocal cs.local_ D = none := by
    rw [rangeLocal_none_iff]
    intro e he san hsan
    by_contra hc
    have hm : cert.MatchDomain D san = true := by simpa using hc
    exact hexact e he ⟨san, hsan, (MatchDomain_iff D san).mp hm⟩
  have hlen := (labels_gt_two_iff D).mpr hlabels
  cases hw : cert.Storage.rangeLocal cs.local_ (wildcard D) with
  | none =>
    exfalso
    obtain ⟨e, he, san, hsan, hm⟩ := hwild
    have := (rangeLocal_none_iff cs.local_ (wildcard D)).mp hw e he san hsan
    rw [(MatchDomain_iff (wildcard D) san).mpr hm] at this
    cases this
  | some crt =>
    obtain ⟨e, he, hcrt, san, hsan, hm⟩ := rangeLocal_some cs.local_ (wildcard D) crt hw
    refine ⟨e, he, ⟨san, hsan, (MatchDomain_iff _ _).mp hm⟩, ?_⟩
    simp only [cert.Storage.matchSingleDomain, hmiss, hresolve, wildcardDomain_eq, hw, hcrt]
    rw [if_pos hlen]

/-- C8 amended, run on the concrete store: `a.b.c` against the names `x.y` and `*.b.c.`. -/
theorem matchSingleDomain_wildcard_witness :
    ∃ e ∈ (refStorage [] [("x.y".toList, refStatic 1), ("*.b.c.".toList, refStatic 2)]).local_,
      carriesUpToDots e.1 (wildcard "a.b.c".toList)
      ∧ (refStorage [] [("x.y".toList, refStatic 1),
          ("*.b.c.".toList, refStatic 2)]).matchSingleDomain refX509 "a.b.c".toList
            refResolveNone = cert.Storage.found refX509 e.2 :=
  matchSingleDomain_wildcard refX509
    (refStorage [] [("x.y".toList, refStatic 1), ("*.b.c.".toList, refStatic 2)])
    "a.b.c".toList refResolveNone (by decide) (by decide) rfl (by decide)

/-- A successful `found` is a successful `NewCertificate`. -/
theorem found_ok (x : X509) (crt : tls.Certificate) (c : cert.Certificate)
    (h : cert.Storage.found x crt = .ok (some c)) : cert.NewCertificate x crt = .ok c := by
  unfold cert.Storage.found at h
  split at h
  · rename_i c0 h0
    cases h
    exact h0
  · cases h

/-- C9 as stated fails.  With the name `a.b.` in the static set and an inventory that
finds nothing, `matchSingleDomain` returns that certificate for the domain `a.b.` (the
two are equal as they stand), although the name without its trailing dots, `a.b`, is
neither the domain nor its wildcard form `*.b.`. -/
theorem matchSingleDomain_sound_counterexample :
    (refStorage [] [("a.b.".toList, refStatic 1)]).matchSingleDomain refX509 "a.b.".toList
        refResolveNone = .ok (some ⟨[[1]], [1, 1, 3, 5], .KeyTypePKCS1⟩)
    ∧ ¬ ((∃ e ∈ (refStorage [] [("a.b.".toList, refStatic 1)]).local_,
            cert.NewCertificate refX509 e.2 = .ok ⟨[[1]], [1, 1, 3, 5], .KeyTypePKCS1⟩
            ∧ (carriesTrimmed e.1 "a.b.".toList
              ∨ (3 ≤ labelCount "a.b.".toList
                ∧ carriesTrimmed e.1 (wildcard "a.b.".toList))))
        ∨ (∃ crt, refResolveNone "a.b.".toList = .ok (some crt)
            ∧ cert.NewCertificate refX509 crt = .ok ⟨[[1]], [1, 1, 3, 5], .KeyTypePKCS1⟩)
        ∨ (3 ≤ labelCount "a.b.".toList
            ∧ ∃ crt, refResolveNone (wildcard "a.b.".toList) = .ok (some crt)
              ∧ cert.NewCertificate refX509 crt
                = .ok ⟨[[1]], [1, 1, 3, 5], .KeyTypePKCS1⟩)) := by
  refine ⟨by decide, ?_⟩
  rintro (h | ⟨crt, h, _⟩ | ⟨_, crt, h, _⟩)
  · revert h
    decide
  · cases h
  · cases h

/-- C9, amended: a certificate that `matchSingleDomain` returns is the descriptor of a
static certificate whose key has an entry equal to the domain, as the entry stands or
without its trailing dots, or equal in that way to the wildcard form when the domain has
at least three labels; or it is the descriptor of the certificate that `resolve` returned
for the domain; or, the domain having at least three labels, of the one `resolve`
returned for the wildcard form. -/
theorem matchSingleDomain_sound {σ : Type} (x : X509) (cs : cert.Storage σ) (D : Str)
    (resolve : cert.Resolve) (c : cert.Certificate)
    (h : cs.matchSingleDomain x D resolve = .ok (some c)) :
    (∃ e ∈ cs.local_, cert.NewCertificate x e.2 = .ok c
        ∧ (carriesUpToDots e.1 D ∨ (3 ≤ labelCount D ∧ carriesUpToDots e.1 (wildcard D))))
    ∨ (∃ crt, resolve D = .ok (some crt) ∧ cert.NewCertificate x crt = .ok c)
    ∨ (3 ≤ labelCount D
        ∧ ∃ crt, resolve (wildcard D) = .ok (some crt) ∧ cert.NewCertificate x crt = .ok c) := by
  simp only [cert.Storage.matchSingleDomain, wildcardDomain_eq] at h
  cases h1 : cert.Storage.rangeLocal cs.local_ D with
  | some crt =>
    rw [h1] at h
    obtain ⟨e, he, hcrt, san, hsan, hm⟩ := rangeLocal_some cs.local_ D crt h1
    subst hcrt
    exact Or.inl ⟨e, he, found_ok x _ c h, Or.inl ⟨san, hsan, (MatchDomain_iff _ _).mp hm⟩⟩
  | none =>
    rw [h1] at h
    cases h2 : resolve D with
    | error err => simp [h2] at h
    | ok r =>
      cases r with
      | some crt =>
        simp only [h2] at h
        exact Or.inr (Or.inl ⟨crt, rfl, found_ok x _ c h⟩)
      | none =>
        simp only [h2] at h
        by_cases hlen : ((strings.SplitN '.' D 3).set 0 ['*']).length > 2
        · have hl := (labels_gt_two_iff D).mp hlen
          rw [if_pos hlen] at h
          cases h3 : cert.Storage.rangeLocal cs.local_ (wildcard D) with
          | some crt =>
            rw [h3] at h
            obtain ⟨e, he, hcrt, san, hsan, hm⟩ :=
              rangeLocal_some cs.local_ (wildcard D) crt h3
            subst hcrt
            exact Or.inl ⟨e, he, found_ok x _ c h,
              Or.inr ⟨hl, san, hsan, (MatchDomain_iff _ _).mp hm⟩⟩
          | none =>
            rw [h3] at h
            cases h4 : resolve (wildcard D) with
            | error err => simp [h4] at h
            | ok r =>
              cases r with
              | some crt =>
                simp only [h4] at h
                exact Or.inr (Or.inr ⟨hl, crt, rfl, found_ok x _ c h⟩)
              | none => simp [h4] at h
        · rw [if_neg hlen] at h
          cases h

/-- C9 amended, run on the concrete store: `a.b.c` is answered from the static name
`*.b.c.`. -/
theorem matchSingleDomain_sound_witness :
    (refStorage [] [("*.b.c.".toList, refStatic 2)]).matchSingleDomain refX509
        "a.b.c".toList refResolveNone = .ok (some ⟨[[2]], [1, 2, 3, 5], .KeyTypePKCS1⟩)
    ∧ ((∃ e ∈ (refStorage [] [("*.b.c.".toList, refStatic 2)]).local_,
          cert.NewCertificate refX509 e.2 = .ok ⟨[[2]], [1, 2, 3, 5], .KeyTypePKCS1⟩
          ∧ (carriesUpToDots e.1 "a.b.c".toList
            ∨ (3 ≤ labelCount "a.b.c".toList
              ∧ carriesUpToDots e.1 (wildcard "a.b.c".toList))))
      ∨ (∃ crt, refResolveNone "a.b.c".toList = .ok (some crt)
          ∧ cert.NewCertificate refX509 crt = .ok ⟨[[2]], [1, 2, 3, 5], .KeyTypePKCS1⟩)
      ∨ (3 ≤ labelCount "a.b.c".toList
          ∧ ∃ crt, refResolveNone (wildcard "a.b.c".toList) = .ok (some crt)
            ∧ cert.NewCertificate refX509 crt
              = .ok ⟨[[2]], [1, 2, 3, 5], .KeyTypePKCS1⟩)) :=
  ⟨by decide,
    matchSingleDomain_sound refX509 (refStorage [] [("*.b.c.".toList, refStatic 2)])
      "a.b.c".toList refResolveNone ⟨[[2]], [1, 2, 3, 5], .KeyTypePKCS1⟩ (by decide)⟩

/-- C10: when `matchDomain` for the domain gives the not-found error, a default domain is
configured and the domain is not the default, `Match` returns what `matchDomain` for the
default domain returns, run from the state the first lookup left; in every other case
`Match` returns the result of `matchDomain` for the domain, and the state is the one that
single lookup left, for every cache. -/
theorem Match_default_fallback {σ : Type} (x : X509) (cs : cert.Storage σ) (st : σ)
    (D : Str) (resolve : cert.Resolve) :
    (errorsIsErrNil (cs.matchDomain x st D resolve).1.2 = true ∧ cs.certDefault ≠ []
        ∧ D ≠ cs.certDefault →
      cs.Match x st D resolve
        = cs.matchDomain x (cs.matchDomain x st D resolve).2 cs.certDefault resolve)
    ∧ (¬ (errorsIsErrNil (cs.matchDomain x st D resolve).1.2 = true ∧ cs.certDefault ≠ []
        ∧ D ≠ cs.certDefault) →
      cs.Match x st D resolve = cs.matchDomain x st D resolve) := by
  constructor
  · intro h
    unfold cert.Storage.Match
    simp only
    rw [if_pos h]
    rfl
  · intro h
    unfold cert.Storage.Match
    simp only
    rw [if_neg h]

/-- C10, run on the concrete cache.  From a cache that holds the not-found marker for
`x.y`, `Match` for `x.y` is the lookup of `default.io`, and the cache has logged the two
lookups; from an empty cache the lookup of `x.y` finds a result and the cache has logged
that one lookup only. -/
theorem Match_default_fallback_witness :
    (errorsIsErrNil
        (refDefaultStorage.matchDomain refX509 refStaleCache "x.y".toList refResolveNone).1.2
          = true
      ∧ refDefaultStorage.certDefault ≠ [] ∧ "x.y".toList ≠ refDefaultStorage.certDefault)
    ∧ refDefaultStorage.Match refX509 refStaleCache "x.y".toList refResolveNone
        = refDefaultStorage.matchDomain refX509
            (refDefaultStorage.matchDomain refX509 refStaleCache "x.y".toList
              refResolveNone).2
            refDefaultStorage.certDefault refResolveNone
    ∧ (refDefaultStorage.Match refX509 refStaleCache "x.y".toList refResolveNone).2.calls
        = ["x.y".toList, "default.io".toList]
    ∧ (refDefaultStorage.Match refX509 ⟨[], []⟩ "x.y".toList refResolveNone).1
        = (some (refStatic 9), none)
    ∧ (refDefaultStorage.Match refX509 ⟨[], []⟩ "x.y".toList refResolveNone).2.calls
        = ["x.y".toList] :=
  ⟨by decide,
    (Match_default_fallback refX509 refDefaultStorage refStaleCache "x.y".toList
      refResolveNone).1 (by decide),
    by decide, by decide, by decide⟩

/-! ## The cache scope (certificate.go 86-92, 134-139) -/

/-- The scope `toplevelDomain` that the code computes is the parent suffix. -/
theorem toplevelDomain_eq (domain : Str) : cert.toplevelDomain domain = parentSuffix domain := by
  unfold cert.toplevelDomain parentSuffix
  by_cases h : '.' ∈ domain
  · simp [strings.SplitN, h, strings.Join]
  · have hd : domain.dropWhile (· != '.') = [] := by
      rw [List.dropWhile_eq_nil_iff]
      intro a ha
      have : a ≠ '.' := fun h0 => h (h0 ▸ ha)
      simpa using this
    simp [strings.SplitN, h, strings.Join, hd]

/-- In the concrete cache, nothing stored under a function key and version key is left
after their invalidation. -/
theorem refFuncCacheInvalidate_lookup (st : RefCache) (funcKey versionKey lookup : Str) :
    (refFuncCacheInvalidate st funcKey versionKey).2.entries.lookup
      (funcKey, versionKey, lookup) = none := by
  simp only [refFuncCacheInvalidate]
  induction st.entries with
  | nil => rfl
  | cons e more ih =>
    obtain ⟨⟨fk, vk, lk⟩, v⟩ := e
    by_cases hk : fk = funcKey ∧ vk = versionKey
    · obtain ⟨rfl, rfl⟩ := hk
      simpa [List.filter] using ih
    · have hf : (!(fk == funcKey && vk == versionKey)) = true := by
        by_cases h1 : fk = funcKey <;> by_cases h2 : vk = versionKey <;> simp_all
      have hne : ((funcKey, versionKey, lookup) == (fk, vk, lk)) = false := by
        simp only [beq_eq_false_iff_ne, ne_eq, Prod.mk.injEq, not_and]
        intro h1 h2
        exact absurd ⟨h1.symm, h2.symm⟩ hk
      simp only [List.filter, hf, List.lookup, hne]
      exact ih

/-- C11: the scope that `matchDomain` hands to the cache and the scope that
`InvalidateMatch` clears are both the parent suffix of the name, a function defined on
every string that gives `.` for the empty name and for a name without a dot.  So, on the
concrete cache, what `matchDomain` stores for a name is stored under that name's parent
suffix, and `InvalidateMatch` for any name with the same parent suffix leaves no entry
for it. -/
theorem InvalidateMatch_scope {σ : Type} (x : X509) (cs : cert.Storage σ) (s : σ)
    (certDefault : Str) (entries : List (Str × tls.Certificate)) (st : RefCache)
    (d d' : Str) (resolve : cert.Resolve) (h : parentSuffix d = parentSuffix d') :
    cert.toplevelDomain d = parentSuffix d
    ∧ cs.InvalidateMatch s d = cs.rc.FuncCacheInvalidate s cert.matchKey (parentSuffix d)
    ∧ parentSuffix [] = ['.']
    ∧ ('.' ∉ d → parentSuffix d = ['.'])
    ∧ (((refStorage certDefault entries).matchDomain x st d' resolve).2.entries = st.entries
        ∨ ∃ v, ((refStorage certDefault entries).matchDomain x st d' resolve).2.entries
            = ((cert.matchKey, parentSuffix d', d'), v) :: st.entries)
    ∧ ((refStorage certDefault entries).InvalidateMatch
          ((refStorage certDefault entries).matchDomain x st d' resolve).2 d).2.entries.lookup
        (cert.matchKey, parentSuffix d', d') = none := by
  refine ⟨toplevelDomain_eq d, ?_, rfl, ?_, ?_, ?_⟩
  · simp [cert.Storage.InvalidateMatch, toplevelDomain_eq]
  · intro hd
    have : d.dropWhile (· != '.') = [] := by
      rw [List.dropWhile_eq_nil_iff]
      intro a ha
      have : a ≠ '.' := fun h0 => hd (h0 ▸ ha)
      simpa using this
    simp [parentSuffix, this]
  · simp only [cert.Storage.matchDomain, refStorage, refCache, refSimpleFuncCache,
      toplevelDomain_eq]
    cases st.entries.lookup (cert.matchKey, parentSuffix d', d') with
    | some v =>
      cases v with
      | some c => exact Or.inl rfl
      | none => exact Or.inl rfl
    | none =>
      cases cert.Storage.matchDomain.compute x
          { certDefault := certDefault, local_ := entries,
            rc := { SimpleFuncCache := refSimpleFuncCache,
                    FuncCacheInvalidate := refFuncCacheInvalidate } } d' resolve with
      | error e => exact Or.inl rfl
      | ok r =>
        cases r with
        | some c => exact Or.inr ⟨_, rfl⟩
        | none => exact Or.inr ⟨_, rfl⟩
  · simp only [cert.Storage.InvalidateMatch, refStorage, refCache, toplevelDomain_eq, h]
    exact refFuncCacheInvalidate_lookup _ _ _ _

/-- C11, run on the concrete cache: `b.example.com` is looked up and stored under the
scope `.example.com`, and invalidating `a.example.com` removes that entry. -/
theorem InvalidateMatch_scope_witness :
    parentSuffix "a.example.com".toList = parentSuffix "b.example.com".toList
    ∧ (refDefaultStorage.matchDomain refX509 ⟨[], []⟩ "b.example.com".toList
          refResolveNone).2.entries
        = [((cert.matchKey, ".example.com".toList, "b.example.com".toList),
            some ⟨[[9]], [1, 9, 3, 5], .KeyTypePKCS1⟩)]
    ∧ (refDefaultStorage.InvalidateMatch
          (refDefaultStorage.matchDomain refX509 ⟨[], []⟩ "b.example.com".toList
            refResolveNone).2 "a.example.com".toList).2.entries.lookup
        (cert.matchKey, parentSuffix "b.example.com".toList, "b.example.com".toList)
        = none :=
  ⟨by decide, by decide,
    (InvalidateMatch_scope refX509 refDefaultStorage ⟨[], []⟩ "default.io".toList
      [("default.io".toList, refStatic 9)] ⟨[], []⟩ "a.example.com".toList
      "b.example.com".toList refResolveNone (by decide)).2.2.2.2.2⟩

/-! ## The refresh selection (query/certificate.go 41-44) -/

/-- C13 (what the code does): a record with failures below the threshold, auto-refresh on
and a last update older than five minutes is selected by `ForRefreshQ` exactly when its
expiry is later than `now + refresh_before_days` days, that is when it is not yet within
its refresh lead time; a record that expires within the lead time is not selected. -/
theorem ForRefreshQ_expiry (now failureThreshold : Int) (c : models.Certificate)
    (updatedAt : time.Time) (hf : c.Failures < failureThreshold) (ha : c.AutoRefresh = true)
    (hu : c.UpdatedAt = some updatedAt) (hcool : (updatedAt : Int) < now - 5 * 60) :
    (query.CertManager.ForRefreshQ now failureThreshold c = true ↔
        ∃ expiresAt, c.ExpiresAt = some expiresAt
          ∧ (expiresAt : Int) > now + c.RefreshBeforeDays * 86400)
    ∧ (∀ expiresAt : time.Time, c.ExpiresAt = some expiresAt →
        (expiresAt : Int) ≤ now + c.RefreshBeforeDays * 86400 →
        query.CertManager.ForRefreshQ now failureThreshold c = false) := by
  have hcool' : (updatedAt : Int) < now - 300 := by omega
  constructor
  · cases he : c.ExpiresAt with
    | none => simp [query.CertManager.ForRefreshQ, he]
    | some e => simp [query.CertManager.ForRefreshQ, he, hf, ha, hu, hcool']
  · intro e he hle
    simp [query.CertManager.ForRefreshQ, he, hf, ha, hu, hcool']
    omega

/-- C13, run at time 2000000 with threshold 3: the record that expires one day later,
well within its lead time of 30 days, is not selected, and the record that expires 60
days later is. -/
theorem ForRefreshQ_expiry_witness :
    query.CertManager.ForRefreshQ 2000000 3 (refDue (2000000 + 86400)) = false
    ∧ query.CertManager.ForRefreshQ 2000000 3 (refDue (2000000 + 60 * 86400)) = true :=
  ⟨(ForRefreshQ_expiry 2000000 3 (refDue (2000000 + 86400)) 1000 (by decide) rfl rfl
      (by decide)).2 (2000000 + 86400) rfl (by decide),
    by decide⟩

/-- C14: a record whose failure counter has reached the threshold, or passed it, is not
selected by `ForRefreshQ`, whatever its expiry, auto-refresh flag and update time. -/
theorem ForRefreshQ_failures (now failureThreshold : Int) (c : models.Certificate)
    (h : failureThreshold ≤ c.Failures) :
    query.CertManager.ForRefreshQ now failureThreshold c = false := by
  have : ¬ c.Failures < failureThreshold := by omega
  simp [query.CertManager.ForRefreshQ, this]

/-- C14, run at time 2000000 with threshold 3 on a record with 3 failures that is
otherwise selected. -/
theorem ForRefreshQ_failures_witness :
    query.CertManager.ForRefreshQ 2000000 3
        { refDue (2000000 + 60 * 86400) with Failures := 0 } = true
    ∧ query.CertManager.ForRefreshQ 2000000 3
        { refDue (2000000 + 60 * 86400) with Failures := 3 } = false :=
  ⟨by decide,
    ForRefreshQ_failures 2000000 3 { refDue (2000000 + 60 * 86400) with Failures := 3 }
      (by decide)⟩

/-! ## The administrative calls (grpc.go) -/

/-- C15 (what the code does): `certAutoRefresh` hands `certRefresh` its nil slice, so when
the lock claims rows, however many, and the commit succeeds, the loop runs for no record:
no check and no renewal is made, both lists come back empty, and the run reports itself
done whenever the batch size is positive. -/
theorem certAutoRefresh_processes_nothing (w : server.World) (log : server.Log)
    (rows : List models.Certificate) (hlock : w.Lock log = .ok rows)
    (hcommit : w.Commit (log ++ [.Lock]) = none) :
    server.Server.certRefresh w log [] = (.returned ([], [], none), log ++ [.Lock, .Commit])
    ∧ server.Server.certAutoRefresh w log
        = (.returned (decide (0 < w.AutoRefreshBatch), none), log ++ [.Lock, .Commit]) := by
  have h1 : server.Server.certRefresh w log []
      = (.returned ([], [], none), log ++ [.Lock, .Commit]) := by
    simp [server.Server.certRefresh, server.Server.certRefresh.tx, hlock,
      server.Server.certRefresh.loop, hcommit, server.Server.certRefresh.invalidate]
  refine ⟨h1, ?_⟩
  simp [server.Server.certAutoRefresh, h1]

/-- C15, run in the concrete world: the lock claims the record of `b.example`, and the run
ends after the lock and the commit, with `isDone` true and nothing else done. -/
theorem certAutoRefresh_processes_nothing_witness :
    (refWorld [refCert "b.example"]).Lock [] = .ok [refCert "b.example"]
    ∧ server.Server.certRefresh (refWorld [refCert "b.example"]) [] []
        = (.returned ([], [], none), [.Lock, .Commit])
    ∧ server.Server.certAutoRefresh (refWorld [refCert "b.example"]) []
        = (.returned (true, none), [.Lock, .Commit]) :=
  ⟨rfl,
    certAutoRefresh_processes_nothing (refWorld [refCert "b.example"]) []
      [refCert "b.example"] rfl rfl⟩

/-! ## The echo check (verify.go) -/

/-- C20 (what the code does): `verifyDomain` builds the request for
`http://<domain>/.well-known/echo/<token>/` and never sends it.  With `net/http` as
documented the request has no body, so `verifyDomain` returns the error of building the
request, or faults on the nil body: it never returns success.  And the comparison in its
last lines is between the token and the first eight bytes read, so a body that starts
with the token and goes on passes it. -/
theorem verifyDomain_never_succeeds (v : Verifier) (hv : v.Laws) (drawn : List Str)
    (domain : Str) :
    ((∃ err, server.Server.verifyDomain v drawn domain = .returned (some err))
      ∨ server.Server.verifyDomain v drawn domain
          = .panic "invalid memory address or nil pointer dereference")
    ∧ server.Server.verifyDomain v drawn domain ≠ .returned none
    ∧ (∀ (u : Verifier) (r : http.Request) (body : Bytes),
        u.NewRequestWithContext "GET".toList
          ("http://".toList ++ domain ++ "/.well-known/echo/".toList
            ++ u.GenerateRandomString drawn server.checkKeyLength ++ "/".toList) none = .ok r →
        r.Body = some body → server.checkKeyLength ≤ body.length →
        u.GenerateRandomString drawn server.checkKeyLength
          = stringOfBytes (body.take server.checkKeyLength) →
        server.Server.verifyDomain u drawn domain = .returned none) := by
  have hmain : (∃ err, server.Server.verifyDomain v drawn domain = .returned (some err))
      ∨ server.Server.verifyDomain v drawn domain
          = .panic "invalid memory address or nil pointer dereference" := by
    unfold server.Server.verifyDomain
    simp only
    cases hreq : v.NewRequestWithContext "GET".toList
        ("http://".toList ++ domain ++ "/.well-known/echo/".toList
          ++ v.GenerateRandomString drawn server.checkKeyLength ++ "/".toList) none with
    | error err => exact Or.inl ⟨err, rfl⟩
    | ok r =>
      have hbody := (hv.request _ _ _ r hreq).2.2
      simp [hbody]
  refine ⟨hmain, ?_, ?_⟩
  · rcases hmain with ⟨err, h⟩ | h
    · rw [h]; simp
    · rw [h]; simp
  · intro u r body hreq hbody hlen hkey
    unfold server.Server.verifyDomain
    simp only [hreq, hbody]
    have h0 : body.length ≠ 0 := by
      have : 0 < server.checkKeyLength := by decide
      omega
    have h1 : ¬ body.length < server.checkKeyLength := by omega
    simp [h0, h1, hkey]

/-- The concrete `net/http` behaves as documented. -/
theorem refVerifier_laws : refVerifier.Laws where
  request := by
    intro method url body r h
    simp only [refVerifier] at h
    split at h
    · cases h
    · cases h
      exact ⟨rfl, rfl, rfl⟩

/-- C20, run on the concrete `net/http`: for `example.com` the request is built and the
call faults; for a name with a space the error of building the request comes back. -/
theorem verifyDomain_never_succeeds_witness :
    server.Server.verifyDomain refVerifier [] "example.com".toList
        = .panic "invalid memory address or nil pointer dereference"
    ∧ server.Server.verifyDomain refVerifier [] "exa mple.com".toList
        = .returned (some (.lib 50))
    ∧ server.Server.verifyDomain refVerifier [] "example.com".toList ≠ .returned none :=
  ⟨by decide, by decide,
    (verifyDomain_never_succeeds refVerifier refVerifier_laws [] "example.com".toList).2.1⟩

/-! ## The rounds of the refresh loop (certs.go 61-103) -/

/-- What `fail` does: the counter goes up by one and the two columns are updated; the
round goes on to the next record unless that update fails. -/
theorem certRefresh_fail_eq (w : server.World) (log : server.Log) (cert : models.Certificate) :
    server.Server.certRefresh.fail w log cert
      = (match w.Update log { cert with Failures := int.wrap (cert.Failures + 1) } with
          | some err => .abort err
          | none => .failed { cert with Failures := int.wrap (cert.Failures + 1) },
        [.Update { cert with Failures := int.wrap (cert.Failures + 1) }]) := by
  unfold server.Server.certRefresh.fail
  simp only
  cases w.Update log { cert with Failures := int.wrap (cert.Failures + 1) } <;> rfl

/-- The calls of `renew` are calls of the loop. -/
theorem certRefresh_renew_inLoop (w : server.World) (log : server.Log)
    (cert : models.Certificate) :
    ∀ ev ∈ (server.Server.certRefresh.renew w log cert).2, ev.inLoop = true := by
  unfold server.Server.certRefresh.renew
  split
  · simp
  · split
    · simp [server.Event.inLoop]
    · split <;> simp [server.Event.inLoop]

/-- The calls of a round are calls of the loop: checks, the update of one record, the
renewal. -/
theorem certRefresh_round_inLoop (w : server.World) (log : server.Log)
    (cert : models.Certificate) :
    ∀ ev ∈ (server.Server.certRefresh.round w log cert).2, ev.inLoop = true := by
  unfold server.Server.certRefresh.round
  split
  · simp only [certRefresh_fail_eq]
    simp [server.Event.inLoop]
  · split
    · simp [server.Event.inLoop]
    · simp only [certRefresh_fail_eq]
      simp [server.Event.inLoop]
    · simp only
      intro ev hev
      rcases List.mem_cons.mp hev with rfl | hev
      · rfl
      · rcases List.mem_cons.mp hev with rfl | hev
        · rfl
        · exact certRefresh_renew_inLoop w _ cert ev hev

/-- The loop adds calls of the loop to the log, and nothing else. -/
theorem certRefresh_loop_log (w : server.World) (certs : List models.Certificate) :
    ∀ (log : server.Log) (acc : server.Batch),
      ∃ evs, (server.Server.certRefresh.loop w log certs acc).2 = log ++ evs
        ∧ ∀ ev ∈ evs, ev.inLoop = true := by
  induction certs with
  | nil => intro log acc; exact ⟨[], by simp [server.Server.certRefresh.loop], by simp⟩
  | cons cert more ih =>
    intro log acc
    have hr := certRefresh_round_inLoop w log cert
    unfold server.Server.certRefresh.loop
    cases hround : server.Server.certRefresh.round w log cert with
    | mk r evs =>
      rw [hround] at hr
      cases r with
      | panic reason => exact ⟨evs, rfl, hr⟩
      | abort err => exact ⟨evs, rfl, hr⟩
      | failed c =>
        obtain ⟨evs', h1, h2⟩ := ih (log ++ evs)
          { acc with certs := acc.certs ++ [c], failed := acc.failed ++ [c] }
        refine ⟨evs ++ evs', by simp only [h1, List.append_assoc], ?_⟩
        intro ev hev
        rcases List.mem_append.mp hev with h | h
        · exact hr ev h
        · exact h2 ev h
      | success c =>
        obtain ⟨evs', h1, h2⟩ := ih (log ++ evs)
          { acc with certs := acc.certs ++ [c], success := acc.success ++ [c] }
        refine ⟨evs ++ evs', by simp only [h1, List.append_assoc], ?_⟩
        intro ev hev
        rcases List.mem_append.mp hev with h | h
        · exact hr ev h
        · exact h2 ev h

/-- The loop on a first record and the rest. -/
theorem certRefresh_loop_cons (w : server.World) (log : server.Log)
    (cert : models.Certificate) (more : List models.Certificate) (acc : server.Batch) :
    server.Server.certRefresh.loop w log (cert :: more) acc
      = match server.Server.certRefresh.round w log cert with
        | (.panic reason, evs) => (.panic reason, log ++ evs)
        | (.abort err, evs) => (.returned (.error err), log ++ evs)
        | (.failed c, evs) =>
          server.Server.certRefresh.loop w (log ++ evs) more
            { acc with certs := acc.certs ++ [c], failed := acc.failed ++ [c] }
        | (.success c, evs) =>
          server.Server.certRefresh.loop w (log ++ evs) more
            { acc with certs := acc.certs ++ [c], success := acc.success ++ [c] } := by
  rw [server.Server.certRefresh.loop]

/-- A loop that got through its first records goes on with the rest from where they left
it. -/
theorem certRefresh_loop_append (w : server.World) (pre rest : List models.Certificate) :
    ∀ (log log1 : server.Log) (acc b : server.Batch),
      server.Server.certRefresh.loop w log pre acc = (.returned (.ok b), log1) →
      server.Server.certRefresh.loop w log (pre ++ rest) acc
        = server.Server.certRefresh.loop w log1 rest b := by
  induction pre with
  | nil =>
    intro log log1 acc b h
    simp only [server.Server.certRefresh.loop, Prod.mk.injEq, Outcome.returned.injEq,
      Except.ok.injEq] at h
    obtain ⟨rfl, rfl⟩ := h
    rfl
  | cons cert more ih =>
    intro log log1 acc b h
    rw [List.cons_append, certRefresh_loop_cons]
    rw [certRefresh_loop_cons] at h
    cases hround : server.Server.certRefresh.round w log cert with
    | mk r evs =>
      rw [hround] at h
      cases r with
      | panic reason => simp at h
      | abort err => simp at h
      | failed c => exact ih _ _ _ _ h
      | success c => exact ih _ _ _ _ h

/-! ## The account and the CA calls (acme.go) -/

/-- A call of `InitializeUser` that returns without error has attached the account it
returns. -/
theorem InitializeUser_success_attaches (l : Lego) (a a' : acme.Client) (log log' : acme.Log)
    (user r : Option acme.User)
    (h : a.InitializeUser l log user = (.returned ((r, none), a'), log')) :
    ∃ u, r = some u ∧ a'.user = some u := by
  unfold acme.Client.InitializeUser at h
  split at h
  · simp at h
  · split at h
    · simp at h
    · split at h
      · simp at h
      · split at h
        · simp only [Prod.mk.injEq, Outcome.returned.injEq] at h
          obtain ⟨⟨⟨rfl, _⟩, rfl⟩, _⟩ := h
          exact ⟨_, rfl, rfl⟩
        · split at h
          · simp at h
          · simp only at h
            split at h
            · simp at h
            · split at h
              · simp at h
              · simp only [Prod.mk.injEq, Outcome.returned.injEq] at h
                obtain ⟨⟨⟨rfl, _⟩, rfl⟩, _⟩ := h
                exact ⟨_, rfl, rfl⟩

/-- C21: with an account attached `InitializeUser` fails, makes no call and leaves the
client as it was; a call that succeeds leaves an account attached, so every later call
fails and the attached account stays.  With no account attached, an identity with a
non-empty email, a key and a registration is attached and returned as it is, without
any call to the CA; a nil identity and one with an empty email are rejected with the
client left as it was. -/
theorem InitializeUser_once (l : Lego) (a : acme.Client) (log : acme.Log)
    (user : Option acme.User) :
    (∀ u, a.user = some u →
      ∃ e, a.InitializeUser l log user = (.returned ((none, some e), a), log))
    ∧ (∀ r a' log', a.InitializeUser l log user = (.returned ((r, none), a'), log') →
        (∃ u, r = some u ∧ a'.user = some u)
        ∧ ∀ log'' user', ∃ e,
            a'.InitializeUser l log'' user' = (.returned ((none, some e), a'), log''))
    ∧ (∀ u, a.user = none → user = some u → u.Email ≠ [] → u.Key ≠ .nil →
        u.Registration ≠ none →
        a.InitializeUser l log user
          = (.returned ((some u, none), { a with configUser := some u, user := some u }),
              log))
    ∧ (a.user = none → (user = none ∨ ∃ u, user = some u ∧ u.Email = []) →
        ∃ e, a.InitializeUser l log user = (.returned ((none, some e), a), log)) := by
  have attached : ∀ (b : acme.Client) (lg : acme.Log) (us : Option acme.User) (u : acme.User),
      b.user = some u →
      ∃ e, b.InitializeUser l lg us = (.returned ((none, some e), b), lg) := by
    intro b lg us u hu
    exact ⟨.msg "user already initialized", by simp [acme.Client.InitializeUser, hu]⟩
  refine ⟨fun u hu => attached a log user u hu, ?_, ?_, ?_⟩
  · intro r a' log' h
    obtain ⟨u, hr, hu⟩ := InitializeUser_success_attaches l a a' log log' user r h
    exact ⟨⟨u, hr, hu⟩, fun log'' user' => attached a' log'' user' u hu⟩
  · intro u ha hus he hk hr
    simp [acme.Client.InitializeUser, ha, hus, he, hk, hr]
  · intro ha hbad
    rcases hbad with rfl | ⟨u, rfl, he⟩
    · exact ⟨.msg "user has to be non-nil and needs to have an email", by
        simp [acme.Client.InitializeUser, ha]⟩
    · exact ⟨.msg "user has to be non-nil and needs to have an email", by
        simp [acme.Client.InitializeUser, ha, he]⟩

/-- C21, run on the concrete library: the registered account is attached without a call,
and a second call, with another identity, fails and changes nothing. -/
theorem InitializeUser_once_witness :
    (⟨none, none, false⟩ : acme.Client).InitializeUser refLego [] (some refUser)
        = (.returned ((some refUser, none), ⟨some refUser, some refUser, false⟩), [])
    ∧ ∃ e, (⟨some refUser, some refUser, false⟩ : acme.Client).InitializeUser refLego []
          (some { refUser with Email := "other@example.com".toList })
        = (.returned ((none, some e), ⟨some refUser, some refUser, false⟩), []) :=
  ⟨(InitializeUser_once refLego ⟨none, none, false⟩ [] (some refUser)).2.2.1 refUser rfl rfl
      (by decide) (by decide) (by decide),
    (InitializeUser_once refLego ⟨some refUser, some refUser, false⟩ []
      (some { refUser with Email := "other@example.com".toList })).1 refUser rfl⟩

/-- The calls of `Client` are `NewClient` and `SetHTTP01Provider`. -/
theorem Client_log (l : Lego) (a : acme.Client) (log : acme.Log) :
    ∃ evs, (a.Client l log).2 = log ++ evs ∧ ∀ req, acme.Event.Obtain req ∉ evs := by
  unfold acme.Client.Client
  split
  · exact ⟨[], by simp, by simp⟩
  · split
    · exact ⟨[.NewClient], rfl, by simp⟩
    · split
      · exact ⟨[.NewClient, .SetHTTP01Provider], rfl, by simp⟩
      · exact ⟨[.NewClient, .SetHTTP01Provider], rfl, by simp⟩

/-- C22: `Obtain` with no domain and `Refresh` with a nil resource return an error
without any call; when `Obtain` or `Refresh` returns a nil error, the resource it
returns is not nil and has a non-empty certificate chain and a non-empty private key; and
every request that `Obtain` sends asks for a bundle. -/
theorem Obtain_Refresh_contract (l : Lego) (a : acme.Client) (log : acme.Log) :
    (∃ e, a.Obtain l log [] = (.returned ((none, some e), a), log))
    ∧ (∃ e, a.Refresh l log none = (.returned ((none, some e), a), log))
    ∧ (∀ domains r a' log', a.Obtain l log domains = (.returned ((r, none), a'), log') →
        ∃ cert, r = some cert ∧ cert.Certificate ≠ [] ∧ cert.PrivateKey ≠ [])
    ∧ (∀ certRes r a' log', a.Refresh l log certRes = (.returned ((r, none), a'), log') →
        ∃ cert, r = some cert ∧ cert.Certificate ≠ [] ∧ cert.PrivateKey ≠ [])
    ∧ (∀ domains, ∃ evs, (a.Obtain l log domains).2 = log ++ evs
        ∧ ∀ req, acme.Event.Obtain req ∈ evs → req.Bundle = true) := by
  refine ⟨⟨.msg "unable to obtain certificate for empty domains", by
      simp [acme.Client.Obtain]⟩,
    ⟨.msg "unable to renew a nil certificate", by simp [acme.Client.Refresh]⟩, ?_, ?_, ?_⟩
  · intro domains r a' log' h
    unfold acme.Client.Obtain at h
    simp only at h
    split at h
    · simp at h
    · split at h
      · simp at h
      · split at h
        · simp at h
        · simp at h
        · split at h
          · simp at h
          · rename_i cert _ hne
            simp only [Prod.mk.injEq, Outcome.returned.injEq] at h
            obtain ⟨⟨⟨rfl, _⟩, _⟩, _⟩ := h
            refine ⟨cert, rfl, ?_, ?_⟩
            · intro h0; exact hne (Or.inl (by simp [h0]))
            · intro h0; exact hne (Or.inr (by simp [h0]))
  · intro certRes r a' log' h
    unfold acme.Client.Refresh at h
    split at h
    · simp at h
    · split at h
      · simp at h
      · split at h
        · simp at h
        · simp at h
        · split at h
          · simp at h
          · rename_i cert _ hne
            simp only [Prod.mk.injEq, Outcome.returned.injEq] at h
            obtain ⟨⟨⟨rfl, _⟩, _⟩, _⟩ := h
            refine ⟨cert, rfl, ?_, ?_⟩
            · intro h0; exact hne (Or.inl (by simp [h0]))
            · intro h0; exact hne (Or.inr (by simp [h0]))
  · intro domains
    obtain ⟨evs, hevs, hno⟩ := Client_log l a log
    unfold acme.Client.Obtain
    simp only
    split
    · exact ⟨[], by simp, by simp⟩
    · cases hc : a.Client l log with
      | mk out log1 =>
        rw [hc] at hevs
        simp only at hevs
        subst hevs
        have key : ∀ req, acme.Event.Obtain req ∈ evs ++ [.Obtain ⟨domains, true⟩] →
            req.Bundle = true := by
          intro req hreq
          rcases List.mem_append.mp hreq with h1 | h1
          · exact absurd h1 (hno req)
          · simp only [List.mem_singleton, acme.Event.Obtain.injEq] at h1
            rw [h1]
        cases out with
        | panic reason =>
          exact ⟨evs, rfl, fun req hreq => absurd hreq (hno req)⟩
        | returned a1 =>
          simp only
          split
          · exact ⟨evs ++ [.Obtain ⟨domains, true⟩], by simp, key⟩
          · exact ⟨evs ++ [.Obtain ⟨domains, true⟩], by simp, key⟩
          · split
            · exact ⟨evs ++ [.Obtain ⟨domains, true⟩], by simp, key⟩
            · exact ⟨evs ++ [.Obtain ⟨domains, true⟩], by simp, key⟩

/-- C22, run on the concrete library: `Obtain` for `example.com` makes the client, sends
one request, for a bundle, and returns the issued resource, whose chain and key are not
empty. -/
theorem Obtain_Refresh_contract_witness :
    (⟨some refUser, some refUser, false⟩ : acme.Client).Obtain refLego []
        ["example.com".toList]
      = (.returned ((some (refResource [0, 2, 0, 100]), none),
            ⟨some refUser, some refUser, true⟩),
          [.NewClient, .SetHTTP01Provider, .Obtain ⟨["example.com".toList], true⟩])
    ∧ ∃ cert, some (refResource [0, 2, 0, 100]) = some cert
        ∧ cert.Certificate ≠ [] ∧ cert.PrivateKey ≠ [] :=
  ⟨by decide,
    (Obtain_Refresh_contract refLego ⟨some refUser, some refUser, false⟩ []).2.2.1
      ["example.com".toList] (some (refResource [0, 2, 0, 100]))
      ⟨some refUser, some refUser, true⟩
      [.NewClient, .SetHTTP01Provider, .Obtain ⟨["example.com".toList], true⟩] (by decide)⟩

/-! ## The SAN key (parse.go 113-148) -/

/-- A letter of `a` to `z` is not upper-case. -/
theorem ofNat_lower_not_upper (m : Nat) (h1 : 97 ≤ m) (h2 : m ≤ 122) :
    (Char.ofNat m).isUpper = false := by
  interval_cases m <;> rfl

/-- Lower-casing leaves no upper-case ASCII letter. -/
theorem toLower_not_upper (c : Char) : c.toLower.isUpper = false := by
  unfold Char.toLower
  simp only
  split
  · rename_i h
    exact ofNat_lower_not_upper _ (by omega) (by omega)
  · rename_i h
    simp only [Char.isUpper, Char.toNat] at h ⊢
    rw [Bool.and_eq_false_iff]
    simp only [ge_iff_le, decide_eq_false_iff_not]
    by_cases h65 : 65 ≤ c.val.toNat
    · right
      have h90 : ¬ c.val.toNat ≤ 90 := fun h90 => h ⟨h65, h90⟩
      intro hle
      have := UInt32.toNat_le_of_le (n := c.val) (m := 90) (by decide) hle
      omega
    · left
      intro hle
      have h1 : (65 : UInt32).toNat ≤ c.val.toNat := hle
      have h2 : (65 : UInt32).toNat = 65 := rfl
      omega

/-- A character of a joined string comes from the separator or from one of the
elements. -/
theorem mem_Join (sep : Str) (ch : Char) :
    ∀ elems : List Str, ch ∈ strings.Join elems sep → ch ∈ sep ∨ ∃ s ∈ elems, ch ∈ s
  | [], h => by simp [strings.Join] at h
  | [a], h => by
    simp only [strings.Join] at h
    exact Or.inr ⟨a, by simp, h⟩
  | a :: b :: more, h => by
    simp only [strings.Join, List.mem_append] at h
    rcases h with (h | h) | h
    · exact Or.inr ⟨a, by simp, h⟩
    · exact Or.inl h
    · rcases mem_Join sep ch (b :: more) h with h' | ⟨s, hs, hch⟩
      · exact Or.inl h'
      · exact Or.inr ⟨s, List.mem_cons_of_mem _ hs, hch⟩

/-- Every name of `SANs` is the lower-casing of a name. -/
theorem SANs_lower (u : Unicode) (c : x509.Certificate) :
    ∀ s ∈ cert.LoadCertificateFromPEM.SANs u c, ∃ t, s = strings.ToLower u t := by
  intro s hs
  simp only [cert.LoadCertificateFromPEM.SANs, List.mem_append, List.mem_map] at hs
  rcases hs with (hs | ⟨t, _, rfl⟩) | ⟨t, _, rfl⟩
  · split at hs
    · simp only [List.mem_singleton] at hs
      exact ⟨_, hs⟩
    · cases hs
  · exact ⟨t, rfl⟩
  · exact ⟨t, rfl⟩

/-- Sorting does not depend on the order of the input. -/
theorem sort_Strings_perm (a b : List Str) (h : a.Perm b) : sort.Strings a = sort.Strings b := by
  unfold sort.Strings
  exact List.eq_of_perm_of_sorted
    (((List.perm_insertionSort _ a).trans h).trans (List.perm_insertionSort _ b).symm)
    (List.sorted_insertionSort _ a) (List.sorted_insertionSort _ b)

/-- The concrete case table is a lawful one. -/
theorem refUnicode_laws : refUnicode.Laws where
  ascii := by
    intro c h
    simp [refUnicode, h]
  lower := by
    intro c
    simp only [refUnicode]
    split
    · exact toLower_not_upper c
    · rename_i h
      split
      · rfl
      · simp only [Char.isUpper, Bool.and_eq_false_iff, decide_eq_false_iff_not]
        right
        intro hle
        have h90 := UInt32.toNat_le_of_le (n := c.val) (m := 90) (by decide) hle
        have h128 : ¬ c.val.toNat < (128 : UInt32).toNat := h
        have : (128 : UInt32).toNat = 128 := rfl
        omega

/-- On text within ASCII every lawful table lower-cases as the ASCII table does. -/
theorem ToLower_ascii (u : Unicode) (hu : u.Laws) (s : Str) (hs : ∀ c ∈ s, c.val < 128) :
    strings.ToLower u s = s.map Char.toLower := by
  unfold strings.ToLower
  exact List.map_congr_left (fun c hc => hu.ascii c (hs c hc))

/-- The two keys of the counterexample to C27 are the same under every lawful case table. -/
theorem certKey_repeats_lawful (u : Unicode) (hu : u.Laws) :
    cert.LoadCertificateFromPEM.certKey u
        ⟨false, 0, "a.com".toList, ["b.com".toList, "b.com".toList], []⟩
      = "a.com,b.com,b.com".toList
    ∧ cert.LoadCertificateFromPEM.certKey u
        ⟨false, 0, "A.com".toList, ["a.com".toList], []⟩
      = "a.com,a.com".toList := by
  have ha : strings.ToLower u "a.com".toList = "a.com".toList := by
    rw [ToLower_ascii u hu _ (by decide)]; decide
  have hb : strings.ToLower u "b.com".toList = "b.com".toList := by
    rw [ToLower_ascii u hu _ (by decide)]; decide
  have hA : strings.ToLower u "A.com".toList = "a.com".toList := by
    rw [ToLower_ascii u hu _ (by decide)]; decide
  have hs1 : cert.LoadCertificateFromPEM.SANs u
      ⟨false, 0, "a.com".toList, ["b.com".toList, "b.com".toList], []⟩
      = [strings.ToLower u "a.com".toList, strings.ToLower u "b.com".toList,
          strings.ToLower u "b.com".toList] := by
    have hsort : sort.Strings ["b.com".toList, "b.com".toList]
        = ["b.com".toList, "b.com".toList] := by decide
    have hne : "b.com".toList ≠ "a.com".toList := by decide
    have hcn : "a.com".toList ≠ ([] : Str) := by decide
    simp only [cert.LoadCertificateFromPEM.SANs, hsort]
    simp [hne, hcn]
  have hs2 : cert.LoadCertificateFromPEM.SANs u
      ⟨false, 0, "A.com".toList, ["a.com".toList], []⟩
      = [strings.ToLower u "A.com".toList, strings.ToLower u "a.com".toList] := by
    have hsort : sort.Strings ["a.com".toList] = ["a.com".toList] := by decide
    have hne : "a.com".toList ≠ "A.com".toList := by decide
    have hcn : "A.com".toList ≠ ([] : Str) := by decide
    simp only [cert.LoadCertificateFromPEM.SANs, hsort]
    simp [hne, hcn]
  constructor
  · rw [cert.LoadCertificateFromPEM.certKey, hs1, ha, hb]; decide
  · rw [cert.LoadCertificateFromPEM.certKey, hs2, ha, hA]; decide

/-- C27 as stated fails: the key can list a name twice.  A certificate with the common
name `a.com` that lists the DNS name `b.com` twice has the key `a.com,b.com,b.com`, and
one with the common name `A.com` and the DNS name `a.com` has the key `a.com,a.com`. -/
theorem certKey_counterexample :
    cert.LoadCertificateFromPEM.certKey refUnicode
        ⟨false, 0, "a.com".toList, ["b.com".toList, "b.com".toList], []⟩
      = "a.com,b.com,b.com".toList
    ∧ ¬ (cert.LoadCertificateFromPEM.SANs refUnicode
          ⟨false, 0, "a.com".toList, ["b.com".toList, "b.com".toList], []⟩).Nodup
    ∧ cert.LoadCertificateFromPEM.certKey refUnicode
        ⟨false, 0, "A.com".toList, ["a.com".toList], []⟩
      = "a.com,a.com".toList
    ∧ ¬ (cert.LoadCertificateFromPEM.SANs refUnicode
          ⟨false, 0, "A.com".toList, ["a.com".toList], []⟩).Nodup := by
  decide

/-- C27, amended: the key is the comma-join of the lower-cased common name (when it is
not empty), then the DNS names other than the common name, in sorted order and
lower-cased, then the lower-cased IP addresses other than the common name; it contains no
upper-case ASCII letter, and it does not depend on the order in which the certificate
lists its DNS names.  Lower-casing is that of `unicode.ToLower`, whatever its tables map
beyond ASCII. -/
theorem certKey_spec (u : Unicode) (hu : u.Laws) (c : x509.Certificate) :
    (∃ dns : List Str, dns.Sorted (· ≤ ·)
      ∧ dns.Perm (c.DNSNames.filter (· ≠ c.CommonName))
      ∧ cert.LoadCertificateFromPEM.certKey u c
          = strings.Join
              ((if c.CommonName ≠ [] then [strings.ToLower u c.CommonName] else [])
                ++ dns.map (strings.ToLower u)
                ++ (c.IPAddresses.filter (· ≠ c.CommonName)).map (strings.ToLower u)) [','])
    ∧ (∀ ch ∈ cert.LoadCertificateFromPEM.certKey u c, ch.isUpper = false)
    ∧ (∀ names : List Str, names.Perm c.DNSNames →
        cert.LoadCertificateFromPEM.certKey u { c with DNSNames := names }
          = cert.LoadCertificateFromPEM.certKey u c) := by
  refine ⟨⟨(sort.Strings c.DNSNames).filter (· ≠ c.CommonName), ?_, ?_, rfl⟩, ?_, ?_⟩
  · exact List.Pairwise.filter _ (List.sorted_insertionSort _ c.DNSNames)
  · exact (List.perm_insertionSort _ c.DNSNames).filter _
  · intro ch hch
    rcases mem_Join _ ch _ hch with h | ⟨s, hs, hin⟩
    · simp only [List.mem_singleton] at h
      subst h
      rfl
    · obtain ⟨t, rfl⟩ := SANs_lower u c s hs
      simp only [strings.ToLower, List.mem_map] at hin
      obtain ⟨c', _, rfl⟩ := hin
      exact hu.lower c'
  · intro names hperm
    simp only [cert.LoadCertificateFromPEM.certKey, cert.LoadCertificateFromPEM.SANs,
      sort_Strings_perm names c.DNSNames hperm]

/-- C27 amended, run on a certificate with the common name `ÉXAMPLE.com`, the DNS names
`www.example.com` and `api.example.com` and the address `10.0.0.1`, under the concrete
case table. -/
theorem certKey_spec_witness :
    cert.LoadCertificateFromPEM.certKey refUnicode
        ⟨false, 0, "ÉXAMPLE.com".toList,
          ["www.example.com".toList, "api.example.com".toList], ["10.0.0.1".toList]⟩
      = "éxample.com,api.example.com,www.example.com,10.0.0.1".toList
    ∧ cert.LoadCertificateFromPEM.certKey refUnicode
        { (⟨false, 0, "ÉXAMPLE.com".toList,
            ["www.example.com".toList, "api.example.com".toList], ["10.0.0.1".toList]⟩ :
            x509.Certificate) with
          DNSNames := ["api.example.com".toList, "www.example.com".toList] }
      = cert.LoadCertificateFromPEM.certKey refUnicode
          ⟨false, 0, "ÉXAMPLE.com".toList,
            ["www.example.com".toList, "api.example.com".toList], ["10.0.0.1".toList]⟩ :=
  ⟨by decide,
    (certKey_spec refUnicode refUnicode_laws ⟨false, 0, "ÉXAMPLE.com".toList,
      ["www.example.com".toList, "api.example.com".toList], ["10.0.0.1".toList]⟩).2.2
      ["api.example.com".toList, "www.example.com".toList] (by decide)⟩

/-! ## Loading a directory -/

/-- `pem.Decode` finds no block in an empty input. -/
theorem PEM.Decode_nil (p : PEM) : p.Decode [] = none := by
  cases h : p.Decode [] with
  | none => rfl
  | some r =>
    obtain ⟨block, rest⟩ := r
    have := p.Decode_shorter [] block rest h
    simp at this

/-- `LoadCertificateFromPEM` rejects an empty bundle. -/
theorem LoadCertificateFromPEM_nil (u : Unicode) (x : X509) (p : PEM) :
    cert.LoadCertificateFromPEM u x p [] = .error (.msg "no certificate found") := by
  simp [cert.LoadCertificateFromPEM, cert.LoadCertficate, cert.LoadCertficate.loop,
    PEM.Decode_nil]

/-- The files of a folder never take a bundle out of `ret`. -/
theorem getCertFiles_folder_keeps (fs : FS) (files : List Str) :
    ∀ (cur : Bytes) (ret : List Bytes) (cur' : Bytes) (ret' : List Bytes),
      cert.getCertFiles.folder fs files cur ret = .ok (cur', ret') →
      ∀ b ∈ ret, b ∈ ret' := by
  induction files with
  | nil =>
    intro cur ret cur' ret' h b hb
    simp only [cert.getCertFiles.folder, Except.ok.injEq, Prod.mk.injEq] at h
    exact h.2 ▸ hb
  | cons file more ih =>
    intro cur ret cur' ret' h b hb
    rw [cert.getCertFiles.folder] at h
    split at h
    · cases h
    · split at h
      · exact ih _ _ _ _ h b (List.mem_append_left _ hb)
      · split at h
        · exact ih _ _ _ _ h b hb
        · exact ih _ _ _ _ h b hb

/-- A folder whose files all end in `.pem` leaves `cur` as it was. -/
theorem getCertFiles_folder_pem_only (fs : FS) (files : List Str)
    (hpem : ∀ file ∈ files, fs.Ext file = ".pem".toList) :
    ∀ (cur : Bytes) (ret : List Bytes) (cur' : Bytes) (ret' : List Bytes),
      cert.getCertFiles.folder fs files cur ret = .ok (cur', ret') → cur' = cur := by
  induction files with
  | nil =>
    intro cur ret cur' ret' h
    simp only [cert.getCertFiles.folder, Except.ok.injEq, Prod.mk.injEq] at h
    exact h.1.symm
  | cons file more ih =>
    intro cur ret cur' ret' h
    rw [cert.getCertFiles.folder] at h
    split at h
    · cases h
    · rw [if_pos (hpem file (List.mem_cons_self _ _))] at h
      exact ih (fun f hf => hpem f (List.mem_cons_of_mem _ hf)) _ _ _ _ h

/-- The folders never take a bundle out of `ret`. -/
theorem getCertFiles_folders_keeps (fs : FS) (tree : List (Str × List Str)) :
    ∀ (ret out : List Bytes), cert.getCertFiles.folders fs tree ret = .ok out →
      ∀ b ∈ ret, b ∈ out := by
  induction tree with
  | nil =>
    intro ret out h b hb
    simp only [cert.getCertFiles.folders, Except.ok.injEq] at h
    exact h ▸ hb
  | cons f more ih =>
    intro ret out h b hb
    obtain ⟨d, files⟩ := f
    rw [cert.getCertFiles.folders] at h
    split at h
    · cases h
    · rename_i cur ret' hf
      exact ih _ _ h b
        (List.mem_append_left _ (getCertFiles_folder_keeps fs files _ _ _ _ hf b hb))

/-- A folder whose files all end in `.pem` puts the empty bundle among the bundles. -/
theorem getCertFiles_folders_empty_bundle (fs : FS) (tree : List (Str × List Str))
    (folder : Str × List Str) (hmem : folder ∈ tree)
    (hpem : ∀ file ∈ folder.2, fs.Ext file = ".pem".toList) :
    ∀ (ret out : List Bytes), cert.getCertFiles.folders fs tree ret = .ok out →
      [] ∈ out := by
  induction tree with
  | nil => cases hmem
  | cons f more ih =>
    intro ret out h
    obtain ⟨d, files⟩ := f
    rw [cert.getCertFiles.folders] at h
    split at h
    · cases h
    · rename_i cur ret' hf
      rcases List.mem_cons.1 hmem with heq | hin
      · subst heq
        have hcur := getCertFiles_folder_pem_only fs files hpem _ _ _ _ hf
        subst hcur
        exact getCertFiles_folders_keeps fs more _ _ h []
          (List.mem_append_right _ (List.mem_singleton_self _))
      · exact ih hin _ _ h

/-- The loop of `LoadCertificatesFromPath` fails when a bundle is empty. -/
theorem LoadCertificatesFromPath_loop_empty_bundle (u : Unicode) (x : X509) (p : PEM)
    (pems : List Bytes) (hmem : [] ∈ pems) :
    ∀ ret, ∃ err, cert.LoadCertificatesFromPath.loop u x p pems ret = .error err := by
  induction pems with
  | nil => cases hmem
  | cons pem more ih =>
    intro ret
    rw [cert.LoadCertificatesFromPath.loop]
    rcases List.mem_cons.1 hmem with heq | hin
    · subst heq
      rw [LoadCertificateFromPEM_nil]
      exact ⟨_, rfl⟩
    · split
      · exact ⟨_, rfl⟩
      · exact ih hin _

/-- C23 (code is wrong): when some folder of the tree holds only files that end in `.pem`,
`LoadCertificatesFromPath` does not succeed, whatever the files contain: `getCertFiles`
appends the concatenation of the remaining files of every folder, here the empty bundle,
and `LoadCertificateFromPEM` rejects it. -/
theorem LoadCertificatesFromPath_pem_only_folder (fs : FS) (u : Unicode) (x : X509)
    (p : PEM) (dir : Str)
    (tree : List (Str × List Str)) (folder : Str × List Str)
    (hwalk : cert.getCertFiles.walk fs (fs.Walk dir) [] = .ok tree)
    (hmem : folder ∈ tree)
    (hpem : ∀ file ∈ folder.2, fs.Ext file = ".pem".toList) :
    ∃ err, cert.LoadCertificatesFromPath fs u x p dir = .error err := by
  unfold cert.LoadCertificatesFromPath cert.getCertFiles
  rw [hwalk]
  simp only
  cases h : cert.getCertFiles.folders fs tree [] with
  | error err => exact ⟨_, rfl⟩
  | ok pems =>
    exact LoadCertificatesFromPath_loop_empty_bundle u x p pems
      (getCertFiles_folders_empty_bundle fs tree folder hmem hpem _ _ h) []

/-- C23 at a directory whose only folder holds `site.pem`, a complete bundle for `a.com`:
the bundle alone loads, and loading the directory fails with "no certificate found". -/
theorem LoadCertificatesFromPath_pem_only_folder_witness :
    cert.LoadCertificateFromPEM refUnicode refX509Named refPEMArmored (refBundle "a.com" 7)
        = .ok (refLoaded "a.com" 7, "a.com".toList)
      ∧ cert.getCertFiles (refFS [("/certs/a/site.pem".toList, refBundle "a.com" 7)])
          "/certs".toList = .ok [refBundle "a.com" 7, []]
      ∧ cert.LoadCertificatesFromPath
          (refFS [("/certs/a/site.pem".toList, refBundle "a.com" 7)])
          refUnicode refX509Named refPEMArmored "/certs".toList
        = .error (.msg "no certificate found")
      ∧ ∃ err, cert.LoadCertificatesFromPath
          (refFS [("/certs/a/site.pem".toList, refBundle "a.com" 7)])
          refUnicode refX509Named refPEMArmored "/certs".toList = .error err :=
  ⟨by decide, by decide, by decide,
    LoadCertificatesFromPath_pem_only_folder
      (refFS [("/certs/a/site.pem".toList, refBundle "a.com" 7)])
      refUnicode refX509Named refPEMArmored "/certs".toList
      [("/certs/a".toList, ["/certs/a/site.pem".toList])]
      ("/certs/a".toList, ["/certs/a/site.pem".toList])
      (by decide) (by decide) (by decide)⟩

/-- Reading a Go map after the assignment `m[k] = v`. -/
theorem mapSet_lookup {α : Type} (m : List (Str × α)) (k : Str) (v : α) (k' : Str) :
    (mapSet m k v).lookup k' = if k' = k then some v else m.lookup k' := by
  induction m with
  | nil =>
    by_cases h : k' = k
    · subst h; simp [mapSet, List.lookup]
    · have hb : (k' == k) = false := beq_eq_false_iff_ne.2 h
      simp [mapSet, List.lookup, h, hb]
  | cons e more ih =>
    obtain ⟨k0, v0⟩ := e
    by_cases h0 : k0 = k
    · subst h0
      by_cases h : k' = k0
      · subst h; simp [mapSet, List.lookup]
      · have hb : (k' == k0) = false := beq_eq_false_iff_ne.2 h
        simp [mapSet, List.lookup, h, hb]
    · by_cases h1 : k' = k0
      · subst h1
        simp [mapSet, List.lookup, h0]
      · have hb : (k' == k0) = false := beq_eq_false_iff_ne.2 h1
        simp only [mapSet, if_neg h0, List.lookup, hb, ih]

/-- The keys of a Go map after `m[k] = v` are `k` and those it had. -/
theorem mapSet_keys_mem {α : Type} (m : List (Str × α)) (k : Str) (v : α) (k' : Str)
    (h : k' ∈ (mapSet m k v).map Prod.fst) : k' = k ∨ k' ∈ m.map Prod.fst := by
  induction m with
  | nil => simpa [mapSet] using h
  | cons e more ih =>
    obtain ⟨k0, v0⟩ := e
    by_cases h0 : k0 = k
    · subst h0
      simp only [mapSet, if_true, List.map_cons, List.mem_cons] at h ⊢
      exact Or.inr h
    · simp only [mapSet, if_neg h0, List.map_cons, List.mem_cons] at h ⊢
      rcases h with h | h
      · exact Or.inr (Or.inl h)
      · rcases ih h with h | h
        · exact Or.inl h
        · exact Or.inr (Or.inr h)

/-- The assignment `m[k] = v` keeps the keys of a Go map distinct. -/
theorem mapSet_nodup {α : Type} (m : List (Str × α)) (k : Str) (v : α)
    (h : (m.map Prod.fst).Nodup) : ((mapSet m k v).map Prod.fst).Nodup := by
  induction m with
  | nil => simp [mapSet]
  | cons e more ih =>
    obtain ⟨k0, v0⟩ := e
    simp only [List.map_cons, List.nodup_cons] at h
    by_cases h0 : k0 = k
    · subst h0
      simp only [mapSet, if_true, List.map_cons, List.nodup_cons]
      exact h
    · simp only [mapSet, if_neg h0, List.map_cons, List.nodup_cons]
      refine ⟨fun hin => ?_, ih h.2⟩
      rcases mapSet_keys_mem more k v k0 hin with h1 | h1
      · exact h0 h1
      · exact h.1 h1

/-- A key that a Go map does not have reads as absent. -/
theorem lookup_none_of_not_mem {α : Type} (m : List (Str × α)) (k : Str)
    (h : k ∉ m.map Prod.fst) : m.lookup k = none := by
  induction m with
  | nil => rfl
  | cons e more ih =>
    obtain ⟨k0, v0⟩ := e
    simp only [List.map_cons, List.mem_cons, not_or] at h
    have hb : (k == k0) = false := beq_eq_false_iff_ne.2 h.1
    simp only [List.lookup, hb]
    exact ih h.2

/-- The map that `LoadCertificatesFromPath` builds has distinct keys. -/
theorem LoadCertificatesFromPath_loop_nodup (u : Unicode) (x : X509) (p : PEM)
    (pems : List Bytes) :
    ∀ (ret out : List (Str × tls.Certificate)),
      cert.LoadCertificatesFromPath.loop u x p pems ret = .ok out →
      (ret.map Prod.fst).Nodup → (out.map Prod.fst).Nodup := by
  induction pems with
  | nil =>
    intro ret out h hn
    simp only [cert.LoadCertificatesFromPath.loop, Except.ok.injEq] at h
    exact h ▸ hn
  | cons pem more ih =>
    intro ret out h hn
    rw [cert.LoadCertificatesFromPath.loop] at h
    split at h
    · cases h
    · exact ih _ _ h (mapSet_nodup _ _ _ hn)

/-- Reading the static set after the `range` loop of `LoadDir` (storage.go 30-32) over a
map with distinct keys: the loaded certificate under a loaded key, and what the set held
under any other. -/
theorem LoadDir_range_lookup (certs : List (Str × tls.Certificate)) :
    ∀ (old : List (Str × tls.Certificate)) (k : Str), (certs.map Prod.fst).Nodup →
      (certs.foldl (fun m kv => mapSet m kv.1 kv.2) old).lookup k
        = match certs.lookup k with
          | some v => some v
          | none => old.lookup k := by
  induction certs with
  | nil => intro old k _; rfl
  | cons e more ih =>
    intro old k hn
    obtain ⟨k0, v0⟩ := e
    simp only [List.map_cons, List.nodup_cons] at hn
    simp only [List.foldl_cons]
    rw [ih _ _ hn.2, mapSet_lookup]
    by_cases h : k = k0
    · subst h
      simp [List.lookup, lookup_none_of_not_mem more k hn.1]
    · have hb : (k == k0) = false := beq_eq_false_iff_ne.2 h
      simp only [List.lookup, hb, if_neg h]

/-- C24 (the claim as written fails): a store loads a directory that holds a bundle for
`old.com`, then loads it again when it holds only a bundle for `new.com`.  Both calls
succeed, the second parses exactly the certificate of `new.com`, and the static set
still holds the entry of `old.com`. -/
theorem LoadDir_counterexample :
    (cert.Storage.LoadDir (refFS [("/certs/a/old.crt".toList, refBundle "old.com" 7)])
        refUnicode refX509Named refPEMArmored (refStorage "default.io".toList []) "/certs".toList).1
        = none
      ∧ (cert.Storage.LoadDir (refFS [("/certs/a/old.crt".toList, refBundle "old.com" 7)])
        refUnicode refX509Named refPEMArmored (refStorage "default.io".toList [])
          "/certs".toList).2.local_
        = [("old.com".toList, refLoaded "old.com" 7)]
      ∧ cert.LoadCertificatesFromPath
          (refFS [("/certs/b/new.crt".toList, refBundle "new.com" 8)])
          refUnicode refX509Named refPEMArmored "/certs".toList
        = .ok [("new.com".toList, refLoaded "new.com" 8)]
      ∧ (cert.Storage.LoadDir (refFS [("/certs/b/new.crt".toList, refBundle "new.com" 8)])
          refUnicode refX509Named refPEMArmored
          (refStorage "default.io".toList [("old.com".toList, refLoaded "old.com" 7)])
          "/certs".toList).1 = none
      ∧ (cert.Storage.LoadDir (refFS [("/certs/b/new.crt".toList, refBundle "new.com" 8)])
          refUnicode refX509Named refPEMArmored
          (refStorage "default.io".toList [("old.com".toList, refLoaded "old.com" 7)])
          "/certs".toList).2.local_
        = [("old.com".toList, refLoaded "old.com" 7),
           ("new.com".toList, refLoaded "new.com" 8)] := by
  refine ⟨?_, ?_, ?_, ?_, ?_⟩ <;> decide

/-- C24 (amended): when `LoadDir` fails, it returns the error of
`LoadCertificatesFromPath` and leaves the store as it was; when it succeeds, the
directory was parsed to a map `certs`, and the static set then holds, under every key of
`certs`, the certificate parsed for it, and under every other key what it held before
the call: earlier entries are overwritten or kept, never removed. -/
theorem LoadDir_merges {σ : Type} (fs : FS) (u : Unicode) (x : X509) (p : PEM)
    (cs cs' : cert.Storage σ) (dir : Str) (err : Option Err)
    (h : cert.Storage.LoadDir fs u x p cs dir = (err, cs')) :
    (∀ e, err = some e →
        cs' = cs ∧ cert.LoadCertificatesFromPath fs u x p dir = .error e)
      ∧ (err = none →
        ∃ certs, cert.LoadCertificatesFromPath fs u x p dir = .ok certs
          ∧ cs'.certDefault = cs.certDefault
          ∧ ∀ k, cs'.local_.lookup k
              = match certs.lookup k with
                | some v => some v
                | none => cs.local_.lookup k) := by
  unfold cert.Storage.LoadDir at h
  cases hl : cert.LoadCertificatesFromPath fs u x p dir with
  | error e0 =>
    rw [hl] at h
    simp only [Prod.mk.injEq] at h
    obtain ⟨he, hc⟩ := h
    refine ⟨fun e hs => ?_, fun hn => ?_⟩
    · rw [← he] at hs
      cases hs
      exact ⟨hc.symm, rfl⟩
    · rw [← he] at hn
      cases hn
  | ok certs =>
    rw [hl] at h
    simp only [Prod.mk.injEq] at h
    obtain ⟨he, hc⟩ := h
    refine ⟨fun e hs => ?_, fun _ => ⟨certs, rfl, ?_, fun k => ?_⟩⟩
    · rw [← he] at hs
      cases hs
    · rw [← hc]
    · rw [← hc]
      refine LoadDir_range_lookup certs _ k ?_
      unfold cert.LoadCertificatesFromPath at hl
      split at hl
      · cases hl
      · exact LoadCertificatesFromPath_loop_nodup u x p _ _ _ hl List.nodup_nil

/-- C24 (amended) at the second call of the counterexample: the call succeeds, and the
static set reads as the parsed map where that has a key and as the earlier set
elsewhere. -/
theorem LoadDir_merges_witness :
    (cert.Storage.LoadDir (refFS [("/certs/b/new.crt".toList, refBundle "new.com" 8)])
        refUnicode refX509Named refPEMArmored
        (refStorage "default.io".toList [("old.com".toList, refLoaded "old.com" 7)])
        "/certs".toList).1 = none
      ∧ ∃ certs, cert.LoadCertificatesFromPath
            (refFS [("/certs/b/new.crt".toList, refBundle "new.com" 8)])
            refUnicode refX509Named refPEMArmored "/certs".toList = .ok certs
          ∧ (cert.Storage.LoadDir
              (refFS [("/certs/b/new.crt".toList, refBundle "new.com" 8)])
              refUnicode refX509Named refPEMArmored
              (refStorage "default.io".toList [("old.com".toList, refLoaded "old.com" 7)])
              "/certs".toList).2.certDefault = "default.io".toList
          ∧ ∀ k, (cert.Storage.LoadDir
              (refFS [("/certs/b/new.crt".toList, refBundle "new.com" 8)])
              refUnicode refX509Named refPEMArmored
              (refStorage "default.io".toList [("old.com".toList, refLoaded "old.com" 7)])
              "/certs".toList).2.local_.lookup k
              = match certs.lookup k with
                | some v => some v
                | none =>
                  List.lookup k [("old.com".toList, refLoaded "old.com" 7)] :=
  ⟨by decide,
    (LoadDir_merges (refFS [("/certs/b/new.crt".toList, refBundle "new.com" 8)])
      refUnicode refX509Named refPEMArmored
      (refStorage "default.io".toList [("old.com".toList, refLoaded "old.com" 7)])
      _ "/certs".toList _ rfl).2 (by decide)⟩

/-! ## The order of the sources of `matchSingleDomain` -/

/-- The traced `matchSingleDomain` returns what `matchSingleDomain` returns. -/
theorem matchSingleDomain_traced_result {σ : Type} (x : X509) (cs : cert.Storage σ)
    (D : Str) (resolve : cert.Resolve) :
    (cert.Storage.matchSingleDomain.traced x cs D resolve).1
      = cs.matchSingleDomain x D resolve := by
  unfold cert.Storage.matchSingleDomain.traced cert.Storage.matchSingleDomain
  simp only
  split
  · rfl
  · split
    · rfl
    · rfl
    · split
      · split
        · rfl
        · split <;> rfl
      · rfl

/-- C25 (the claim as written fails): the static set holds a certificate for `a.b`, a
name of two labels.  `matchSingleDomain` returns it from the first loop, and `resolve`
is not called at all, rather than exactly once. -/
theorem matchSingleDomain_order_counterexample :
    labelCount "a.b".toList = 2
      ∧ cert.Storage.matchSingleDomain.traced refX509
          (refStorage [] [("a.b".toList, refStatic 1)]) "a.b".toList refResolveNone
        = (cert.Storage.found refX509 (refStatic 1), [.static "a.b".toList])
      ∧ ((cert.Storage.matchSingleDomain.traced refX509
          (refStorage [] [("a.b".toList, refStatic 1)]) "a.b".toList
            refResolveNone).2.filter cert.Source.isResolve).length = 0
      ∧ (refStorage [] [("a.b".toList, refStatic 1)]).matchSingleDomain refX509
          "a.b".toList refResolveNone = cert.Storage.found refX509 (refStatic 1) := by
  decide

/-- C25 (amended): `matchSingleDomain(D, resolve)` consults the static set for D, then
`resolve(D)`, then the static set for the wildcard form of D, then `resolve` on the
wildcard form, stops at the first hit and returns it; an error of `resolve` is returned
at once; the two wildcard steps run only when D has three or more labels.  So for a D
of one or two labels `resolve` is called at most once and only on D: not at all when
the static set has a match for D, exactly once when it has none, and then a miss gives
not-found. -/
theorem matchSingleDomain_order {σ : Type} (x : X509) (cs : cert.Storage σ) (D : Str)
    (resolve : cert.Resolve) :
    (cert.Storage.matchSingleDomain.traced x cs D resolve).1
        = cs.matchSingleDomain x D resolve
      ∧ (∀ crt, cert.Storage.rangeLocal cs.local_ D = some crt →
          cert.Storage.matchSingleDomain.traced x cs D resolve
            = (cert.Storage.found x crt, [.static D]))
      ∧ (cert.Storage.rangeLocal cs.local_ D = none →
          (∀ err, resolve D = .error err →
            cert.Storage.matchSingleDomain.traced x cs D resolve
              = (.error err, [.static D, .resolve D]))
          ∧ (∀ crt, resolve D = .ok (some crt) →
            cert.Storage.matchSingleDomain.traced x cs D resolve
              = (cert.Storage.found x crt, [.static D, .resolve D]))
          ∧ (resolve D = .ok none → labelCount D < 3 →
            cert.Storage.matchSingleDomain.traced x cs D resolve
              = (.ok none, [.static D, .resolve D]))
          ∧ (resolve D = .ok none → 3 ≤ labelCount D →
            (∀ crt, cert.Storage.rangeLocal cs.local_ (wildcard D) = some crt →
              cert.Storage.matchSingleDomain.traced x cs D resolve
                = (cert.Storage.found x crt,
                    [.static D, .resolve D, .static (wildcard D)]))
            ∧ (cert.Storage.rangeLocal cs.local_ (wildcard D) = none →
              cert.Storage.matchSingleDomain.traced x cs D resolve
                = (match resolve (wildcard D) with
                    | .error err => .error err
                    | .ok (some crt) => cert.Storage.found x crt
                    | .ok none => .ok none,
                    [.static D, .resolve D, .static (wildcard D),
                      .resolve (wildcard D)]))))
      ∧ (labelCount D < 3 →
          (cert.Storage.matchSingleDomain.traced x cs D resolve).2.filter
              cert.Source.isResolve
            = if cert.Storage.rangeLocal cs.local_ D = none then [.resolve D] else []) := by
  have hlen := labels_gt_two_iff D
  have hw := wildcardDomain_eq D
  refine ⟨matchSingleDomain_traced_result x cs D resolve, ?_, ?_, ?_⟩
  · intro crt h
    simp only [cert.Storage.matchSingleDomain.traced, h]
  · intro h
    refine ⟨?_, ?_, ?_, ?_⟩
    · intro err hr
      simp only [cert.Storage.matchSingleDomain.traced, h, hr]
    · intro crt hr
      simp only [cert.Storage.matchSingleDomain.traced, h, hr]
    · intro hr hl
      have hn : ¬ ((strings.SplitN '.' D 3).set 0 ['*']).length > 2 := by
        rw [hlen]; omega
      simp only [cert.Storage.matchSingleDomain.traced, h, hr]
      rw [if_neg hn]
    · intro hr hl
      have hp := hlen.2 hl
      refine ⟨?_, ?_⟩
      · intro crt hs
        simp only [cert.Storage.matchSingleDomain.traced, h, hr, hw, hs]
        rw [if_pos hp]
      · intro hs
        simp only [cert.Storage.matchSingleDomain.traced, h, hr, hw, hs]
        rw [if_pos hp]
        cases resolve (wildcard D) with
        | error err => rfl
        | ok o => cases o <;> rfl
  · intro hl
    have hn : ¬ ((strings.SplitN '.' D 3).set 0 ['*']).length > 2 := by
      rw [hlen]; omega
    cases h : cert.Storage.rangeLocal cs.local_ D with
    | some crt =>
      simp [cert.Storage.matchSingleDomain.traced, h, cert.Source.isResolve]
    | none =>
      simp only [cert.Storage.matchSingleDomain.traced, h]
      rw [if_neg hn]
      cases resolve D with
      | error err => simp [cert.Source.isResolve]
      | ok o => cases o <;> simp [cert.Source.isResolve]

/-- C25 (amended) on concrete stores: `a.b` against a static set without a match is
looked up in the static set and resolved once, and the miss gives not-found; `a.b.c`
against a static set that holds `*.b.c` is found at the third source. -/
theorem matchSingleDomain_order_witness :
    cert.Storage.matchSingleDomain.traced refX509
        (refStorage [] [("x.y".toList, refStatic 1)]) "a.b".toList refResolveNone
        = (.ok none, [.static "a.b".toList, .resolve "a.b".toList])
      ∧ cert.Storage.matchSingleDomain.traced refX509
        (refStorage [] [("*.b.c".toList, refStatic 2)]) "a.b.c".toList refResolveNone
        = (cert.Storage.found refX509 (refStatic 2),
            [.static "a.b.c".toList, .resolve "a.b.c".toList,
              .static (wildcard "a.b.c".toList)]) :=
  ⟨((matchSingleDomain_order refX509 (refStorage [] [("x.y".toList, refStatic 1)])
      "a.b".toList refResolveNone).2.2.1 (by decide)).2.2.1 rfl (by decide),
    (((matchSingleDomain_order refX509 (refStorage [] [("*.b.c".toList, refStatic 2)])
      "a.b.c".toList refResolveNone).2.2.1 (by decide)).2.2.2 rfl (by decide)).1
        (refStatic 2) (by decide)⟩

/-! ## The report of `certAutoRefresh` (certs.go 16-48) -/

/-- Called on the nil slice, `certRefresh` returns, with both lists empty, after calls
none of which belongs to a round of its loop. -/
theorem certRefresh_nil (w : server.World) (log : server.Log) :
    ∃ err evs, server.Server.certRefresh w log [] = (.returned ([], [], err), log ++ evs)
      ∧ ∀ ev ∈ evs, ev.inLoop = false := by
  unfold server.Server.certRefresh server.Server.certRefresh.tx
  cases hlock : w.Lock log with
  | error e =>
    by_cases he : e = .ErrNoRows
    · simp only [he, if_true]
      cases hc : w.Commit (log ++ [.Lock]) with
      | some e1 =>
        exact ⟨some (.wrap "refresh transaction failed" e1), [.Lock, .Commit], by simp,
          by simp [server.Event.inLoop]⟩
      | none =>
        exact ⟨none, [.Lock, .Commit], by simp [server.Server.certRefresh.invalidate],
          by simp [server.Event.inLoop]⟩
    · simp only [he, if_false]
      exact ⟨some (.wrap "refresh transaction failed" e), [.Lock, .Rollback], by simp,
        by simp [server.Event.inLoop]⟩
  | ok rows =>
    simp only [server.Server.certRefresh.loop, List.length_nil, if_true]
    cases hc : w.Commit (log ++ [.Lock]) with
    | some e1 =>
      exact ⟨some (.wrap "refresh transaction failed" e1), [.Lock, .Commit], by simp,
        by simp [server.Event.inLoop]⟩
    | none =>
      exact ⟨none, [.Lock, .Commit], by simp [server.Server.certRefresh.invalidate],
        by simp [server.Event.inLoop]⟩

/-! ## The descriptor of a record (certificate.go 122-138) -/

/-- C28 (code is wrong): `Proto` computes the timestamp under `ExpiresAt.IsNull()`.  For a
record whose `ExpiresAt` is null it faults, on the type assertion of the nil that `Get`
returns; for a record whose `ExpiresAt` holds a time it returns a descriptor without
`Expiration`.  The domain, the status and the auto-refresh flag of that descriptor are
those of the record, and the lead time is the record's as a `uint32`. -/
theorem Proto_expiration_inverted (c : models.Certificate) :
    (c.ExpiresAt = none →
        c.Proto = .panic "interface conversion: interface {} is nil, not time.Time")
      ∧ (∀ t, c.ExpiresAt = some t →
        ∃ d, c.Proto = .returned d
          ∧ d.Expiration = none
          ∧ d.Domain = c.Domain
          ∧ d.Status = c.Status.toInt
          ∧ d.Refresh = some ⟨c.AutoRefresh, (c.RefreshBeforeDays % 2 ^ 32).toNat⟩) := by
  refine ⟨fun h => ?_, fun t h => ?_⟩
  · simp [models.Certificate.Proto, h]
  · refine ⟨{ Domain := c.Domain
              Status := c.Status.toInt
              Expiration := none
              Refresh := some ⟨c.AutoRefresh, (c.RefreshBeforeDays % 2 ^ 32).toNat⟩ },
      ?_, rfl, rfl, rfl, rfl⟩
    simp only [models.Certificate.Proto, h]

/-- C28 on concrete records: the stored record of `example.com`, which expires at 100,
gets a descriptor without `Expiration`, and the same record with `ExpiresAt` null makes
`Proto` fault. -/
theorem Proto_expiration_inverted_witness :
    refStored.ExpiresAt = some 100
      ∧ (∃ d, refStored.Proto = .returned d
          ∧ d.Expiration = none
          ∧ d.Domain = refStored.Domain
          ∧ d.Status = refStored.Status.toInt
          ∧ d.Refresh
              = some ⟨refStored.AutoRefresh, (refStored.RefreshBeforeDays % 2 ^ 32).toNat⟩)
      ∧ models.Certificate.Proto { refStored with ExpiresAt := none }
          = .panic "interface conversion: interface {} is nil, not time.Time" :=
  ⟨rfl, (Proto_expiration_inverted refStored).2 100 rfl,
    (Proto_expiration_inverted { refStored with ExpiresAt := none }).1 rfl⟩

/-! ## The checks of a domain before issuance and renewal -/

/-- How `verifyDomain` ends, by the request it builds: with the error of building it, or,
with `net/http` as documented, with a fault on the nil body of the request built. -/
theorem verifyDomain_request (v : Verifier) (drawn : List Str) (domain : Str) :
    (∀ e, server.Server.verifyDomain.request v drawn domain = .error e →
        server.Server.verifyDomain v drawn domain = .returned (some e))
      ∧ (v.Laws → ∀ r, server.Server.verifyDomain.request v drawn domain = .ok r →
        server.Server.verifyDomain v drawn domain
          = .panic "invalid memory address or nil pointer dereference") := by
  unfold server.Server.verifyDomain.request server.Server.verifyDomain
  refine ⟨fun e he => ?_, fun hv r hr => ?_⟩
  · simp only [he]
  · have hbody := (hv.request _ _ _ r hr).2.2
    simp only [hr, hbody]

/-- C19 (code is wrong): `Create` with an empty domain returns an error and makes no call,
and with a domain that does not resolve it returns, with a nil error, the descriptor of
that domain with status `INVALID_DOMAIN`, having called the resolver only.  With a domain
that resolves, `verifyDomain` builds its request and sends nothing: when the request
builds, `Create` faults on the nil body, whatever the host would have echoed, and returns
no descriptor; only when the request does not build does it return the descriptor with
status `DOMAIN_VERIFICATION_FAILED`.  No `Obtain` and no `Insert` is made in any of
these runs. -/
theorem Create_echo_check_faults (w : server.World) (hv : w.verifier.Laws)
    (log : server.Log) (req : pb.CreateRequest) :
    (req.Domain = [] →
      ∃ err, server.Server.Create w log req = (.returned (none, some err), log))
    ∧ (req.Domain ≠ [] → ∀ e, w.LookupHost log req.Domain = some e →
        server.Server.Create w log req
          = (.returned (some ⟨⟨req.Domain, w.Status_INVALID_DOMAIN, none, none⟩⟩, none),
              log ++ [.LookupHost req.Domain]))
    ∧ (req.Domain ≠ [] → w.LookupHost log req.Domain = none →
        (∀ r, server.Server.verifyDomain.request w.verifier
            (server.drawn w.verifier (log ++ [.LookupHost req.Domain])) req.Domain = .ok r →
          server.Server.Create w log req
            = (.panic "invalid memory address or nil pointer dereference",
                log ++ [.LookupHost req.Domain, .verifyDomain req.Domain]))
        ∧ (∀ e, server.Server.verifyDomain.request w.verifier
            (server.drawn w.verifier (log ++ [.LookupHost req.Domain])) req.Domain
              = .error e →
          server.Server.Create w log req
            = (.returned
                (some ⟨⟨req.Domain, w.Status_DOMAIN_VERIFICATION_FAILED, none, none⟩⟩,
                  none),
                log ++ [.LookupHost req.Domain, .verifyDomain req.Domain]))) := by
  refine ⟨?_, ?_, ?_⟩
  · intro h
    exact ⟨.msg "create failed, empty domain", by simp [server.Server.Create, h]⟩
  · intro h e he
    simp [server.Server.Create, h, he]
  · intro h hdns
    have hreq := verifyDomain_request w.verifier
      (server.drawn w.verifier (log ++ [.LookupHost req.Domain])) req.Domain
    refine ⟨fun r hr => ?_, fun e he => ?_⟩
    · simp only [server.Server.Create, h, hdns, hreq.2 hv r hr, if_false]
    · simp only [server.Server.Create, h, hdns, hreq.1 e he, if_false]

/-- C19, run in the concrete world: for `example.com`, which resolves, the request builds
and `Create` faults after the two checks; `bad.invalid` does not resolve; for
`fe80::1%eth0` the request does not build; and the empty domain is refused. -/
theorem Create_echo_check_faults_witness :
    server.Server.Create (refWorld []) [] ⟨"example.com".toList, true, none⟩
        = (.panic "invalid memory address or nil pointer dereference",
            [] ++ [.LookupHost "example.com".toList, .verifyDomain "example.com".toList])
    ∧ server.Server.Create (refWorld []) [] ⟨"bad.invalid".toList, true, none⟩
        = (.returned (some ⟨⟨"bad.invalid".toList, 2, none, none⟩⟩, none),
            [.LookupHost "bad.invalid".toList])
    ∧ server.Server.Create (refWorld []) [] ⟨"fe80::1%eth0".toList, true, none⟩
        = (.returned (some ⟨⟨"fe80::1%eth0".toList, 3, none, none⟩⟩, none),
            [.LookupHost "fe80::1%eth0".toList, .verifyDomain "fe80::1%eth0".toList])
    ∧ ∃ err, server.Server.Create (refWorld []) [] ⟨[], true, none⟩
        = (.returned (none, some err), []) :=
  ⟨((Create_echo_check_faults (refWorld []) refVerifier_laws []
        ⟨"example.com".toList, true, none⟩).2.2 (by decide) (by decide)).1
      ⟨"GET".toList, "http://example.com/.well-known/echo/kkkkkkkk/".toList, none⟩
      (by decide),
    (Create_echo_check_faults (refWorld []) refVerifier_laws []
      ⟨"bad.invalid".toList, true, none⟩).2.1 (by decide) (.lib 20) (by decide),
    ((Create_echo_check_faults (refWorld []) refVerifier_laws []
        ⟨"fe80::1%eth0".toList, true, none⟩).2.2 (by decide) (by decide)).2
      (.lib 50) (by decide),
    (Create_echo_check_faults (refWorld []) refVerifier_laws [] ⟨[], true, none⟩).1 rfl⟩

